import Mathlib

/-!
# av1/encoder/encodemb.c : trellis optimizer and block encode pipeline

A shallow embedding of `av1_optimize_b`, `av1_xform_quant`, `encode_block`,
`av1_encode_block_intra` and `av1_encode_sb`.

Build configuration embedded here: `CONFIG_NEW_QUANT = 0`, `CONFIG_AOM_QM = 0`,
`CONFIG_AOM_HIGHBITDEPTH = 0` (the uniform quantizer, 8-bit path),
`CONFIG_EXT_TX && CONFIG_RECT_TX = 0`, `CONFIG_SUPERTX = 0`.  `CONFIG_VAR_TX` is a
boolean field of the pipeline environment.

Conventions.
* C `int`, `int64_t`, `tran_low_t` values are `Int`; the embedding describes runs in which
  no signed arithmetic overflows (signed overflow is undefined in C).  The one unsigned
  counter whose wrap-around is defined, `uint16_t band_left`, is kept modulo `65536`.
* Arrays are total functions from indices; a C pointer into a table is the table together
  with an integer offset.
* The two hypotheses of a trellis position, `tokens[i][0]` and `tokens[i][1]`, are indexed
  by `false` and `true`; the C value `best` (0 or 1) is a `Bool`.
* Tables, macros and helpers that encodemb.c takes from other files are fields of an
  environment structure.
* Stack arrays that the C code leaves uninitialised start from an arbitrary `Scratch`.
-/

namespace Av1

/-! ## Data model of `av1_optimize_b` -/

/-- One trellis hypothesis, `struct av1_token_state`. -/
structure av1_token_state where
  rate : Int
  error : Int
  next : Nat
  token : Int
  qc : Int
  dqc : Int
deriving DecidableEq, Repr

/-- What `av1_optimize_b` takes from other files: token constants (entropy.h), the value
cost helper (tokenize.h), the energy-class table and context helper (entropy.h), the
token cost tables (`mb->token_costs[..][plane_type][ref]`, indexed by band, by
"previous token was zero", by context and by token), the macro `RDCOST` (rd.h) with
arguments in the order `RM, DM, R, D`, and the band tables of the transform size. -/
structure TrellisEnv where
  EOB_TOKEN : Int
  ZERO_TOKEN : Int
  av1_get_token_cost : Int → Int × Int
  av1_pt_energy_class : Int → Nat
  get_coef_context : (Nat → Nat) → Nat → Nat
  token_costs : Int → Nat → Nat → Int → Int
  RDCOST : Int → Int → Int → Int → Int
  band_translate : Nat → Nat
  band_count_table : Int → Nat
  band_cum_count_table : Nat → Nat

/-- The arguments of one `av1_optimize_b` call, after the pointer set-up of lines 72-105:
the three coefficient buffers of the block (relative to `BLOCK_OFFSET`), `p->eobs[block]`,
`get_tx2d_size(tx_size)`, `pd->dequant`, the scan table, `get_tx_scale`, `mb->rdmult`,
`mb->rddiv`, `is_inter_block`, `pd->plane_type` and the caller's `ctx`. -/
structure OptBlock where
  coeff : Nat → Int
  qcoeff : Nat → Int
  dqcoeff : Nat → Int
  eob : Nat
  default_eob : Nat
  dequant_ptr : Nat → Int
  scan : Nat → Nat
  shift : Nat
  mb_rdmult : Int
  rddiv : Int
  ref : Nat
  plane_type : Nat
  ctx : Nat

/-- The initial contents of the uninitialised stack arrays `tokens`, `best_index` and
`token_cache`. -/
structure Scratch where
  tokens : Nat → Bool → av1_token_state
  best_index : Nat → Bool → Bool
  token_cache : Nat → Nat

/-- The mutable locals of `av1_optimize_b` that live across loop iterations.
`band_counts` and `token_costs` are the offsets of the two table pointers. -/
structure Trellis where
  tokens : Nat → Bool → av1_token_state
  best_index : Nat → Bool → Bool
  token_cache : Nat → Nat
  next : Nat
  shortcut : Bool
  band_left : Nat
  band_counts : Int
  token_costs : Int

/-- What the call leaves behind: the returned `final_eob`, the value stored in the
`uint16_t` slot `eobs[block]`, the two written buffers, and (ghost) the scan positions
visited by the write-back loop, in order; each visit writes `qcoeff` and `dqcoeff` at
`scan[i]` and nothing else writes them. -/
structure OptResult where
  final_eob : Int
  eobs_block : Int
  qcoeff : Nat → Int
  dqcoeff : Nat → Int
  visited : List Nat

/-- The table `plane_rd_mult[REF_TYPES][PLANE_TYPES]` (lines 60-62). -/
def plane_rd_mult (ref plane_type : Nat) : Int :=
  match ref, plane_type with
  | 0, 0 => 10
  | 0, 1 => 6
  | 1, 0 => 8
  | 1, 1 => 5
  | _, _ => 0

/-- Line 104: `(mb->rdmult * plane_rd_mult[ref][plane_type]) >> 1`. -/
def rdmult (b : OptBlock) : Int :=
  (b.mb_rdmult * plane_rd_mult b.ref b.plane_type) / 2

/-- Assignment to `tokens[i][k]`. -/
def setTok (t : Nat → Bool → av1_token_state) (i : Nat) (k : Bool) (v : av1_token_state) :
    Nat → Bool → av1_token_state :=
  fun j c => if j = i ∧ c = k then v else t j c

/-- Assignment to `best_index[i][k]`. -/
def setBest (t : Nat → Bool → Bool) (i : Nat) (k : Bool) (v : Bool) : Nat → Bool → Bool :=
  fun j c => if j = i ∧ c = k then v else t j c

/-- Lines 110-111: the band of the end-of-block position. -/
def band_init (env : TrellisEnv) (b : OptBlock) : Nat :=
  if b.eob < b.default_eob then env.band_translate b.eob else env.band_translate (b.eob - 1)

/-- Lines 103-139: the locals after the sentinel node has been initialised.  The sentinel
field `dqc` is not assigned and keeps its stack value. -/
def trellis_init (env : TrellisEnv) (b : OptBlock) (g : Scratch) : Trellis :=
  let band := band_init env b
  let sentinel : av1_token_state :=
    { rate := 0, error := 0, next := b.default_eob, token := env.EOB_TOKEN, qc := 0,
      dqc := (g.tokens b.eob false).dqc }
  { tokens := setTok (setTok g.tokens b.eob false sentinel) b.eob true sentinel
    best_index := g.best_index
    token_cache := g.token_cache
    next := b.eob
    shortcut := false
    band_left := (((b.eob : Int) - (env.band_cum_count_table band : Int) + 1) % 65536).toNat
    band_counts := (band : Int)
    token_costs := (band : Int) }

/-- Lines 142-145, the body of the first loop at scan position `i`. -/
def init_step (env : TrellisEnv) (b : OptBlock) (i : Nat) (s : Trellis) : Trellis :=
  let rc := b.scan i
  let ct := env.av1_get_token_cost (b.qcoeff rc)
  { s with
    tokens := setTok s.tokens i false { s.tokens i false with rate := ct.1, token := ct.2 }
    token_cache := Function.update s.token_cache rc (env.av1_pt_energy_class ct.2) }

/-- Lines 141-146: `for (i = 0; i < n; i++)`. -/
def init_loop (env : TrellisEnv) (b : OptBlock) : Nat → Trellis → Trellis
  | 0, s => s
  | n + 1, s => init_step env b n (init_loop env b n s)

/-- Lines 239-243 and 363-367: `if (!(--band_left)) { --band_counts; band_left =
*band_counts; --token_costs; }` on the `uint16_t` counter, whose decrement is the
addition of `65535` modulo `65536`. -/
def band_advance (env : TrellisEnv) (s : Trellis) : Trellis :=
  let bl := (65535 + s.band_left) % 65536
  if bl = 0 then
    { s with
      band_left := env.band_count_table (s.band_counts - 1)
      band_counts := s.band_counts - 1
      token_costs := s.token_costs - 1 }
  else { s with band_left := bl }

/-- The index `rc != 0` into `dequant_ptr`. -/
def dq_index (rc : Nat) : Nat := if rc ≠ 0 then 1 else 0

/-- Lines 203-229 (uniform quantizer): the value given to `shortcut` for a nonzero `x`. -/
def shortcut_cond (b : OptBlock) (rc : Nat) (x : Int) : Bool :=
  if (x.natAbs : Int) > 3 then false
  else
    decide ((x.natAbs : Int) * b.dequant_ptr (dq_index rc) >
        ((b.coeff rc).natAbs : Int) * 2 ^ b.shift ∧
      (x.natAbs : Int) * b.dequant_ptr (dq_index rc) <
        ((b.coeff rc).natAbs : Int) * 2 ^ b.shift + b.dequant_ptr (dq_index rc))

/-- Line 175, 276 and 380: `best = rd_cost1 < rd_cost0`. -/
def pick_best (rd_cost0 rd_cost1 : Int) : Bool := decide (rd_cost1 < rd_cost0)

/-- Lines 163-172 and 177-180: `rate0` and `rate1` of the keep hypothesis once the cost
of the successor token has been added (`rate1` only when `next_shortcut` is set). -/
def keep_rates (env : TrellisEnv) (b : OptBlock) (i : Nat) (s : Trellis) : Int × Int :=
  let next := s.next
  let pt := env.get_coef_context s.token_cache (i + 1)
  let rate0 :=
    if next < b.default_eob then
      (s.tokens next false).rate + env.token_costs s.token_costs 0 pt (s.tokens next false).token
    else (s.tokens next false).rate
  let rate1 :=
    if s.shortcut ∧ next < b.default_eob then
      (s.tokens next true).rate + env.token_costs s.token_costs 0 pt (s.tokens next true).token
    else (s.tokens next true).rate
  (rate0, rate1)

/-- Line 173: `rd_cost0` (`k = false`) and `rd_cost1` (`k = true`) of the keep hypothesis. -/
def keep_rd_cost (env : TrellisEnv) (b : OptBlock) (i : Nat) (s : Trellis) (k : Bool) : Int :=
  env.RDCOST (rdmult b) b.rddiv
    (if k then (keep_rates env b i s).2 else (keep_rates env b i s).1)
    (s.tokens s.next k).error

/-- Lines 166-182: the successor index `best` of the keep hypothesis. -/
def keep_best (env : TrellisEnv) (b : OptBlock) (i : Nat) (s : Trellis) : Bool :=
  if s.shortcut then pick_best (keep_rd_cost env b i s false) (keep_rd_cost env b i s true)
  else false

/-- Lines 160-196: the keep hypothesis `tokens[i][0]` of a nonzero coefficient, with the
successor index `best` recorded in `best_index[i][0]`. -/
def keep_candidate (env : TrellisEnv) (b : OptBlock) (i : Nat) (s : Trellis) :
    av1_token_state × Bool :=
  let rc := b.scan i
  let x := b.qcoeff rc
  let next := s.next
  let error0 := (s.tokens next false).error
  let error1 := (s.tokens next true).error
  let rate0 := (keep_rates env b i s).1
  let rate1 := (keep_rates env b i s).2
  let best := keep_best env b i s
  let dx := (b.dqcoeff rc - b.coeff rc) * 2 ^ b.shift
  let d2 := dx * dx
  ({ rate := (s.tokens i false).rate + (if best then rate1 else rate0)
     error := d2 + (if best then error1 else error0)
     next := next
     token := (s.tokens i false).token
     qc := x
     dqc := b.dqcoeff rc }, best)

/-- Line 232: `sz = -(x < 0)`. -/
def sign_mask (x : Int) : Int := if x < 0 then -1 else 0

/-- Lines 232-233: `sz = -(x < 0); x -= 2 * sz + 1`, the value one step closer to zero. -/
def round_down (x : Int) : Int := x - (2 * sign_mask x + 1)

/-- Lines 248-258: `base_bits`, `t0` and `t1` of the round-down hypothesis. -/
def down_tokens (env : TrellisEnv) (b : OptBlock) (i : Nat) (s : Trellis) : Int × Int × Int :=
  let x := round_down (b.qcoeff (b.scan i))
  let next := s.next
  if x = 0 then
    (0,
     (if (s.tokens next false).token = env.EOB_TOKEN then env.EOB_TOKEN else env.ZERO_TOKEN),
     (if (s.tokens next true).token = env.EOB_TOKEN then env.EOB_TOKEN else env.ZERO_TOKEN))
  else
    ((env.av1_get_token_cost x).1, (env.av1_get_token_cost x).2, (env.av1_get_token_cost x).2)

/-- Lines 199-200 and 260-285: `rate0` and `rate1` of the round-down hypothesis once the
cost of the successor token has been added, and the token cache left behind. -/
def down_rates (env : TrellisEnv) (b : OptBlock) (i : Nat) (s : Trellis) :
    Int × Int × (Nat → Nat) :=
  let rc := b.scan i
  let x := round_down (b.qcoeff rc)
  let next := s.next
  let nz : Nat := if x = 0 then 1 else 0
  let t0 := (down_tokens env b i s).2.1
  let t1 := (down_tokens env b i s).2.2
  let use0 : Bool := decide (next < b.default_eob ∧ t0 ≠ env.EOB_TOKEN)
  let cache0 :=
    if use0 then Function.update s.token_cache rc (env.av1_pt_energy_class t0)
    else s.token_cache
  let rate0 :=
    if use0 then
      (s.tokens next false).rate +
        env.token_costs s.token_costs nz (env.get_coef_context cache0 (i + 1))
          (s.tokens next false).token
    else (s.tokens next false).rate
  let use1 : Bool := decide (s.shortcut ∧ next < b.default_eob ∧ t1 ≠ env.EOB_TOKEN)
  let cache1 :=
    if use1 then Function.update cache0 rc (env.av1_pt_energy_class t1) else cache0
  let rate1 :=
    if use1 then
      (s.tokens next true).rate +
        env.token_costs s.token_costs nz (env.get_coef_context cache1 (i + 1))
          (s.tokens next true).token
    else (s.tokens next true).rate
  (rate0, rate1, cache1)

/-- Line 274: `rd_cost0` (`k = false`) and `rd_cost1` (`k = true`) of the round-down
hypothesis. -/
def down_rd_cost (env : TrellisEnv) (b : OptBlock) (i : Nat) (s : Trellis) (k : Bool) : Int :=
  env.RDCOST (rdmult b) b.rddiv
    (if k then (down_rates env b i s).2.1 else (down_rates env b i s).1)
    (s.tokens s.next k).error

/-- Lines 260-285: the successor index `best` of the round-down hypothesis. -/
def down_best (env : TrellisEnv) (b : OptBlock) (i : Nat) (s : Trellis) : Bool :=
  if s.shortcut then pick_best (down_rd_cost env b i s false) (down_rd_cost env b i s true)
  else false

/-- Lines 184 and 304 (low bit depth): `dx` of the round-down hypothesis,
`(dqcoeff[rc] - coeff[rc]) * (1 << shift)` less `(dequant_ptr[rc != 0] + sz) ^ sz`. -/
def down_dx (b : OptBlock) (rc : Nat) : Int :=
  (b.dqcoeff rc - b.coeff rc) * 2 ^ b.shift -
    Int.xor (b.dequant_ptr (dq_index rc) + sign_mask (b.qcoeff rc)) (sign_mask (b.qcoeff rc))

/-- Lines 315-337 (uniform quantizer): the dequantized value of the round-down hypothesis.
`dq_step[rc != 0]` is `dequant_ptr[rc != 0] >> shift` (line 101). -/
def down_dqc (b : OptBlock) (rc : Nat) : Int :=
  let x := round_down (b.qcoeff rc)
  let offset0 := b.dequant_ptr (dq_index rc) / 2 ^ b.shift
  let offset :=
    if Int.land (b.shift : Int) x ≠ 0 then offset0 + Int.land (b.dequant_ptr (dq_index rc)) 1
    else offset0
  if x ≠ 0 then
    (if sign_mask (b.qcoeff rc) = 0 then b.dqcoeff rc - offset else b.dqcoeff rc + offset)
  else 0

/-- Lines 231-341 on the branch `shortcut != 0`: the round-down hypothesis `tokens[i][1]`,
the successor index recorded in `best_index[i][1]`, and the token cache it leaves. -/
def down_candidate (env : TrellisEnv) (b : OptBlock) (i : Nat) (s : Trellis) :
    av1_token_state × Bool × (Nat → Nat) :=
  let rc := b.scan i
  let next := s.next
  let error0 := (s.tokens next false).error
  let error1 := (s.tokens next true).error
  let base_bits := (down_tokens env b i s).1
  let t0 := (down_tokens env b i s).2.1
  let t1 := (down_tokens env b i s).2.2
  let rate0 := (down_rates env b i s).1
  let rate1 := (down_rates env b i s).2.1
  let best := down_best env b i s
  let d2 := down_dx b rc * down_dx b rc
  ({ rate := base_bits + (if best then rate1 else rate0)
     error := d2 + (if best then error1 else error0)
     next := next
     token := if best then t1 else t0
     qc := round_down (b.qcoeff rc)
     dqc := down_dqc b rc }, best, (down_rates env b i s).2.2)

/-- Lines 346-359: the update for a zero coefficient at scan position `i`. -/
def zero_update (env : TrellisEnv) (i : Nat) (s : Trellis) : Trellis :=
  let next := s.next
  let t0 := (s.tokens next false).token
  let t1 := (s.tokens next true).token
  let pt := env.get_coef_context s.token_cache (i + 1)
  let tok0 :=
    if t0 ≠ env.EOB_TOKEN then
      setTok s.tokens next false
        { s.tokens next false with
          rate := (s.tokens next false).rate + env.token_costs s.token_costs 1 pt t0
          token := env.ZERO_TOKEN }
    else s.tokens
  let tok1 :=
    if t1 ≠ env.EOB_TOKEN then
      setTok tok0 next true
        { tok0 next true with
          rate := (tok0 next true).rate + env.token_costs s.token_costs 1 pt t1
          token := env.ZERO_TOKEN }
    else tok0
  { s with
    tokens := tok1
    best_index := setBest (setBest s.best_index i true false) i false false
    shortcut := decide ((tok1 next false).rate ≠ (tok1 next true).rate) }

/-- Lines 149-367: one iteration of the backward loop, at scan position `i`. -/
def trellis_step (env : TrellisEnv) (b : OptBlock) (i : Nat) (s : Trellis) : Trellis :=
  let rc := b.scan i
  let x := b.qcoeff rc
  if x ≠ 0 then
    let k := keep_candidate env b i s
    let s0 : Trellis :=
      { s with
        tokens := setTok s.tokens i false k.1
        best_index := setBest s.best_index i false k.2 }
    if shortcut_cond b rc x then
      let d := down_candidate env b i s
      band_advance env
        { s0 with
          tokens := setTok s0.tokens i true d.1
          best_index := setBest s0.best_index i true d.2.1
          token_cache := d.2.2
          next := i
          shortcut := true }
    else
      band_advance env
        { s0 with
          tokens := setTok s0.tokens i true (s0.tokens i false)
          best_index := setBest s0.best_index i true (s0.best_index i false)
          next := i
          shortcut := false }
  else band_advance env (zero_update env i s)

/-- Lines 148-368: `for (i = n; i-- > 0;)`. -/
def trellis_loop (env : TrellisEnv) (b : OptBlock) : Nat → Trellis → Trellis
  | 0, s => s
  | i + 1, s => trellis_loop env b i (trellis_step env b i s)

/-- The locals when the backward loop has finished (line 368). -/
def trellis_final (env : TrellisEnv) (b : OptBlock) (g : Scratch) : Trellis :=
  trellis_loop env b b.eob (init_loop env b b.eob (trellis_init env b g))

/-- Lines 371-379: `rd_cost0` and `rd_cost1` of the two terminal hypotheses, each with the
cost of its first token under the caller's `ctx`. -/
def final_rd_cost (env : TrellisEnv) (b : OptBlock) (s : Trellis) (k : Bool) : Int :=
  env.RDCOST (rdmult b) b.rddiv
    ((s.tokens s.next k).rate + env.token_costs s.token_costs 0 b.ctx (s.tokens s.next k).token)
    (s.tokens s.next k).error

/-- The state of the write-back loop: `i`, `best`, `final_eob`, the two buffers and the
ghost list of visited positions. -/
structure WriteBack where
  i : Nat
  best : Bool
  final_eob : Int
  qcoeff : Nat → Int
  dqcoeff : Nat → Int
  visited : List Nat

/-- Lines 385-392: the body of the write-back loop. -/
def write_back_step (b : OptBlock) (s : Trellis) (w : WriteBack) : WriteBack :=
  let x := (s.tokens w.i w.best).qc
  let rc := b.scan w.i
  { i := (s.tokens w.i w.best).next
    best := s.best_index w.i w.best
    final_eob := if x ≠ 0 then (w.i : Int) else w.final_eob
    qcoeff := Function.update w.qcoeff rc x
    dqcoeff := Function.update w.dqcoeff rc (s.tokens w.i w.best).dqc
    visited := w.visited ++ [w.i] }

/-- Lines 384-393: `for (i = next; i < eob; i = next)`, run for at most `fuel`
iterations; `none` when the loop has not ended by then. -/
def write_back (b : OptBlock) (s : Trellis) : Nat → WriteBack → Option WriteBack
  | 0, w => if w.i < b.eob then none else some w
  | fuel + 1, w =>
    if w.i < b.eob then write_back b s fuel (write_back_step b s w) else some w

/-- The write-back state at loop entry (lines 380-384). -/
def write_back_init (env : TrellisEnv) (b : OptBlock) (s : Trellis) : WriteBack :=
  { i := s.next
    best := pick_best (final_rd_cost env b s false) (final_rd_cost env b s true)
    final_eob := -1
    qcoeff := b.qcoeff
    dqcoeff := b.dqcoeff
    visited := [] }

/-- The function `av1_optimize_b` (lines 70-399), with the write-back loop bounded by
`fuel` iterations. -/
def av1_optimize_b (env : TrellisEnv) (b : OptBlock) (g : Scratch) (fuel : Nat) :
    Option OptResult :=
  let s := trellis_final env b g
  match write_back b s fuel (write_back_init env b s) with
  | none => none
  | some w =>
    some
      { final_eob := w.final_eob + 1
        eobs_block := (w.final_eob + 1) % 65536
        qcoeff := w.qcoeff
        dqcoeff := w.dqcoeff
        visited := w.visited }

/-- The locals at line 148 when `k` iterations of the backward loop have run, that is
when the scan positions `eob - 1, .., eob - k` have been processed. -/
def trellis_after (env : TrellisEnv) (b : OptBlock) (g : Scratch) : Nat → Trellis
  | 0 => init_loop env b b.eob (trellis_init env b g)
  | k + 1 => trellis_step env b (b.eob - (k + 1)) (trellis_after env b g k)

/-- Lines 184-185 and 304-306: the squared-error term `d2` of hypothesis `k` of the node
of scan position `i`: that of the round-down candidate when `k = 1` and the shortcut test
of lines 203-229 holds, that of the keep candidate otherwise (the second hypothesis is
then a copy of the first). -/
def cand_error (b : OptBlock) (i : Nat) (k : Bool) : Int :=
  if k = true ∧ shortcut_cond b (b.scan i) (b.qcoeff (b.scan i)) = true then
    down_dx b (b.scan i) * down_dx b (b.scan i)
  else
    ((b.dqcoeff (b.scan i) - b.coeff (b.scan i)) * 2 ^ b.shift) *
      ((b.dqcoeff (b.scan i) - b.coeff (b.scan i)) * 2 ^ b.shift)

/-- Lines 384-393: the pairs `(i, best)` of the iterations of the write-back loop, in
order, for at most `fuel` iterations. -/
def write_back_path (b : OptBlock) (s : Trellis) : Nat → WriteBack → List (Nat × Bool)
  | 0, _ => []
  | fuel + 1, w =>
    if w.i < b.eob then (w.i, w.best) :: write_back_path b s fuel (write_back_step b s w)
    else []

/-! ## Data model of the block encode pipeline

Transform sizes, block sizes and planes are their C enum values.  The coefficient buffers
of a plane are whole-plane arrays; `BLOCK_OFFSET(buf, block)` is the index `16 * block`.
A run that violates an assertion, or whose loop does not end, is `none`. -/

/-- The quantization policy `AV1_XFORM_QUANT` (encodemb.h), in the order of the rows of
`quant_func_list`: `AV1_XFORM_QUANT_FP`, `_B`, `_DC`, `_SKIP_QUANT`. -/
inductive AV1_XFORM_QUANT where
  | FP
  | B
  | DC
  | SKIP_QUANT
deriving DecidableEq, Repr

/-- The forward transform option `FWD_TXFM_OPT` (hybrid_fwd_txfm.h). -/
inductive FWD_TXFM_OPT where
  | NORMAL
  | DC
deriving DecidableEq, Repr

/-- The table `fwd_txfm_opt_list` (lines 429-431). -/
def fwd_txfm_opt_list : AV1_XFORM_QUANT → FWD_TXFM_OPT
  | .FP => .NORMAL
  | .B => .NORMAL
  | .DC => .DC
  | .SKIP_QUANT => .NORMAL

/-- Ghost log entries: one per call of a collaborator, and `block_end` when `encode_block`
or `av1_encode_block_intra` returns, with the end-of-block of the block at that moment. -/
inductive Call where
  | subtract_block (plane : Nat)
  | predict_intra (plane block : Nat)
  | fwd_txfm (plane block : Nat) (opt : FWD_TXFM_OPT)
  | quantize (plane block : Nat) (idx : AV1_XFORM_QUANT)
  | quantize_skip (plane block : Nat)
  | optimize_b (plane block : Nat)
  | inv_txfm_add (plane block : Nat) (eob : Nat)
  | block_end (plane block : Nat) (eob : Nat)
deriving DecidableEq, Repr

/-- The buffers of one plane: `p->src.buf`, `pd->dst.buf`, `p->src_diff`, `p->coeff`,
`p->qcoeff`, `pd->dqcoeff` and `p->eobs`. -/
structure PlaneBuf where
  src : Nat → Int
  dst : Nat → Int
  src_diff : Nat → Int
  coeff : Nat → Int
  qcoeff : Nat → Int
  dqcoeff : Nat → Int
  eobs : Nat → Nat

/-- The state the pipeline mutates: the plane buffers, the entropy context arrays that
`args->ta` and `args->tl` point into (one pair per plane), the unit skip flag
`*(args->skip)`, that is `mbmi->skip`, and the ghost call log. -/
structure EncState where
  plane : Nat → PlaneBuf
  ta : Nat → Nat → Nat
  tl : Nat → Nat → Nat
  skip : Nat
  calls : List Call

/-- The arguments of a per-block visitor: `plane, block, blk_row, blk_col, plane_bsize,
tx_size`. -/
structure BlockArgs where
  plane : Nat
  block : Nat
  blk_row : Nat
  blk_col : Nat
  plane_bsize : Nat
  tx_size : Nat
deriving DecidableEq, Repr

/-- What the pipeline reads and does not write: the build flag `CONFIG_VAR_TX`, the lookup
tables and geometry of other files, the fields of `x`, `xd` and `mbmi` that are only
read, and the collaborators (forward transform, quantizers, inverse transform, intra
predictor, context helpers, block iterator).  A collaborator that writes a buffer is a
function from the buffers it is handed to the new contents of the buffer it writes. -/
structure PipeEnv where
  CONFIG_VAR_TX : Bool
  MAX_MB_PLANE : Nat
  get_plane_block_size : Nat → Nat → Nat
  num_4x4_blocks_wide_lookup : Nat → Nat
  num_4x4_blocks_high_lookup : Nat → Nat
  b_width_log2_lookup : Nat → Nat
  num_4x4_blocks_wide_txsize_lookup : Nat → Nat
  num_4x4_blocks_high_txsize_lookup : Nat → Nat
  num_4x4_blocks_txsize_lookup : Nat → Nat
  txsize_to_bsize : Nat → Nat
  max_txsize_lookup : Nat → Nat
  uv_txsize_lookup : Nat → Nat → Nat
  subsampling_x : Nat → Nat
  subsampling_y : Nat → Nat
  mb_to_bottom_edge : Int
  mb_to_right_edge : Int
  inter_tx_size : Nat → Nat → Nat
  plane_tx_size : Nat → Nat
  src_stride : Nat → Nat
  dst_stride : Nat → Nat
  x_skip : Nat
  skip_block : Nat
  blk_skip : Nat → Nat → Nat
  get_tx2d_size : Nat → Nat
  get_tx_scale : Nat → Nat → Nat → Nat
  get_scan : Nat → Nat → Nat → Nat → Nat
  dequant : Nat → Nat → Int
  mb_rdmult : Int
  rddiv : Int
  is_inter : Nat
  plane_type : Nat → Nat
  trellis_env : Nat → Nat → TrellisEnv
  stack : Nat → Nat → Scratch
  fwd_txfm : BlockArgs → FWD_TXFM_OPT → (Nat → Int) → (Nat → Int) → Nat → Int
  quantize : AV1_XFORM_QUANT → BlockArgs → (Nat → Int) → (Nat → Int) → (Nat → Int) →
    (Nat → Int) × (Nat → Int) × Nat
  inv_txfm_add : BlockArgs → Nat → (Nat → Int) → (Nat → Int) → Nat → Int
  av1_predict_intra_block : BlockArgs → (Nat → Int) → Nat → Int
  get_entropy_context : Nat → (Nat → Nat) → (Nat → Nat) → Nat
  combine_entropy_contexts : Nat → Nat → Nat
  av1_get_entropy_contexts : Nat → Nat → Nat → (Nat → Nat) × (Nat → Nat)
  foreach_transformed_block : Nat → Nat → List BlockArgs

/-- Replace the buffers of one plane. -/
def set_plane (st : EncState) (plane : Nat) (p : PlaneBuf) : EncState :=
  { st with plane := Function.update st.plane plane p }

/-- Append an entry to the ghost call log. -/
def log_call (st : EncState) (c : Call) : EncState :=
  { st with calls := st.calls ++ [c] }

/-- Modelled from the spec: the residual primitive `aom_subtract_block` (aom_dsp),
`residual[x,y] = source[x,y] - prediction[x,y]` over `rows` by `cols` samples, row by
row, each buffer addressed from its own offset with its own stride. -/
def aom_subtract_block (rows cols : Nat) (diff : Nat → Int) (diff_off diff_stride : Nat)
    (src : Nat → Int) (src_off src_stride : Nat) (pred : Nat → Int)
    (pred_off pred_stride : Nat) : Nat → Int :=
  (List.range rows).foldl
    (fun d r =>
      (List.range cols).foldl
        (fun d c =>
          Function.update d (diff_off + r * diff_stride + c)
            (src (src_off + r * src_stride + c) - pred (pred_off + r * pred_stride + c)))
        d)
    diff

/-- Modelled from the spec: `av1_quantize_skip` (quantize.c), which "forces zero
coefficients with end-of-block = 0": it clears the first `n_coeffs` entries of the two
buffers it is handed and stores 0 through `eob_ptr`. -/
def av1_quantize_skip (n_coeffs off : Nat) (p : PlaneBuf) (block : Nat) : PlaneBuf :=
  { p with
    qcoeff := fun k => if off ≤ k ∧ k < off + n_coeffs then 0 else p.qcoeff k
    dqcoeff := fun k => if off ≤ k ∧ k < off + n_coeffs then 0 else p.dqcoeff k
    eobs := Function.update p.eobs block 0 }

/-- The function `av1_subtract_plane` (lines 31-48), low bit depth. -/
def av1_subtract_plane (env : PipeEnv) (bsize plane : Nat) (st : EncState) : EncState :=
  let p := st.plane plane
  let plane_bsize := env.get_plane_block_size bsize plane
  let bw := 4 * env.num_4x4_blocks_wide_lookup plane_bsize
  let bh := 4 * env.num_4x4_blocks_high_lookup plane_bsize
  log_call
    (set_plane st plane
      { p with
        src_diff :=
          aom_subtract_block bh bw p.src_diff 0 bw p.src 0 (env.src_stride plane) p.dst 0
            (env.dst_stride plane) })
    (Call.subtract_block plane)

/-- The function `av1_xform_quant` (lines 433-503), low bit depth: the forward transform
is run for every policy; the quantizer of the policy, or `av1_quantize_skip` when
`x->skip_block` is set, only when the policy is not `AV1_XFORM_QUANT_SKIP_QUANT`. -/
def av1_xform_quant (env : PipeEnv) (a : BlockArgs) (xform_quant_idx : AV1_XFORM_QUANT)
    (st : EncState) : EncState :=
  let p := st.plane a.plane
  let tx2d_size := env.get_tx2d_size a.tx_size
  let opt := fwd_txfm_opt_list xform_quant_idx
  let p1 : PlaneBuf := { p with coeff := env.fwd_txfm a opt p.src_diff p.coeff }
  let st1 := log_call (set_plane st a.plane p1) (Call.fwd_txfm a.plane a.block opt)
  if xform_quant_idx ≠ AV1_XFORM_QUANT.SKIP_QUANT then
    if env.skip_block = 0 then
      let r := env.quantize xform_quant_idx a p1.coeff p1.qcoeff p1.dqcoeff
      log_call
        (set_plane st1 a.plane
          { p1 with
            qcoeff := r.1
            dqcoeff := r.2.1
            eobs := Function.update p1.eobs a.block r.2.2 })
        (Call.quantize a.plane a.block xform_quant_idx)
    else
      log_call (set_plane st1 a.plane (av1_quantize_skip tx2d_size (16 * a.block) p1 a.block))
        (Call.quantize_skip a.plane a.block)
  else st1

/-- The `OptBlock` that `av1_optimize_b(cm, x, plane, block, tx_size, ctx)` works on. -/
def opt_block (env : PipeEnv) (a : BlockArgs) (ctx : Nat) (st : EncState) : OptBlock :=
  { coeff := fun k => (st.plane a.plane).coeff (16 * a.block + k)
    qcoeff := fun k => (st.plane a.plane).qcoeff (16 * a.block + k)
    dqcoeff := fun k => (st.plane a.plane).dqcoeff (16 * a.block + k)
    eob := (st.plane a.plane).eobs a.block
    default_eob := env.get_tx2d_size a.tx_size
    dequant_ptr := env.dequant a.plane
    scan := env.get_scan a.plane a.block a.tx_size
    shift := env.get_tx_scale a.plane a.block a.tx_size
    mb_rdmult := env.mb_rdmult
    rddiv := env.rddiv
    ref := env.is_inter
    plane_type := env.plane_type a.plane
    ctx := ctx }

/-- The call `av1_optimize_b(cm, x, plane, block, tx_size, ctx)` on the pipeline state: the
state it leaves and the value it returns.  The write-back loop is given `eob` iterations,
which is enough for it to end. -/
def optimize_b_call (env : PipeEnv) (a : BlockArgs) (ctx : Nat) (st : EncState) :
    Option (EncState × Int) :=
  let blk := opt_block env a ctx st
  match av1_optimize_b (env.trellis_env a.plane a.tx_size) blk (env.stack a.plane a.block)
      blk.eob with
  | none => none
  | some r =>
    let p := st.plane a.plane
    some
      (log_call
        (set_plane st a.plane
          { p with
            qcoeff := fun k => if 16 * a.block ≤ k then r.qcoeff (k - 16 * a.block)
              else p.qcoeff k
            dqcoeff := fun k => if 16 * a.block ≤ k then r.dqcoeff (k - 16 * a.block)
              else p.dqcoeff k
            eobs := Function.update p.eobs a.block r.eobs_block.toNat })
        (Call.optimize_b a.plane a.block), r.final_eob)

/-- Lines 829-834: `for (i = 0; i < n; ++i) a[i] = a[0];` on the array `t` from index
`off`. -/
def broadcast_ctx (t : Nat → Nat) (off n : Nat) : Nat → Nat :=
  (List.range n).foldl (fun t i => Function.update t (off + i) (t off)) t

/-- Lines 822-835: the entropy context flag of the block is stored through `a` and `l`
and, with `CONFIG_VAR_TX`, copied over the 4x4 positions the transform spans. -/
def store_ctx (env : PipeEnv) (a : BlockArgs) (flag : Nat) (st : EncState) : EncState :=
  let ta0 := Function.update (st.ta a.plane) a.blk_col flag
  let tl0 := Function.update (st.tl a.plane) a.blk_row flag
  if env.CONFIG_VAR_TX then
    { st with
      ta := Function.update st.ta a.plane
        (broadcast_ctx ta0 a.blk_col (env.num_4x4_blocks_wide_txsize_lookup a.tx_size))
      tl := Function.update st.tl a.plane
        (broadcast_ctx tl0 a.blk_row (env.num_4x4_blocks_high_txsize_lookup a.tx_size)) }
  else
    { st with
      ta := Function.update st.ta a.plane ta0
      tl := Function.update st.tl a.plane tl0 }

/-- Lines 841-854 and 1130-1142: the call of `inv_txfm_add` on the block, with the
current `p->eobs[block]` as `inv_txfm_param.eob`. -/
def inv_txfm_call (env : PipeEnv) (a : BlockArgs) (st : EncState) : EncState :=
  let p := st.plane a.plane
  log_call
    (set_plane st a.plane { p with dst := env.inv_txfm_add a (p.eobs a.block) p.dqcoeff p.dst })
    (Call.inv_txfm_add a.plane a.block (p.eobs a.block))

/-- Lines 822-826 and 1117-1121: run the optimizer when `p->eobs[block]` is nonzero and
give the entropy context flag of the block. -/
def optimize_if_coded (env : PipeEnv) (a : BlockArgs) (ctx : Nat) (st : EncState) :
    Option (EncState × Nat) :=
  if (st.plane a.plane).eobs a.block ≠ 0 then
    match optimize_b_call env a ctx st with
    | none => none
    | some r => some (r.1, if r.2 > 0 then 1 else 0)
  else some (st, 0)

/-- Lines 837-854: clear the unit skip flag and reconstruct when the block has
coefficients; the ghost entry `block_end` records the end-of-block at return. -/
def finish_block (env : PipeEnv) (a : BlockArgs) (st : EncState) : EncState :=
  let eob := (st.plane a.plane).eobs a.block
  let st1 : EncState := if eob ≠ 0 then { st with skip := 0 } else st
  if eob = 0 then log_call st1 (Call.block_end a.plane a.block eob)
  else log_call (inv_txfm_call env a st1) (Call.block_end a.plane a.block eob)

/-- Line 802: the entry `x->blk_skip[plane][(blk_row << bwl) + blk_col]` of the block. -/
def blk_skip_at (env : PipeEnv) (a : BlockArgs) : Nat :=
  env.blk_skip a.plane (a.blk_row * 2 ^ env.b_width_log2_lookup a.plane_bsize + a.blk_col)

/-- Lines 792-798: the entropy context `ctx` of the block. -/
def block_ctx (env : PipeEnv) (a : BlockArgs) (st : EncState) : Nat :=
  if env.CONFIG_VAR_TX then
    env.get_entropy_context a.tx_size (fun i => st.ta a.plane (a.blk_col + i))
      (fun i => st.tl a.plane (a.blk_row + i))
  else env.combine_entropy_contexts (st.ta a.plane a.blk_col) (st.tl a.plane a.blk_row)

/-- Lines 804-820: transform and quantize with the FP policy; with `CONFIG_VAR_TX`, a
block marked in `x->blk_skip` is not transformed and its end-of-block is set to 0. -/
def quantize_block (env : PipeEnv) (a : BlockArgs) (st : EncState) : EncState :=
  if env.CONFIG_VAR_TX ∧ blk_skip_at env a ≠ 0 then
    set_plane st a.plane
      { st.plane a.plane with eobs := Function.update (st.plane a.plane).eobs a.block 0 }
  else av1_xform_quant env a AV1_XFORM_QUANT.FP st

/-- The function `encode_block` (lines 774-855).  The assertion of line 802 fails when
the `blk_skip` entry holds the magic number 234. -/
def encode_block (env : PipeEnv) (a : BlockArgs) (st : EncState) : Option EncState :=
  if env.CONFIG_VAR_TX ∧ blk_skip_at env a = 234 then none
  else
    match optimize_if_coded env a (block_ctx env a st) (quantize_block env a st) with
    | none => none
    | some r => some (finish_block env a (store_ctx env a r.2 r.1))

/-- Lines 871-879: the clipping test of `encode_block_inter`. -/
def outside_frame (env : PipeEnv) (plane plane_bsize blk_row blk_col : Nat) : Bool :=
  let max_blocks_high : Int :=
    if env.mb_to_bottom_edge < 0 then
      (env.num_4x4_blocks_high_lookup plane_bsize : Int) +
        env.mb_to_bottom_edge / 2 ^ (5 + env.subsampling_y plane)
    else (env.num_4x4_blocks_high_lookup plane_bsize : Int)
  let max_blocks_wide : Int :=
    if env.mb_to_right_edge < 0 then
      (env.num_4x4_blocks_wide_lookup plane_bsize : Int) +
        env.mb_to_right_edge / 2 ^ (5 + env.subsampling_x plane)
    else (env.num_4x4_blocks_wide_lookup plane_bsize : Int)
  decide ((blk_row : Int) ≥ max_blocks_high ∨ (blk_col : Int) ≥ max_blocks_wide)

/-- Lines 881-883: the transform size requested for the position. -/
def requested_tx_size (env : PipeEnv) (a : BlockArgs) : Nat :=
  let bsize := env.txsize_to_bsize a.tx_size
  let tx_row := a.blk_row / 2 ^ (1 - env.subsampling_y a.plane)
  let tx_col := a.blk_col / 2 ^ (1 - env.subsampling_x a.plane)
  if a.plane ≠ 0 then env.uv_txsize_lookup bsize (env.inter_tx_size tx_row tx_col)
  else env.inter_tx_size tx_row tx_col

/-- The function `encode_block_inter` (lines 858-909, `CONFIG_VAR_TX`), by recursion on
`tx_size`.  A failed `assert(bsl > 0)` and a split of the smallest transform size
(`tx_size - 1` out of range) are `none`. -/
def encode_block_inter (env : PipeEnv) (plane plane_bsize : Nat) :
    Nat → Nat → Nat → Nat → EncState → Option EncState
  | tx_size, block, blk_row, blk_col, st =>
    let a : BlockArgs :=
      { plane := plane, block := block, blk_row := blk_row, blk_col := blk_col,
        plane_bsize := plane_bsize, tx_size := tx_size }
    if outside_frame env plane plane_bsize blk_row blk_col then some st
    else if tx_size = requested_tx_size env a then encode_block env a st
    else
      let bsl := env.b_width_log2_lookup (env.txsize_to_bsize tx_size)
      if bsl = 0 then none
      else
        match tx_size with
        | 0 => none
        | t + 1 =>
          let step := env.num_4x4_blocks_txsize_lookup t
          [0, 1, 2, 3].foldlM
            (fun s i =>
              let offsetr := blk_row + (i / 2) * 2 ^ (bsl - 1)
              let offsetc := blk_col + (i % 2) * 2 ^ (bsl - 1)
              if outside_frame env plane plane_bsize offsetr offsetc then some s
              else encode_block_inter env plane plane_bsize t (block + i * step) offsetr offsetc s)
            st

/-- Lines 1086-1103: predict the block into `dst` and store the residual of the block. -/
def intra_predict_subtract (env : PipeEnv) (a : BlockArgs) (st : EncState) : EncState :=
  let p := st.plane a.plane
  let diff_stride := 4 * 2 ^ env.b_width_log2_lookup a.plane_bsize
  let src_stride := env.src_stride a.plane
  let dst_stride := env.dst_stride a.plane
  let tx1d_width := env.num_4x4_blocks_wide_txsize_lookup a.tx_size * 4
  let tx1d_height := env.num_4x4_blocks_high_txsize_lookup a.tx_size * 4
  let dst_off := 4 * (a.blk_row * dst_stride + a.blk_col)
  let src_off := 4 * (a.blk_row * src_stride + a.blk_col)
  let diff_off := 4 * (a.blk_row * diff_stride + a.blk_col)
  let dst1 := env.av1_predict_intra_block a p.dst
  log_call
    (log_call
      (set_plane st a.plane
        { p with
          dst := dst1
          src_diff :=
            aom_subtract_block tx1d_height tx1d_width p.src_diff diff_off diff_stride p.src
              src_off src_stride dst1 dst_off dst_stride })
      (Call.predict_intra a.plane a.block))
    (Call.subtract_block a.plane)

/-- Lines 1109-1126: quantize with the FP policy and optimize when `enable_optimize_b` is
set, with the B policy otherwise; the state left and the entropy context flag. -/
def intra_quantize (env : PipeEnv) (enable_optimize_b : Bool) (a : BlockArgs) (ctx : Nat)
    (st : EncState) : Option (EncState × Nat) :=
  if enable_optimize_b then
    optimize_if_coded env a ctx (av1_xform_quant env a AV1_XFORM_QUANT.FP st)
  else
    some (av1_xform_quant env a AV1_XFORM_QUANT.B st,
      if ((av1_xform_quant env a AV1_XFORM_QUANT.B st).plane a.plane).eobs a.block > 0 then 1
      else 0)

/-- Lines 1128-1146: reconstruct and clear the unit skip flag when the block has
coefficients; the ghost entry `block_end` records the end-of-block at return. -/
def intra_finish (env : PipeEnv) (a : BlockArgs) (st : EncState) : EncState :=
  let eob := (st.plane a.plane).eobs a.block
  if eob ≠ 0 then
    log_call { (inv_txfm_call env a st) with skip := 0 } (Call.block_end a.plane a.block eob)
  else log_call st (Call.block_end a.plane a.block eob)

/-- The function `av1_encode_block_intra` (lines 1056-1147), low bit depth.  The
assertion of line 1084 fails when the transform is not square. -/
def av1_encode_block_intra (env : PipeEnv) (enable_optimize_b : Bool) (a : BlockArgs)
    (st : EncState) : Option EncState :=
  if env.num_4x4_blocks_wide_txsize_lookup a.tx_size * 4 ≠
      env.num_4x4_blocks_high_txsize_lookup a.tx_size * 4 then none
  else
    let ctx := env.combine_entropy_contexts (st.ta a.plane a.blk_col) (st.tl a.plane a.blk_row)
    match intra_quantize env enable_optimize_b a ctx (intra_predict_subtract env a st) with
    | none => none
    | some r =>
      some
        (intra_finish env a
          { r.1 with
            ta := Function.update r.1.ta a.plane
              (Function.update (r.1.ta a.plane) a.blk_col r.2)
            tl := Function.update r.1.tl a.plane
              (Function.update (r.1.tl a.plane) a.blk_row r.2) })

/-- Lines 1011-1017: the two loops `for (idy = 0; idy < mi_height; idy += bh)` and
`for (idx = 0; idx < mi_width; idx += bh)`, as the list of `(idy, idx)` in visiting
order; `none` when `bh = 0`, in which case the loops do not end. -/
def var_tx_positions (mi_width mi_height bh : Nat) : Option (List (Nat × Nat)) :=
  if bh = 0 then (if mi_height = 0 then some [] else none)
  else
    some
      (((List.range ((mi_height + bh - 1) / bh)).map (fun k => k * bh)).flatMap
        (fun idy => ((List.range ((mi_width + bh - 1) / bh)).map (fun k => (idy, k * bh)))))

/-- Lines 981-1025: the body of the plane loop of `av1_encode_sb`. -/
def encode_sb_plane (env : PipeEnv) (bsize : Nat) (st : EncState) (plane : Nat) :
    Option EncState :=
  let plane_bsize := env.get_plane_block_size bsize plane
  let tx_size := if env.CONFIG_VAR_TX then 0 else env.plane_tx_size plane
  let ctxs := env.av1_get_entropy_contexts bsize tx_size plane
  let st1 : EncState :=
    { st with
      ta := Function.update st.ta plane ctxs.1
      tl := Function.update st.tl plane ctxs.2 }
  let st2 := av1_subtract_plane env bsize plane st1
  if env.CONFIG_VAR_TX then
    let mi_width := env.num_4x4_blocks_wide_lookup plane_bsize
    let mi_height := env.num_4x4_blocks_high_lookup plane_bsize
    let max_tx_size := env.max_txsize_lookup plane_bsize
    let txb_size := env.txsize_to_bsize max_tx_size
    let bh := env.num_4x4_blocks_wide_lookup txb_size
    let step := env.num_4x4_blocks_txsize_lookup max_tx_size
    match var_tx_positions mi_width mi_height bh with
    | none => none
    | some ps =>
      (ps.foldlM
        (fun (sb : EncState × Nat) (pos : Nat × Nat) =>
          match encode_block_inter env plane plane_bsize max_tx_size sb.2 pos.1 pos.2 sb.1 with
          | none => none
          | some s => some (s, sb.2 + step))
        (st2, 0)).map Prod.fst
  else
    (env.foreach_transformed_block bsize plane).foldlM (fun s a => encode_block env a s) st2

/-- The function `av1_encode_sb` (lines 970-1026). -/
def av1_encode_sb (env : PipeEnv) (bsize : Nat) (st : EncState) : Option EncState :=
  let st0 : EncState := { st with skip := 1 }
  if env.x_skip ≠ 0 then some st0
  else (List.range env.MAX_MB_PLANE).foldlM (encode_sb_plane env bsize) st0

/-- The calls of `encode_block_inter` (lines 858-909) that one call spawns, itself
included, as the arguments `plane, block, blk_row, blk_col, plane_bsize, tx_size` of
each, in call order; the assertion of line 891 is left out of account. -/
def inter_calls (env : PipeEnv) (plane plane_bsize : Nat) :
    Nat → Nat → Nat → Nat → List BlockArgs
  | tx_size, block, blk_row, blk_col =>
    let a : BlockArgs :=
      { plane := plane, block := block, blk_row := blk_row, blk_col := blk_col,
        plane_bsize := plane_bsize, tx_size := tx_size }
    if outside_frame env plane plane_bsize blk_row blk_col then [a]
    else if tx_size = requested_tx_size env a then [a]
    else
      match tx_size with
      | 0 => [a]
      | t + 1 =>
        let bsl := env.b_width_log2_lookup (env.txsize_to_bsize (t + 1))
        let step := env.num_4x4_blocks_txsize_lookup t
        a :: [0, 1, 2, 3].flatMap
          (fun i =>
            let offsetr := blk_row + (i / 2) * 2 ^ (bsl - 1)
            let offsetc := blk_col + (i % 2) * 2 ^ (bsl - 1)
            if outside_frame env plane plane_bsize offsetr offsetc then []
            else inter_calls env plane plane_bsize t (block + i * step) offsetr offsetc)

/-- The calls of `encode_block` (line 887) that one call of `encode_block_inter` leads
to, in call order: the leaves of the recursion. -/
def inter_leaves (env : PipeEnv) (plane plane_bsize : Nat) :
    Nat → Nat → Nat → Nat → List BlockArgs
  | tx_size, block, blk_row, blk_col =>
    let a : BlockArgs :=
      { plane := plane, block := block, blk_row := blk_row, blk_col := blk_col,
        plane_bsize := plane_bsize, tx_size := tx_size }
    if outside_frame env plane plane_bsize blk_row blk_col then []
    else if tx_size = requested_tx_size env a then [a]
    else
      match tx_size with
      | 0 => []
      | t + 1 =>
        let bsl := env.b_width_log2_lookup (env.txsize_to_bsize (t + 1))
        let step := env.num_4x4_blocks_txsize_lookup t
        [0, 1, 2, 3].flatMap
          (fun i =>
            let offsetr := blk_row + (i / 2) * 2 ^ (bsl - 1)
            let offsetc := blk_col + (i % 2) * 2 ^ (bsl - 1)
            if outside_frame env plane plane_bsize offsetr offsetc then []
            else inter_leaves env plane plane_bsize t (block + i * step) offsetr offsetc)

/-! ## The rate-distortion cost of a coefficient block

The cost that the testable property "monotonic cost improvement" speaks of.  The coder
that charges it lives outside encodemb.c; the definitions follow the accounting of the
spec (section 4.3): each token is charged the table entry of its band, of whether the
previous coefficient is zero, of its entropy context and of its token class, plus its
value bits; the first token uses the caller's `ctx`; an end-of-block token is charged when
the block ends before the last position. -/

/-- Modelled from the spec: the token cache once the first `n` scan positions of the
quantized block `q` have been coded (the energy class of each token, stored at its
coefficient position), starting from the stack contents `c`. -/
def coded_cache (env : TrellisEnv) (b : OptBlock) (c : Nat → Nat) (q : Nat → Int) :
    Nat → Nat → Nat
  | 0 => c
  | n + 1 =>
    Function.update (coded_cache env b c q n) (b.scan n)
      (env.av1_pt_energy_class (env.av1_get_token_cost (q (b.scan n))).2)

/-- Modelled from the spec: the entropy context of scan position `i`, the caller's `ctx`
at the scan start and the neighbour context of the coded tokens elsewhere. -/
def coded_ctx (env : TrellisEnv) (b : OptBlock) (c : Nat → Nat) (q : Nat → Int) (i : Nat) :
    Nat :=
  if i = 0 then b.ctx else env.get_coef_context (coded_cache env b c q i) i

/-- Modelled from the spec: the rate of the token at scan position `i`, its value bits
plus the table entry `[band][previous coefficient is zero][context][token]`. -/
def coded_token_rate (env : TrellisEnv) (b : OptBlock) (c : Nat → Nat) (q : Nat → Int)
    (i : Nat) : Int :=
  (env.av1_get_token_cost (q (b.scan i))).1 +
    env.token_costs (env.band_translate i)
      (if 0 < i ∧ q (b.scan (i - 1)) = 0 then 1 else 0)
      (coded_ctx env b c q i) (env.av1_get_token_cost (q (b.scan i))).2

/-- Modelled from the spec: the total token rate of the quantized block `q` with
end-of-block `n`. -/
def block_rate (env : TrellisEnv) (b : OptBlock) (c : Nat → Nat) (q : Nat → Int) (n : Nat) :
    Int :=
  ((List.range n).map (coded_token_rate env b c q)).sum +
    (if n < b.default_eob then
      env.token_costs (env.band_translate n) 0 (coded_ctx env b c q n) env.EOB_TOKEN
    else 0)

/-- Modelled from the spec: the total squared dequantization error of the dequantized
block `dq` against the unquantized coefficients, scaled by the precision shift, over the
scan positions below the input `eob` (the positions the optimizer may change). -/
def block_error (b : OptBlock) (dq : Nat → Int) : Int :=
  ((List.range b.eob).map
    (fun i => ((dq (b.scan i) - b.coeff (b.scan i)) * 2 ^ b.shift) *
      ((dq (b.scan i) - b.coeff (b.scan i)) * 2 ^ b.shift))).sum

/-- Modelled from the spec: the rate-distortion cost of a block, `RDCOST` of its total
token rate and its total squared error. -/
def block_rd_cost (env : TrellisEnv) (b : OptBlock) (c : Nat → Nat) (q dq : Nat → Int)
    (n : Nat) : Int :=
  env.RDCOST (rdmult b) b.rddiv (block_rate env b c q n) (block_error b dq)

/-! ## A concrete 4x4 configuration

The default 4x4 scan with its neighbour table, the band tables of `TX_4X4`, the token
numbering and energy classes of entropy.h, the context rule of `get_coef_context`, the
macro `RDCOST` of rd.h, and small synthetic cost tables.  It is used to evaluate the
embedding on concrete blocks. -/

/-- The table `default_scan_4x4`. -/
def scan_4x4 : List Nat := [0, 4, 1, 5, 8, 2, 12, 9, 3, 6, 13, 10, 7, 14, 11, 15]

/-- The table `default_scan_4x4_neighbors`, two entries per scan position. -/
def neighbors_4x4 : List Nat :=
  [0, 0, 0, 0, 0, 0, 1, 4, 4, 4, 1, 1, 8, 8, 5, 8, 2, 2, 2, 5, 9, 12, 6, 9, 3, 6, 10, 13,
   7, 10, 11, 14, 0, 0]

/-- The token of a coefficient value: `ZERO_TOKEN = 0`, `ONE_TOKEN` to `FOUR_TOKEN`,
`CATEGORY1_TOKEN = 5` to `CATEGORY6_TOKEN = 10`. -/
def sample_token (v : Int) : Int :=
  let a := v.natAbs
  if a ≤ 4 then a else if a ≤ 6 then 5 else if a ≤ 10 then 6 else if a ≤ 18 then 7
  else if a ≤ 34 then 8 else if a ≤ 66 then 9 else 10

/-- A concrete environment: every token costs 100 except the end-of-block token in band 1
under context 0, which costs 5000; every nonzero value has 50 extra value bits. -/
def sample_env : TrellisEnv :=
  { EOB_TOKEN := 11
    ZERO_TOKEN := 0
    av1_get_token_cost := fun v => (if v = 0 then 0 else 50, sample_token v)
    av1_pt_energy_class := fun t => [0, 1, 2, 3, 3, 4, 4, 5, 5, 5, 5, 5].getD t.toNat 5
    get_coef_context := fun tc c =>
      (1 + tc (neighbors_4x4.getD (2 * c) 0) + tc (neighbors_4x4.getD (2 * c + 1) 0)) / 2
    token_costs := fun band z pt t => if band = 1 ∧ z = 0 ∧ pt = 0 ∧ t = 11 then 5000 else 100
    RDCOST := fun rm dm r d => (r * rm + 256) / 512 + d * 2 ^ dm.toNat
    band_translate := fun i => [0, 1, 1, 2, 2, 2, 3, 3, 3, 3, 4, 4, 4, 5, 5, 5].getD i 5
    band_count_table := fun k => [1, 2, 3, 4, 3, 3, 0].getD k.toNat 0
    band_cum_count_table := fun k => [0, 1, 3, 6, 10, 13, 16, 0].getD k 0 }

/-- A 4x4 block with two coefficients, quantizer step 10: DC `6` quantized to `1`
(dequantized `10`) and the next scan position `50` quantized to `5`. -/
def sample_block : OptBlock :=
  { coeff := fun r => if r = 0 then 6 else if r = 4 then 50 else 0
    qcoeff := fun r => if r = 0 then 1 else if r = 4 then 5 else 0
    dqcoeff := fun r => if r = 0 then 10 else if r = 4 then 50 else 0
    eob := 2
    default_eob := 16
    dequant_ptr := fun _ => 10
    scan := fun i => scan_4x4.getD i 0
    shift := 0
    mb_rdmult := 128
    rddiv := 0
    ref := 1
    plane_type := 0
    ctx := 0 }

/-- A 4x4 block with the single DC coefficient `70` quantized to `7`. -/
def sample_block_dc : OptBlock :=
  { sample_block with
    coeff := fun r => if r = 0 then 70 else 0
    qcoeff := fun r => if r = 0 then 7 else 0
    dqcoeff := fun r => if r = 0 then 70 else 0
    eob := 1 }

/-- The all-zero 4x4 block. -/
def sample_block_zero : OptBlock :=
  { sample_block with
    coeff := fun _ => 0
    qcoeff := fun _ => 0
    dqcoeff := fun _ => 0
    eob := 0 }

/-- Stack contents: every entry zero. -/
def sample_scratch : Scratch :=
  { tokens := fun _ _ => ⟨0, 0, 0, 0, 0, 0⟩
    best_index := fun _ _ => false
    token_cache := fun _ => 0 }

/-- A 4x4 block whose single DC coefficient `10`, quantized to `1` with step 10, sits
exactly on the step boundary `|x| * dequant`. -/
def sample_block_boundary : OptBlock :=
  { sample_block with
    coeff := fun r => if r = 0 then 10 else 0
    qcoeff := fun r => if r = 0 then 1 else 0
    dqcoeff := fun r => if r = 0 then 10 else 0
    eob := 1 }

/-- A 4x4 block with the single DC coefficient `10` quantized to `1` with step 15, for
which keeping it and rounding it down have the same total cost, 150. -/
def sample_block_tie : OptBlock :=
  { sample_block with
    coeff := fun r => if r = 0 then 10 else 0
    qcoeff := fun r => if r = 0 then 1 else 0
    dqcoeff := fun r => if r = 0 then 15 else 0
    dequant_ptr := fun _ => 15
    mb_rdmult := 64
    eob := 1 }

/-- Loop locals in which the two hypotheses of every position are equal and `shortcut`
is set, so that every comparison of successors is a tie. -/
def sample_tie_state : Trellis :=
  { tokens := fun _ _ => ⟨100, 4, 2, 1, 1, 10⟩
    best_index := fun _ _ => false
    token_cache := fun _ => 0
    next := 1
    shortcut := true
    band_left := 1
    band_counts := 1
    token_costs := 1 }

/-- A 4x4 block with the single DC coefficient `6` quantized to `1` with step 15, for
which rounding down to zero is cheaper than keeping. -/
def sample_block_low : OptBlock :=
  { sample_block with
    coeff := fun r => if r = 0 then 6 else 0
    qcoeff := fun r => if r = 0 then 1 else 0
    dqcoeff := fun r => if r = 0 then 15 else 0
    dequant_ptr := fun _ => 15
    eob := 1 }

/-- A concrete pipeline environment without `CONFIG_VAR_TX`: three planes of 4x4
transform blocks (two in plane 0, one in each chroma plane), a forward transform that
copies the residual of the block, a quantizer that quantizes the first coefficient of the
block with step 10 and clears the others, and an inverse transform that adds the first
dequantized coefficient to the first pixel of the block. -/
def sample_pipe : PipeEnv :=
  { CONFIG_VAR_TX := false
    MAX_MB_PLANE := 3
    get_plane_block_size := fun bsize _ => bsize
    num_4x4_blocks_wide_lookup := fun _ => 2
    num_4x4_blocks_high_lookup := fun _ => 1
    b_width_log2_lookup := fun _ => 1
    num_4x4_blocks_wide_txsize_lookup := fun t => 2 ^ t
    num_4x4_blocks_high_txsize_lookup := fun t => 2 ^ t
    num_4x4_blocks_txsize_lookup := fun t => 4 ^ t
    txsize_to_bsize := fun t => t
    max_txsize_lookup := fun _ => 0
    uv_txsize_lookup := fun _ t => t
    subsampling_x := fun _ => 0
    subsampling_y := fun _ => 0
    mb_to_bottom_edge := 0
    mb_to_right_edge := 0
    inter_tx_size := fun _ _ => 0
    plane_tx_size := fun _ => 0
    src_stride := fun _ => 8
    dst_stride := fun _ => 8
    x_skip := 0
    skip_block := 0
    blk_skip := fun _ _ => 0
    get_tx2d_size := fun _ => 16
    get_tx_scale := fun _ _ _ => 0
    get_scan := fun _ _ _ i => scan_4x4.getD i 0
    dequant := fun _ _ => 10
    mb_rdmult := 128
    rddiv := 0
    is_inter := 1
    plane_type := fun plane => if plane = 0 then 0 else 1
    trellis_env := fun _ _ => sample_env
    stack := fun _ _ => sample_scratch
    fwd_txfm := fun a _ diff coeff k =>
      if 16 * a.block ≤ k ∧ k < 16 * a.block + 16 then diff k else coeff k
    quantize := fun _ a coeff qcoeff dqcoeff =>
      (fun k => if k = 16 * a.block then Int.tdiv (coeff k) 10
        else if 16 * a.block < k ∧ k < 16 * a.block + 16 then 0 else qcoeff k,
       fun k => if k = 16 * a.block then Int.tdiv (coeff k) 10 * 10
        else if 16 * a.block < k ∧ k < 16 * a.block + 16 then 0 else dqcoeff k,
       if Int.tdiv (coeff (16 * a.block)) 10 = 0 then 0 else 1)
    inv_txfm_add := fun a _ dqcoeff dst =>
      Function.update dst (4 * (a.blk_row * 8 + a.blk_col))
        (dst (4 * (a.blk_row * 8 + a.blk_col)) + dqcoeff (16 * a.block))
    av1_predict_intra_block := fun _ dst => dst
    get_entropy_context := fun _ ta tl => (if ta 0 ≠ 0 then 1 else 0) + (if tl 0 ≠ 0 then 1 else 0)
    combine_entropy_contexts := fun x y => (if x ≠ 0 then 1 else 0) + (if y ≠ 0 then 1 else 0)
    av1_get_entropy_contexts := fun _ _ _ => (fun _ => 0, fun _ => 0)
    foreach_transformed_block := fun bsize plane =>
      if plane = 0 then
        [{ plane := 0, block := 0, blk_row := 0, blk_col := 0, plane_bsize := bsize, tx_size := 0 },
         { plane := 0, block := 1, blk_row := 0, blk_col := 1, plane_bsize := bsize, tx_size := 0 }]
      else
        [{ plane := plane, block := 0, blk_row := 0, blk_col := 0, plane_bsize := bsize,
           tx_size := 0 }] }

/-- Plane buffers with source pixel 57 at index 0, prediction 0, and stale contents in
the coefficient buffers of block 0: quantized coefficient 3, dequantized 30, eob 1. -/
def sample_plane : PlaneBuf :=
  { src := fun k => if k = 0 then 57 else 0
    dst := fun _ => 0
    src_diff := fun _ => 0
    coeff := fun _ => 0
    qcoeff := fun k => if k = 0 then 3 else 0
    dqcoeff := fun k => if k = 0 then 30 else 0
    eobs := fun b => if b = 0 then 1 else 0 }

/-- A pipeline state in which every plane holds `sample_plane`. -/
def sample_state : EncState :=
  { plane := fun _ => sample_plane
    ta := fun _ _ => 0
    tl := fun _ _ => 0
    skip := 0
    calls := [] }

/-- The first 4x4 block of plane 0. -/
def sample_args : BlockArgs :=
  { plane := 0, block := 0, blk_row := 0, blk_col := 0, plane_bsize := 0, tx_size := 0 }

/-- The sample state with a nonzero residual sample at index 0 of every plane. -/
def sample_state_residual : EncState :=
  { sample_state with
    plane := fun _ => { sample_plane with src_diff := fun k => if k = 0 then 57 else 0 } }

/-- A 32x32-style block (`shift = 1`) with odd quantizer step 3: the single DC coefficient
`2` is quantized to `2` and dequantized to `(2 * 3) >> 1 = 3`. -/
def sample_block_half : OptBlock :=
  { sample_block with
    coeff := fun r => if r = 0 then 2 else 0
    qcoeff := fun r => if r = 0 then 2 else 0
    dqcoeff := fun r => if r = 0 then 3 else 0
    dequant_ptr := fun _ => 3
    shift := 1
    eob := 1 }

/-- The sample pipeline with a forward transform that reads the residual of the block
through its stride: coefficient `k` of a 4x4 block is the residual sample of row `k / 4`
and column `k % 4`. -/
def sample_pipe_strided : PipeEnv :=
  { sample_pipe with
    fwd_txfm := fun a _ diff coeff k =>
      if 16 * a.block ≤ k ∧ k < 16 * a.block + 16 then
        diff (4 * (a.blk_row * 8 + a.blk_col) + ((k - 16 * a.block) / 4) * 8 +
          (k - 16 * a.block) % 4)
      else coeff k }

/-- A 4x4 block with three scan positions, quantizer step 10: `50` quantized to `5`, a
zero, and `16` quantized to `2` (dequantized `20`), which can be rounded down. -/
def sample_block_gap : OptBlock :=
  { sample_block with
    coeff := fun r => if r = 0 then 50 else if r = 1 then 16 else 0
    qcoeff := fun r => if r = 0 then 5 else if r = 1 then 2 else 0
    dqcoeff := fun r => if r = 0 then 50 else if r = 1 then 20 else 0
    eob := 3 }

/-- A 32x32-style block (`shift = 1`) with the odd quantizer step 9: the single DC
coefficient `8` is quantized to `2` and dequantized to `(2 * 9) >> 1 = 9`. -/
def sample_block_odd : OptBlock :=
  { sample_block with
    coeff := fun r => if r = 0 then 8 else 0
    qcoeff := fun r => if r = 0 then 2 else 0
    dqcoeff := fun r => if r = 0 then 9 else 0
    dequant_ptr := fun _ => 9
    shift := 1
    default_eob := 1024
    eob := 1 }

/-- An 8x8 transform block of plane 0 at 4x4 row 1 and column 2. -/
def sample_args_wide : BlockArgs :=
  { plane := 0, block := 0, blk_row := 1, blk_col := 2, plane_bsize := 0, tx_size := 1 }

/-- The sample state with residual 57 at index 0 and every entropy context entry 7. -/
def sample_state_coded : EncState :=
  { sample_state_residual with ta := fun _ _ => 7, tl := fun _ _ => 7 }

/-! ## Predicates used to state properties of the trellis -/

/-- Scan position `j` holds a nonzero input quantized coefficient. -/
def is_node (b : OptBlock) (j : Nat) : Prop := b.qcoeff (b.scan j) ≠ 0

instance (b : OptBlock) (j : Nat) : Decidable (is_node b j) := by
  unfold is_node; infer_instance

/-- The facts about the node of a nonzero scan position `j` that the write-back loop
relies on: where its two hypotheses point, and which values they carry. -/
structure NodeOK (b : OptBlock) (s : Trellis) (j : Nat) : Prop where
  next_gt : ∀ k, j < (s.tokens j k).next
  next_le : ∀ k, (s.tokens j k).next ≤ b.eob
  next_node : ∀ k, (s.tokens j k).next < b.eob → is_node b (s.tokens j k).next
  gap : ∀ k m, j < m → m < (s.tokens j k).next → ¬ is_node b m
  next_eq : (s.tokens j true).next = (s.tokens j false).next
  qc_keep : (s.tokens j false).qc = b.qcoeff (b.scan j)
  dqc_keep : (s.tokens j false).dqc = b.dqcoeff (b.scan j)
  qc_down : (s.tokens j true).qc =
    if shortcut_cond b (b.scan j) (b.qcoeff (b.scan j)) then round_down (b.qcoeff (b.scan j))
    else b.qcoeff (b.scan j)
  dqc_down : shortcut_cond b (b.scan j) (b.qcoeff (b.scan j)) = false →
    (s.tokens j true).dqc = b.dqcoeff (b.scan j)

/-- The invariant of the backward loop when the positions `i, .., eob - 1` have been
processed. -/
structure LoopInv (b : OptBlock) (s : Trellis) (i : Nat) : Prop where
  head_ge : i ≤ s.next
  head_le : s.next ≤ b.eob
  head_node : s.next < b.eob → is_node b s.next
  head_gap : ∀ m, i ≤ m → m < s.next → ¬ is_node b m
  nodes : ∀ j, i ≤ j → j < b.eob → is_node b j → NodeOK b s j
  copies : ∀ j, i ≤ j → j < b.eob → is_node b j →
    shortcut_cond b (b.scan j) (b.qcoeff (b.scan j)) = false →
    s.tokens j true = s.tokens j false

/-- Every `block_end` entry of the log `l` records end-of-block 0. -/
def all_blocks_zero (l : List Call) : Prop := ∀ p b e, Call.block_end p b e ∈ l → e = 0

/-- The effect of a pipeline step on the unit skip flag: the log grows by `l`; the flag
is unchanged when every block ended in `l` has end-of-block 0, and is 0 otherwise. -/
def SkipStep (s t : EncState) : Prop :=
  ∃ l, t.calls = s.calls ++ l ∧ (all_blocks_zero l → t.skip = s.skip) ∧
    (¬ all_blocks_zero l → t.skip = 0)

/-- A pipeline step that leaves the unit skip flag alone and ends no block: the log
grows by entries other than `block_end`. -/
def QuietStep (s t : EncState) : Prop :=
  ∃ l, t.calls = s.calls ++ l ∧ t.skip = s.skip ∧ ∀ p b e, Call.block_end p b e ∉ l

/-- The residual samples that `av1_xform_quant` hands to the forward transform for the
block (line 466: from `4 * (blk_row * diff_stride + blk_col)`, rows `diff_stride` apart)
are all zero. -/
def residual_zero (env : PipeEnv) (a : BlockArgs) (diff : Nat → Int) : Prop :=
  ∀ r c, r < 4 * env.num_4x4_blocks_high_txsize_lookup a.tx_size →
    c < 4 * env.num_4x4_blocks_wide_txsize_lookup a.tx_size →
    diff (4 * (a.blk_row * (4 * env.num_4x4_blocks_wide_lookup a.plane_bsize) + a.blk_col) +
      r * (4 * env.num_4x4_blocks_wide_lookup a.plane_bsize) + c) = 0

/-- The five fields that lines 133-137 give the sentinel node. -/
def is_sentinel (env : TrellisEnv) (b : OptBlock) (t : av1_token_state) : Prop :=
  t.rate = 0 ∧ t.error = 0 ∧ t.next = b.default_eob ∧ t.token = env.EOB_TOKEN ∧ t.qc = 0

/-- The error of each hypothesis of a node at or above scan position `i` is its own
squared-error term plus the error of the successor hypothesis that `next` and
`best_index` point to. -/
def ErrInv (b : OptBlock) (s : Trellis) (i : Nat) : Prop :=
  ∀ j, i ≤ j → j < b.eob → is_node b j → ∀ k,
    (s.tokens j k).error =
      cand_error b j k + (s.tokens (s.tokens j k).next (s.best_index j k)).error

/-- The band whose cost row is active when the scan positions from `j` on have been
processed: that of position `j`, or of the last position when `j = default_eob`
(lines 110-111 for `j = eob`). -/
def band_at (env : TrellisEnv) (b : OptBlock) (j : Nat) : Nat :=
  if j < b.default_eob then env.band_translate j else env.band_translate (j - 1)

/-- The band locals are in step with the scan position `j`: both table pointers stand at
the band of `j` and `band_left` counts the positions of that band up to `j`, one more. -/
def BandInv (env : TrellisEnv) (b : OptBlock) (s : Trellis) (j : Nat) : Prop :=
  s.token_costs = (band_at env b j : Int) ∧ s.band_counts = (band_at env b j : Int) ∧
    s.band_left + env.band_cum_count_table (band_at env b j) = j + 1

/-! ## Lemmas on the backward loop -/

@[simp] theorem band_advance_tokens (env : TrellisEnv) (s : Trellis) :
    (band_advance env s).tokens = s.tokens := by
  unfold band_advance; dsimp only; split <;> rfl

@[simp] theorem band_advance_best_index (env : TrellisEnv) (s : Trellis) :
    (band_advance env s).best_index = s.best_index := by
  unfold band_advance; dsimp only; split <;> rfl

@[simp] theorem band_advance_next (env : TrellisEnv) (s : Trellis) :
    (band_advance env s).next = s.next := by
  unfold band_advance; dsimp only; split <;> rfl

@[simp] theorem band_advance_shortcut (env : TrellisEnv) (s : Trellis) :
    (band_advance env s).shortcut = s.shortcut := by
  unfold band_advance; dsimp only; split <;> rfl

@[simp] theorem band_advance_token_cache (env : TrellisEnv) (s : Trellis) :
    (band_advance env s).token_cache = s.token_cache := by
  unfold band_advance; dsimp only; split <;> rfl

theorem zero_update_next (env : TrellisEnv) (i : Nat) (s : Trellis) :
    (zero_update env i s).next = s.next := rfl

theorem zero_update_fields (env : TrellisEnv) (i : Nat) (s : Trellis) (j : Nat) (k : Bool) :
    ((zero_update env i s).tokens j k).next = (s.tokens j k).next ∧
    ((zero_update env i s).tokens j k).qc = (s.tokens j k).qc ∧
    ((zero_update env i s).tokens j k).dqc = (s.tokens j k).dqc ∧
    ((zero_update env i s).tokens j k).error = (s.tokens j k).error := by
  unfold zero_update setTok
  dsimp only
  by_cases hj : j = s.next <;> cases k <;> split_ifs <;> simp_all

theorem zero_update_copy (env : TrellisEnv) (i : Nat) (s : Trellis) (j : Nat)
    (h : s.tokens j true = s.tokens j false) :
    (zero_update env i s).tokens j true = (zero_update env i s).tokens j false := by
  unfold zero_update setTok
  dsimp only
  by_cases hj : j = s.next
  · subst hj
    rw [h]
    split_ifs <;> simp_all
  · split_ifs <;> simp_all

theorem trellis_step_zero (env : TrellisEnv) (b : OptBlock) (i : Nat) (s : Trellis)
    (h : ¬ is_node b i) :
    trellis_step env b i s = band_advance env (zero_update env i s) := by
  unfold is_node at h
  unfold trellis_step
  dsimp only
  rw [if_neg h]

theorem trellis_step_node_next (env : TrellisEnv) (b : OptBlock) (i : Nat) (s : Trellis)
    (h : is_node b i) : (trellis_step env b i s).next = i := by
  unfold is_node at h
  unfold trellis_step
  dsimp only
  rw [if_pos h]
  split <;> simp

theorem trellis_step_node_tokens (env : TrellisEnv) (b : OptBlock) (i : Nat) (s : Trellis)
    (h : is_node b i) (j : Nat) (k : Bool) :
    (trellis_step env b i s).tokens j k =
      if j = i then
        (if k = true ∧ shortcut_cond b (b.scan i) (b.qcoeff (b.scan i)) = true then
          (down_candidate env b i s).1
        else (keep_candidate env b i s).1)
      else s.tokens j k := by
  unfold is_node at h
  unfold trellis_step
  dsimp only
  rw [if_pos h]
  split
  · rename_i hc
    cases k <;> by_cases hj : j = i <;> simp [setTok, hc, hj]
  · rename_i hc
    cases k <;> by_cases hj : j = i <;> simp [setTok, hc, hj]

theorem keep_candidate_fields (env : TrellisEnv) (b : OptBlock) (i : Nat) (s : Trellis) :
    (keep_candidate env b i s).1.next = s.next ∧
    (keep_candidate env b i s).1.qc = b.qcoeff (b.scan i) ∧
    (keep_candidate env b i s).1.dqc = b.dqcoeff (b.scan i) :=
  ⟨rfl, rfl, rfl⟩

theorem down_candidate_fields (env : TrellisEnv) (b : OptBlock) (i : Nat) (s : Trellis) :
    (down_candidate env b i s).1.next = s.next ∧
    (down_candidate env b i s).1.qc = round_down (b.qcoeff (b.scan i)) :=
  ⟨rfl, rfl⟩

theorem NodeOK_congr (b : OptBlock) (s t : Trellis) (j : Nat)
    (h : ∀ k, (t.tokens j k).next = (s.tokens j k).next ∧ (t.tokens j k).qc = (s.tokens j k).qc ∧
      (t.tokens j k).dqc = (s.tokens j k).dqc)
    (ok : NodeOK b s j) : NodeOK b t j where
  next_gt k := by rw [(h k).1]; exact ok.next_gt k
  next_le k := by rw [(h k).1]; exact ok.next_le k
  next_node k := by rw [(h k).1]; exact ok.next_node k
  gap k := by rw [(h k).1]; exact ok.gap k
  next_eq := by rw [(h true).1, (h false).1]; exact ok.next_eq
  qc_keep := by rw [(h false).2.1]; exact ok.qc_keep
  dqc_keep := by rw [(h false).2.2]; exact ok.dqc_keep
  qc_down := by rw [(h true).2.1]; exact ok.qc_down
  dqc_down hc := by rw [(h true).2.2]; exact ok.dqc_down hc

theorem loopInv_step (env : TrellisEnv) (b : OptBlock) (i : Nat) (s : Trellis)
    (hi : i < b.eob) (h : LoopInv b s (i + 1)) : LoopInv b (trellis_step env b i s) i := by
  have hge := h.head_ge
  have hle := h.head_le
  by_cases hn : is_node b i
  · have hnext := trellis_step_node_next env b i s hn
    have htok := trellis_step_node_tokens env b i s hn
    refine ⟨?_, ?_, ?_, ?_, ?_, ?_⟩
    · rw [hnext]
    · rw [hnext]; omega
    · intro _; rw [hnext]; exact hn
    · intro m h1 h2; rw [hnext] at h2; omega
    · intro j hj1 hj2 hjn
      by_cases hji : j = i
      · subst hji
        have hk := keep_candidate_fields env b j s
        have hd := down_candidate_fields env b j s
        have hnx : ∀ k, ((trellis_step env b j s).tokens j k).next = s.next := by
          intro k; rw [htok, if_pos rfl]; split
          · exact hd.1
          · exact hk.1
        refine ⟨?_, ?_, ?_, ?_, ?_, ?_, ?_, ?_, ?_⟩
        · intro k; rw [hnx]; omega
        · intro k; rw [hnx]; exact hle
        · intro k; rw [hnx]; exact h.head_node
        · intro k m h1 h2; rw [hnx] at h2; exact h.head_gap m (by omega) h2
        · rw [hnx, hnx]
        · rw [htok, if_pos rfl]; simp [hk.2.1]
        · rw [htok, if_pos rfl]; simp [hk.2.2]
        · rw [htok, if_pos rfl]
          by_cases hc : shortcut_cond b (b.scan j) (b.qcoeff (b.scan j)) = true
          · simp [hc, hd.2]
          · simp [hc, hk.2.1]
        · intro hc
          rw [htok, if_pos rfl]; simp [hc, hk.2.2]
      · have hj : i + 1 ≤ j := by omega
        refine NodeOK_congr b s _ j ?_ (h.nodes j hj hj2 hjn)
        intro k; rw [htok, if_neg hji]; exact ⟨rfl, rfl, rfl⟩
    · intro j hj1 hj2 hjn hc
      by_cases hji : j = i
      · subst hji
        rw [htok, htok, if_pos rfl, if_pos rfl]; simp [hc]
      · rw [htok, htok, if_neg hji, if_neg hji]
        exact h.copies j (by omega) hj2 hjn hc
  · have hstep := trellis_step_zero env b i s hn
    have hf := zero_update_fields env i s
    have hnext : (trellis_step env b i s).next = s.next := by
      rw [hstep, band_advance_next, zero_update_next]
    refine ⟨?_, ?_, ?_, ?_, ?_, ?_⟩
    · rw [hnext]; omega
    · rw [hnext]; exact hle
    · rw [hnext]; exact h.head_node
    · intro m h1 h2; rw [hnext] at h2
      by_cases hm : m = i
      · subst hm; exact hn
      · exact h.head_gap m (by omega) h2
    · intro j hj1 hj2 hjn
      have hj : i + 1 ≤ j := by
        by_contra hc
        have : j = i := by omega
        subst this; exact hn hjn
      refine NodeOK_congr b s _ j ?_ (h.nodes j hj hj2 hjn)
      intro k; rw [hstep, band_advance_tokens]
      exact ⟨(hf j k).1, (hf j k).2.1, (hf j k).2.2.1⟩
    · intro j hj1 hj2 hjn hc
      have hj : i + 1 ≤ j := by
        by_contra hcon
        have : j = i := by omega
        subst this; exact hn hjn
      rw [hstep, band_advance_tokens]
      exact zero_update_copy env i s j (h.copies j hj hj2 hjn hc)

theorem loopInv_loop (env : TrellisEnv) (b : OptBlock) :
    ∀ (n : Nat) (s : Trellis), n ≤ b.eob → LoopInv b s n →
      LoopInv b (trellis_loop env b n s) 0 := by
  intro n
  induction n with
  | zero => intro s _ h; exact h
  | succ n ih =>
    intro s hn h
    exact ih _ (by omega) (loopInv_step env b n s (by omega) h)

theorem init_step_next (env : TrellisEnv) (b : OptBlock) (i : Nat) (s : Trellis) :
    (init_step env b i s).next = s.next := rfl

theorem init_loop_next (env : TrellisEnv) (b : OptBlock) (g : Scratch) :
    ∀ n, (init_loop env b n (trellis_init env b g)).next = b.eob := by
  intro n
  induction n with
  | zero => rfl
  | succ n ih => exact ih

/-- The backward loop ends with every node of a nonzero input position well formed. -/
theorem loopInv_final (env : TrellisEnv) (b : OptBlock) (g : Scratch) :
    LoopInv b (trellis_final env b g) 0 := by
  unfold trellis_final
  apply loopInv_loop env b b.eob _ (le_refl _)
  have hn := init_loop_next env b g b.eob
  refine ⟨?_, ?_, ?_, ?_, ?_, ?_⟩
  · rw [hn]
  · rw [hn]
  · rw [hn]; intro h; omega
  · intro m h1 h2; rw [hn] at h2; omega
  · intro j h1 h2; omega
  · intro j h1 h2; omega

/-! ## Lemmas on the write-back loop -/

/-- Induction principle for the write-back loop: with at least `eob - i` iterations
allowed it ends at `i = eob`, and any property kept by the loop body at nonzero input
positions holds at the end. -/
theorem write_back_inv (b : OptBlock) (s : Trellis) (hs : LoopInv b s 0)
    (P : WriteBack → Prop)
    (hstep : ∀ w, w.i < b.eob → is_node b w.i → P w → P (write_back_step b s w)) :
    ∀ (fuel : Nat) (w : WriteBack), b.eob ≤ w.i + fuel → w.i ≤ b.eob →
      (w.i < b.eob → is_node b w.i) → P w →
      ∃ w', write_back b s fuel w = some w' ∧ P w' ∧ w'.i = b.eob := by
  intro fuel
  induction fuel with
  | zero =>
    intro w h1 h2 _ hP
    have : ¬ w.i < b.eob := by omega
    exact ⟨w, by simp [write_back, this], hP, by omega⟩
  | succ n ih =>
    intro w h1 h2 h3 hP
    by_cases hlt : w.i < b.eob
    · have hnode := h3 hlt
      have ok := hs.nodes w.i (Nat.zero_le _) hlt hnode
      have hgt := ok.next_gt w.best
      have hle := ok.next_le w.best
      have hnn := ok.next_node w.best
      have hi : (write_back_step b s w).i = (s.tokens w.i w.best).next := rfl
      obtain ⟨w', hw, hP', hi'⟩ := ih (write_back_step b s w) (by rw [hi]; omega)
        (by rw [hi]; exact hle) (by rw [hi]; exact hnn) (hstep w hlt hnode hP)
      exact ⟨w', by simp [write_back, hlt, hw], hP', hi'⟩
    · exact ⟨w, by simp [write_back, hlt], hP, by omega⟩

/-- The write-back loop of `av1_optimize_b` ends within `eob` iterations, and any property
that holds at loop entry and is kept by the loop body holds for the state it ends in. -/
theorem optimize_b_inv (env : TrellisEnv) (b : OptBlock) (g : Scratch) (fuel : Nat)
    (hf : b.eob ≤ fuel) (P : WriteBack → Prop)
    (h0 : P (write_back_init env b (trellis_final env b g)))
    (hstep : ∀ w, w.i < b.eob → is_node b w.i → P w →
      P (write_back_step b (trellis_final env b g) w)) :
    ∃ w, write_back b (trellis_final env b g) fuel
        (write_back_init env b (trellis_final env b g)) = some w ∧ P w ∧ w.i = b.eob := by
  have hs := loopInv_final env b g
  apply write_back_inv b _ hs P hstep fuel _ _ hs.head_le hs.head_node h0
  show b.eob ≤ (trellis_final env b g).next + fuel
  omega

theorem optimize_b_of_write_back (env : TrellisEnv) (b : OptBlock) (g : Scratch) (fuel : Nat)
    (w : WriteBack)
    (h : write_back b (trellis_final env b g) fuel
        (write_back_init env b (trellis_final env b g)) = some w) :
    av1_optimize_b env b g fuel = some
      { final_eob := w.final_eob + 1
        eobs_block := (w.final_eob + 1) % 65536
        qcoeff := w.qcoeff
        dqcoeff := w.dqcoeff
        visited := w.visited } := by
  unfold av1_optimize_b
  simp only [h]

/-! ## Properties of `av1_optimize_b` -/

/-- C1. End-of-block never increases: for every block with `eob <= default_eob`, the call
returns (given `eob` loop iterations) a `final_eob` with
`0 <= final_eob <= eob <= default_eob`, so the closing assertion holds. -/
theorem C1_eob_never_increases (env : TrellisEnv) (b : OptBlock) (g : Scratch) (fuel : Nat)
    (h : b.eob ≤ b.default_eob) (hf : b.eob ≤ fuel) :
    ∃ r, av1_optimize_b env b g fuel = some r ∧
      0 ≤ r.final_eob ∧ r.final_eob ≤ (b.eob : Int) ∧ (b.eob : Int) ≤ (b.default_eob : Int) ∧
      r.final_eob ≤ (b.default_eob : Int) := by
  obtain ⟨w, hw, ⟨h1, h2⟩, _⟩ := optimize_b_inv env b g fuel hf
    (fun w => -1 ≤ w.final_eob ∧ w.final_eob < (b.eob : Int))
    ⟨le_refl _, by show (-1 : Int) < (b.eob : Int); omega⟩
    (by
      intro w hlt _ hP
      show -1 ≤ (write_back_step b _ w).final_eob ∧ (write_back_step b _ w).final_eob < _
      unfold write_back_step
      dsimp only
      split
      · constructor <;> omega
      · exact hP)
  refine ⟨_, optimize_b_of_write_back env b g fuel w hw, ?_, ?_, ?_, ?_⟩ <;> dsimp only <;> omega

/-- Witness of C1 on the two-coefficient sample block. -/
theorem C1_eob_never_increases_witness :
    ∃ r, av1_optimize_b sample_env sample_block sample_scratch 2 = some r ∧
      0 ≤ r.final_eob ∧ r.final_eob ≤ (sample_block.eob : Int) ∧
      (sample_block.eob : Int) ≤ (sample_block.default_eob : Int) ∧
      r.final_eob ≤ (sample_block.default_eob : Int) :=
  C1_eob_never_increases sample_env sample_block sample_scratch 2 (by decide) (by decide)

theorem round_down_eq (x : Int) (hx : x ≠ 0) : round_down x = x - Int.sign x := by
  unfold round_down sign_mask
  rcases lt_trichotomy x 0 with h | h | h
  · rw [if_pos h, Int.sign_eq_neg_one_of_neg h]; ring
  · exact absurd h hx
  · rw [if_neg (by omega), Int.sign_eq_one_of_pos h]; ring

theorem round_down_bounds (x : Int) (hx : x ≠ 0) :
    (round_down x).natAbs ≤ x.natAbs ∧ (0 ≤ x → 0 ≤ round_down x) ∧
      (x ≤ 0 → round_down x ≤ 0) := by
  unfold round_down sign_mask
  split <;> omega

/-- The value written at a visited node is one of the two candidates of that node. -/
theorem write_back_step_qcoeff (b : OptBlock) (s : Trellis) (hs : LoopInv b s 0)
    (w : WriteBack) (hlt : w.i < b.eob) (hn : is_node b w.i) :
    (s.tokens w.i w.best).qc = b.qcoeff (b.scan w.i) ∨
      (s.tokens w.i w.best).qc = round_down (b.qcoeff (b.scan w.i)) := by
  have ok := hs.nodes w.i (Nat.zero_le _) hlt hn
  cases hb : w.best
  · left; exact ok.qc_keep
  · rw [ok.qc_down]; split
    · right; rfl
    · left; rfl

/-- C4. Restricted choice set: at every scan position below `eob` the quantized
coefficient left by the call is the input value, the input value moved one step toward
zero, or zero; its magnitude does not grow and its sign is not flipped. -/
theorem C4_restricted_choice (env : TrellisEnv) (b : OptBlock) (g : Scratch) (fuel : Nat)
    (hf : b.eob ≤ fuel) :
    ∃ r, av1_optimize_b env b g fuel = some r ∧ ∀ i, i < b.eob →
      (r.qcoeff (b.scan i) = b.qcoeff (b.scan i) ∨
        r.qcoeff (b.scan i) = b.qcoeff (b.scan i) - Int.sign (b.qcoeff (b.scan i)) ∨
        r.qcoeff (b.scan i) = 0) ∧
      (r.qcoeff (b.scan i)).natAbs ≤ (b.qcoeff (b.scan i)).natAbs ∧
      (0 ≤ b.qcoeff (b.scan i) → 0 ≤ r.qcoeff (b.scan i)) ∧
      (b.qcoeff (b.scan i) ≤ 0 → r.qcoeff (b.scan i) ≤ 0) := by
  have hs := loopInv_final env b g
  obtain ⟨w, hw, hP, _⟩ := optimize_b_inv env b g fuel hf
    (fun w => ∀ rc, w.qcoeff rc = b.qcoeff rc ∨
      (b.qcoeff rc ≠ 0 ∧ w.qcoeff rc = round_down (b.qcoeff rc)))
    (fun rc => Or.inl rfl)
    (by
      intro w hlt hn hP rc
      show (write_back_step b _ w).qcoeff rc = _ ∨ _
      unfold write_back_step
      dsimp only
      by_cases hrc : rc = b.scan w.i
      · subst hrc
        rw [Function.update_same]
        rcases write_back_step_qcoeff b _ hs w hlt hn with h1 | h1
        · left; exact h1
        · right; exact ⟨hn, h1⟩
      · rw [Function.update_noteq hrc]; exact hP rc)
  refine ⟨_, optimize_b_of_write_back env b g fuel w hw, ?_⟩
  intro i _
  dsimp only
  rcases hP (b.scan i) with h1 | ⟨hx, h1⟩
  · rw [h1]; exact ⟨Or.inl rfl, le_refl _, fun h => h, fun h => h⟩
  · rw [h1]
    have hb := round_down_bounds _ hx
    exact ⟨Or.inr (Or.inl (round_down_eq _ hx)), hb.1, hb.2.1, hb.2.2⟩

/-- Witness of C4 on the two-coefficient sample block. -/
theorem C4_restricted_choice_witness :
    ∃ r, av1_optimize_b sample_env sample_block sample_scratch 2 = some r ∧
      ∀ i, i < sample_block.eob →
      (r.qcoeff (sample_block.scan i) = sample_block.qcoeff (sample_block.scan i) ∨
        r.qcoeff (sample_block.scan i) = sample_block.qcoeff (sample_block.scan i) -
          Int.sign (sample_block.qcoeff (sample_block.scan i)) ∨
        r.qcoeff (sample_block.scan i) = 0) ∧
      (r.qcoeff (sample_block.scan i)).natAbs ≤
        (sample_block.qcoeff (sample_block.scan i)).natAbs ∧
      (0 ≤ sample_block.qcoeff (sample_block.scan i) → 0 ≤ r.qcoeff (sample_block.scan i)) ∧
      (sample_block.qcoeff (sample_block.scan i) ≤ 0 → r.qcoeff (sample_block.scan i) ≤ 0) :=
  C4_restricted_choice sample_env sample_block sample_scratch 2 (by decide)

/-- C5. All-zero input: with input `eob = 0` the call returns 0, stores 0 in
`eobs[block]`, visits no position and so writes neither coefficient buffer; of the stack
arrays only the sentinel entry `tokens[0]` is assigned. -/
theorem C5_all_zero_input (env : TrellisEnv) (b : OptBlock) (g : Scratch) (fuel : Nat)
    (h : b.eob = 0) :
    av1_optimize_b env b g fuel = some
        { final_eob := 0, eobs_block := 0, qcoeff := b.qcoeff, dqcoeff := b.dqcoeff,
          visited := [] } ∧
      (∀ j k, j ≠ 0 → (trellis_final env b g).tokens j k = g.tokens j k) ∧
      (trellis_final env b g).best_index = g.best_index ∧
      (trellis_final env b g).token_cache = g.token_cache := by
  have hfin : trellis_final env b g = trellis_init env b g := by
    unfold trellis_final; rw [h]; rfl
  have hnext : (trellis_init env b g).next = 0 := h
  refine ⟨?_, ?_, ?_, ?_⟩
  · unfold av1_optimize_b
    dsimp only
    rw [hfin]
    have hwb : ∀ w : WriteBack, w.i = 0 → write_back b (trellis_init env b g) fuel w = some w := by
      intro w hw
      cases fuel <;> simp [write_back, hw, h]
    rw [hwb _ hnext]
    rfl
  · intro j k hj
    rw [hfin]
    unfold trellis_init setTok
    dsimp only
    rw [h]
    simp [hj]
  · rw [hfin]; rfl
  · rw [hfin]; rfl

/-- Witness of C5 on the all-zero sample block. -/
theorem C5_all_zero_input_witness :
    av1_optimize_b sample_env sample_block_zero sample_scratch 0 = some
        { final_eob := 0, eobs_block := 0, qcoeff := sample_block_zero.qcoeff,
          dqcoeff := sample_block_zero.dqcoeff, visited := [] } ∧
      (∀ j k, j ≠ 0 →
        (trellis_final sample_env sample_block_zero sample_scratch).tokens j k =
          sample_scratch.tokens j k) ∧
      (trellis_final sample_env sample_block_zero sample_scratch).best_index =
        sample_scratch.best_index ∧
      (trellis_final sample_env sample_block_zero sample_scratch).token_cache =
        sample_scratch.token_cache :=
  C5_all_zero_input sample_env sample_block_zero sample_scratch 0 rfl

theorem shortcut_cond_large (b : OptBlock) (rc : Nat) (x : Int) (h : 3 < x.natAbs) :
    shortcut_cond b rc x = false := by
  unfold shortcut_cond
  rw [if_pos (by omega)]

/-- C7. Scenario B: when every nonzero quantized coefficient below `eob` has magnitude
above 3 and the coefficient at position `eob - 1` is nonzero, the round-down shortcut is
triggered at no position (each second hypothesis is a copy of the keep hypothesis), both
coefficient buffers are left unchanged and the input `eob` is returned. -/
theorem C7_large_coefficients_kept (env : TrellisEnv) (b : OptBlock) (g : Scratch)
    (fuel : Nat) (hf : b.eob ≤ fuel)
    (hbig : ∀ i, i < b.eob → is_node b i → 3 < (b.qcoeff (b.scan i)).natAbs)
    (hlast : 0 < b.eob → is_node b (b.eob - 1)) :
    (∀ i, i < b.eob → is_node b i →
      shortcut_cond b (b.scan i) (b.qcoeff (b.scan i)) = false ∧
      (trellis_final env b g).tokens i true = (trellis_final env b g).tokens i false) ∧
    ∃ r, av1_optimize_b env b g fuel = some r ∧ r.qcoeff = b.qcoeff ∧
      r.dqcoeff = b.dqcoeff ∧ r.final_eob = (b.eob : Int) := by
  have hs := loopInv_final env b g
  have hcond : ∀ i, i < b.eob → is_node b i →
      shortcut_cond b (b.scan i) (b.qcoeff (b.scan i)) = false :=
    fun i hi hn => shortcut_cond_large b _ _ (hbig i hi hn)
  refine ⟨fun i hi hn => ⟨hcond i hi hn, hs.copies i (Nat.zero_le _) hi hn (hcond i hi hn)⟩, ?_⟩
  obtain ⟨w, hw, ⟨hq, hdq, hlt, hlow, hall⟩, hi⟩ := optimize_b_inv env b g fuel hf
    (fun w => w.qcoeff = b.qcoeff ∧ w.dqcoeff = b.dqcoeff ∧ w.final_eob < (w.i : Int) ∧
      -1 ≤ w.final_eob ∧ ∀ j, j < w.i → is_node b j → (j : Int) ≤ w.final_eob)
    ⟨rfl, rfl, by show (-1 : Int) < _; omega, le_refl _,
      fun j hj hn => absurd hn (hs.head_gap j (Nat.zero_le _) hj)⟩
    (by
      intro w hlt hn ⟨hq, hdq, hfe, hlow, hall⟩
      have ok := hs.nodes w.i (Nat.zero_le _) hlt hn
      have hcp := hs.copies w.i (Nat.zero_le _) hlt hn (hcond w.i hlt hn)
      have htok : (trellis_final env b g).tokens w.i w.best =
          (trellis_final env b g).tokens w.i false := by
        cases w.best
        · rfl
        · exact hcp
      have hqc : ((trellis_final env b g).tokens w.i w.best).qc = b.qcoeff (b.scan w.i) := by
        rw [htok]; exact ok.qc_keep
      have hdqc : ((trellis_final env b g).tokens w.i w.best).dqc = b.dqcoeff (b.scan w.i) := by
        rw [htok]; exact ok.dqc_keep
      have hx : ((trellis_final env b g).tokens w.i w.best).qc ≠ 0 := by rw [hqc]; exact hn
      have hgt := ok.next_gt w.best
      show (write_back_step b _ w).qcoeff = _ ∧ (write_back_step b _ w).dqcoeff = _ ∧
        (write_back_step b _ w).final_eob < ((write_back_step b _ w).i : Int) ∧
        -1 ≤ (write_back_step b _ w).final_eob ∧
        ∀ j, j < (write_back_step b _ w).i → is_node b j →
          (j : Int) ≤ (write_back_step b _ w).final_eob
      unfold write_back_step
      dsimp only
      rw [if_pos hx, hqc, hdqc, hq, hdq]
      refine ⟨Function.update_eq_self _ _, Function.update_eq_self _ _, by omega, by omega, ?_⟩
      intro j hj hjn
      by_contra hcon
      exact ok.gap w.best j (by omega) hj hjn)
  refine ⟨_, optimize_b_of_write_back env b g fuel w hw, hq, hdq, ?_⟩
  dsimp only
  by_cases h0 : 0 < b.eob
  · have := hall (b.eob - 1) (by omega) (hlast h0)
    omega
  · omega

/-- Witness of C7: a single DC coefficient of magnitude 7 (`eob = 1`) is kept. -/
theorem C7_large_coefficients_kept_witness :
    (∀ i, i < sample_block_dc.eob → is_node sample_block_dc i →
      shortcut_cond sample_block_dc (sample_block_dc.scan i)
        (sample_block_dc.qcoeff (sample_block_dc.scan i)) = false ∧
      (trellis_final sample_env sample_block_dc sample_scratch).tokens i true =
        (trellis_final sample_env sample_block_dc sample_scratch).tokens i false) ∧
    ∃ r, av1_optimize_b sample_env sample_block_dc sample_scratch 1 = some r ∧
      r.qcoeff = sample_block_dc.qcoeff ∧ r.dqcoeff = sample_block_dc.dqcoeff ∧
      r.final_eob = (sample_block_dc.eob : Int) :=
  C7_large_coefficients_kept sample_env sample_block_dc sample_scratch 1 (by decide)
    (by
      intro i hi _
      have h0 : i = 0 := by
        have : i < 1 := hi
        omega
      subst h0
      decide)
    (by intro _; decide)

/-- C3. The returned end-of-block agrees with the coefficients left behind: when the scan
is injective below `eob` (and `eob` fits the `uint16_t` slot), the returned value `n`
is at most `eob`, every scan position from `n` up to `eob` holds a zero output
coefficient, position `n - 1` holds a nonzero one when `n > 0`, and `n` is the value
stored in `eobs[block]`. -/
theorem C3_eob_consistent (env : TrellisEnv) (b : OptBlock) (g : Scratch) (fuel : Nat)
    (hf : b.eob ≤ fuel) (h16 : b.eob < 65536)
    (hinj : ∀ i j, i < b.eob → j < b.eob → b.scan i = b.scan j → i = j) :
    ∃ (r : OptResult) (n : Nat), av1_optimize_b env b g fuel = some r ∧
      r.final_eob = (n : Int) ∧ r.eobs_block = (n : Int) ∧ n ≤ b.eob ∧
      (∀ i, n ≤ i → i < b.eob → r.qcoeff (b.scan i) = 0) ∧
      (0 < n → r.qcoeff (b.scan (n - 1)) ≠ 0) := by
  have hs := loopInv_final env b g
  obtain ⟨w, hw, ⟨h1, h2, h3, h4, _⟩, hi⟩ := optimize_b_inv env b g fuel hf
    (fun w => -1 ≤ w.final_eob ∧ w.final_eob < (w.i : Int) ∧
      (∀ j : Nat, j < w.i → w.final_eob < (j : Int) → w.qcoeff (b.scan j) = 0) ∧
      (∀ m : Nat, w.final_eob = (m : Int) → w.qcoeff (b.scan m) ≠ 0) ∧
      (∀ j, w.i ≤ j → j < b.eob → w.qcoeff (b.scan j) = b.qcoeff (b.scan j)))
    ⟨le_refl _, by show (-1 : Int) < _; omega,
      fun j hj _ => by
        have := hs.head_gap j (Nat.zero_le _) hj
        unfold is_node at this
        exact not_not.mp this,
      fun m hm => by
        have : (-1 : Int) = (m : Int) := hm
        omega,
      fun j _ _ => rfl⟩
    (by
      intro w hlt hn ⟨h1, h2, h3, h4, h5⟩
      have ok := hs.nodes w.i (Nat.zero_le _) hlt hn
      have hgt := ok.next_gt w.best
      have hle := ok.next_le w.best
      show -1 ≤ (write_back_step b _ w).final_eob ∧
        (write_back_step b _ w).final_eob < ((write_back_step b _ w).i : Int) ∧
        (∀ j : Nat, j < (write_back_step b _ w).i → (write_back_step b _ w).final_eob < (j : Int) →
          (write_back_step b _ w).qcoeff (b.scan j) = 0) ∧
        (∀ m : Nat, (write_back_step b _ w).final_eob = (m : Int) →
          (write_back_step b _ w).qcoeff (b.scan m) ≠ 0) ∧
        (∀ j, (write_back_step b _ w).i ≤ j → j < b.eob →
          (write_back_step b _ w).qcoeff (b.scan j) = b.qcoeff (b.scan j))
      unfold write_back_step
      dsimp only
      have hne : ∀ j, j < b.eob → j ≠ w.i → b.scan j ≠ b.scan w.i :=
        fun j hj hji hsc => hji (hinj j w.i hj hlt hsc)
      refine ⟨?_, ?_, ?_, ?_, ?_⟩
      · split <;> omega
      · split <;> omega
      · intro j hj hfe
        by_cases hji : j = w.i
        · subst hji
          rw [Function.update_same]
          by_contra hx
          rw [if_pos hx] at hfe
          omega
        · rw [Function.update_noteq (hne j (by omega) hji)]
          by_cases hlow : j < w.i
          · apply h3 j hlow
            split at hfe
            · omega
            · exact hfe
          · have hnn := ok.gap w.best j (by omega) hj
            unfold is_node at hnn
            rw [h5 j (by omega) (by omega)]
            exact not_not.mp hnn
      · intro m hm
        split at hm
        · rename_i hx
          have : m = w.i := by omega
          subst this
          rw [Function.update_same]; exact hx
        · have hmi : m < w.i := by omega
          rw [Function.update_noteq (hne m (by omega) (by omega))]
          exact h4 m hm
      · intro j hj1 hj2
        rw [Function.update_noteq (hne j hj2 (by omega))]
        exact h5 j (by omega) hj2)
  have hnat : ∃ n : Nat, w.final_eob + 1 = (n : Int) := ⟨(w.final_eob + 1).toNat, by omega⟩
  obtain ⟨n, hn⟩ := hnat
  refine ⟨_, n, optimize_b_of_write_back env b g fuel w hw, hn, ?_, by omega, ?_, ?_⟩
  · dsimp only; omega
  · intro i hi1 hi2
    exact h3 i (by omega) (by omega)
  · intro hpos
    exact h4 (n - 1) (by omega)

/-- Witness of C3 on the two-coefficient sample block. -/
theorem C3_eob_consistent_witness :
    ∃ (r : OptResult) (n : Nat),
      av1_optimize_b sample_env sample_block sample_scratch 2 = some r ∧
      r.final_eob = (n : Int) ∧ r.eobs_block = (n : Int) ∧ n ≤ sample_block.eob ∧
      (∀ i, n ≤ i → i < sample_block.eob → r.qcoeff (sample_block.scan i) = 0) ∧
      (0 < n → r.qcoeff (sample_block.scan (n - 1)) ≠ 0) :=
  C3_eob_consistent sample_env sample_block sample_scratch 2 (by decide) (by decide)
    (by
      intro i j hi hj
      have hi2 : i < 2 := hi
      have hj2 : j < 2 := hj
      interval_cases i <;> interval_cases j <;> decide)

theorem round_down_ne (x : Int) : round_down x ≠ x := by
  unfold round_down sign_mask
  split <;> omega

/-- C8, as stated, fails: the DC coefficient of `sample_block_boundary` is nonzero, has
magnitude at most 3 and sits exactly on the boundary `|coeff| * 2^shift = |x| * dequant`,
yet the second hypothesis of its node does not hold the reduced value; it is a copy of
the keep hypothesis. -/
theorem C8_counterexample :
    is_node sample_block_boundary 0 ∧
    (sample_block_boundary.qcoeff (sample_block_boundary.scan 0)).natAbs ≤ 3 ∧
    ((sample_block_boundary.coeff (sample_block_boundary.scan 0)).natAbs : Int) *
        2 ^ sample_block_boundary.shift =
      ((sample_block_boundary.qcoeff (sample_block_boundary.scan 0)).natAbs : Int) *
        sample_block_boundary.dequant_ptr (dq_index (sample_block_boundary.scan 0)) ∧
    ((trellis_final sample_env sample_block_boundary sample_scratch).tokens 0 true).qc ≠
      round_down (sample_block_boundary.qcoeff (sample_block_boundary.scan 0)) ∧
    (trellis_final sample_env sample_block_boundary sample_scratch).tokens 0 true =
      (trellis_final sample_env sample_block_boundary sample_scratch).tokens 0 false := by
  decide

/-- C8, amended. For a nonzero coefficient `x` at scan position `i < eob`, the second
hypothesis of the node holds the reduced value exactly when `|x| <= 3` and
`(|x| - 1) * dequant < |coeff| * 2^shift < |x| * dequant`, both strictly; when the
unquantized magnitude sits exactly on a step boundary, the round-down candidate is not
evaluated and the second hypothesis is a copy of the keep hypothesis. -/
theorem C8_round_down_strictly_inside (env : TrellisEnv) (b : OptBlock) (g : Scratch) (i : Nat)
    (hi : i < b.eob) (hn : is_node b i) :
    (((trellis_final env b g).tokens i true).qc = round_down (b.qcoeff (b.scan i)) ↔
      (((b.qcoeff (b.scan i)).natAbs : Int) ≤ 3 ∧
        ((b.qcoeff (b.scan i)).natAbs : Int) * b.dequant_ptr (dq_index (b.scan i)) >
          ((b.coeff (b.scan i)).natAbs : Int) * 2 ^ b.shift ∧
        ((b.qcoeff (b.scan i)).natAbs : Int) * b.dequant_ptr (dq_index (b.scan i)) <
          ((b.coeff (b.scan i)).natAbs : Int) * 2 ^ b.shift +
            b.dequant_ptr (dq_index (b.scan i)))) ∧
    ((((b.coeff (b.scan i)).natAbs : Int) * 2 ^ b.shift =
          ((b.qcoeff (b.scan i)).natAbs : Int) * b.dequant_ptr (dq_index (b.scan i)) ∨
        ((b.coeff (b.scan i)).natAbs : Int) * 2 ^ b.shift =
          (((b.qcoeff (b.scan i)).natAbs : Int) - 1) * b.dequant_ptr (dq_index (b.scan i))) →
      (trellis_final env b g).tokens i true = (trellis_final env b g).tokens i false ∧
      ((trellis_final env b g).tokens i true).qc = b.qcoeff (b.scan i)) := by
  have hs := loopInv_final env b g
  have ok := hs.nodes i (Nat.zero_le _) hi hn
  have hcond : shortcut_cond b (b.scan i) (b.qcoeff (b.scan i)) = true ↔
      (((b.qcoeff (b.scan i)).natAbs : Int) ≤ 3 ∧
        ((b.qcoeff (b.scan i)).natAbs : Int) * b.dequant_ptr (dq_index (b.scan i)) >
          ((b.coeff (b.scan i)).natAbs : Int) * 2 ^ b.shift ∧
        ((b.qcoeff (b.scan i)).natAbs : Int) * b.dequant_ptr (dq_index (b.scan i)) <
          ((b.coeff (b.scan i)).natAbs : Int) * 2 ^ b.shift +
            b.dequant_ptr (dq_index (b.scan i))) := by
    unfold shortcut_cond
    by_cases h3 : ((b.qcoeff (b.scan i)).natAbs : Int) > 3
    · rw [if_pos h3]
      constructor
      · intro h; exact absurd h (by decide)
      · intro h; omega
    · rw [if_neg h3, decide_eq_true_iff]
      constructor
      · intro h; exact ⟨by omega, h⟩
      · intro h; exact h.2
  constructor
  · rw [ok.qc_down, ← hcond]
    constructor
    · intro h
      by_contra hc
      rw [if_neg hc] at h
      exact round_down_ne _ h.symm
    · intro h
      rw [if_pos h]
  · intro hb
    have hfalse : shortcut_cond b (b.scan i) (b.qcoeff (b.scan i)) = false := by
      by_contra hc
      have hc2 := hcond.mp (by simpa using hc)
      rcases hb with hb | hb
      · rw [hb] at hc2
        exact lt_irrefl _ hc2.2.1
      · have : ((b.coeff (b.scan i)).natAbs : Int) * 2 ^ b.shift +
            b.dequant_ptr (dq_index (b.scan i)) =
            ((b.qcoeff (b.scan i)).natAbs : Int) * b.dequant_ptr (dq_index (b.scan i)) := by
          rw [hb]; ring
        rw [this] at hc2
        exact lt_irrefl _ hc2.2.2
    have hcp := hs.copies i (Nat.zero_le _) hi hn hfalse
    exact ⟨hcp, by rw [hcp]; exact ok.qc_keep⟩

/-- Witness of the amended C8 on the block whose coefficient sits on a step boundary. -/
theorem C8_round_down_strictly_inside_witness :
    (trellis_final sample_env sample_block_boundary sample_scratch).tokens 0 true =
        (trellis_final sample_env sample_block_boundary sample_scratch).tokens 0 false ∧
      ((trellis_final sample_env sample_block_boundary sample_scratch).tokens 0 true).qc =
        sample_block_boundary.qcoeff (sample_block_boundary.scan 0) :=
  (C8_round_down_strictly_inside sample_env sample_block_boundary sample_scratch 0
    (by decide) (by decide)).2 (Or.inl (by decide))

/-- C9. Ties are broken toward keep: the comparison `rd_cost1 < rd_cost0` yields index 0
on equal costs; so do the successor selections of the keep and of the round-down
hypothesis at every position and the final selection between the terminal hypotheses;
and a block with `eob = 1` whose two terminal hypotheses have equal total cost is
returned with its quantized and dequantized coefficients unchanged. -/
theorem C9_ties_keep (env : TrellisEnv) (b : OptBlock) (g : Scratch) (fuel : Nat)
    (i : Nat) (s : Trellis) :
    (∀ c, pick_best c c = false) ∧
    (keep_rd_cost env b i s true = keep_rd_cost env b i s false →
      (keep_candidate env b i s).2 = false) ∧
    (down_rd_cost env b i s true = down_rd_cost env b i s false →
      (down_candidate env b i s).2.1 = false) ∧
    (final_rd_cost env b s true = final_rd_cost env b s false →
      (write_back_init env b s).best = false) ∧
    (b.eob = 1 → 1 ≤ fuel →
      final_rd_cost env b (trellis_final env b g) true =
        final_rd_cost env b (trellis_final env b g) false →
      ∃ r, av1_optimize_b env b g fuel = some r ∧ r.qcoeff = b.qcoeff ∧
        r.dqcoeff = b.dqcoeff) := by
  have hpick : ∀ c, pick_best c c = false := by
    intro c; unfold pick_best; simp
  refine ⟨hpick, ?_, ?_, ?_, ?_⟩
  · intro h
    show keep_best env b i s = false
    unfold keep_best
    rw [h, hpick]; simp
  · intro h
    show down_best env b i s = false
    unfold down_best
    rw [h, hpick]; simp
  · intro h
    show pick_best _ _ = false
    rw [h, hpick]
  · intro h1 hf htie
    have hs := loopInv_final env b g
    obtain ⟨w, hw, ⟨hq, hdq, _⟩, _⟩ := optimize_b_inv env b g fuel (by omega)
      (fun w => w.qcoeff = b.qcoeff ∧ w.dqcoeff = b.dqcoeff ∧ (w.i = 0 → w.best = false))
      ⟨rfl, rfl, fun _ => by
        show pick_best _ _ = false
        rw [htie, hpick]⟩
      (by
        intro w hlt hn ⟨hq, hdq, hbest⟩
        have hw0 : w.i = 0 := by omega
        have ok := hs.nodes w.i (Nat.zero_le _) hlt hn
        have hgt := ok.next_gt w.best
        show (write_back_step b _ w).qcoeff = _ ∧ (write_back_step b _ w).dqcoeff = _ ∧
          ((write_back_step b _ w).i = 0 → (write_back_step b _ w).best = false)
        unfold write_back_step
        dsimp only
        rw [hbest hw0] at hgt ⊢
        rw [ok.qc_keep, ok.dqc_keep, hq, hdq]
        exact ⟨Function.update_eq_self _ _, Function.update_eq_self _ _, fun h => by omega⟩)
    exact ⟨_, optimize_b_of_write_back env b g fuel w hw, hq, hdq⟩

/-- Witness of C9: the comparisons on a handcrafted tie state, and the single-coefficient
block `sample_block_tie`, whose two terminal hypotheses both cost 150 and whose round-down
candidate is evaluated. -/
theorem C9_ties_keep_witness :
    (keep_candidate sample_env sample_block_tie 0 sample_tie_state).2 = false ∧
    (down_candidate sample_env sample_block_tie 0 sample_tie_state).2.1 = false ∧
    (write_back_init sample_env sample_block_tie sample_tie_state).best = false ∧
    shortcut_cond sample_block_tie (sample_block_tie.scan 0)
      (sample_block_tie.qcoeff (sample_block_tie.scan 0)) = true ∧
    ∃ r, av1_optimize_b sample_env sample_block_tie sample_scratch 1 = some r ∧
      r.qcoeff = sample_block_tie.qcoeff ∧ r.dqcoeff = sample_block_tie.dqcoeff :=
  ⟨(C9_ties_keep sample_env sample_block_tie sample_scratch 1 0 sample_tie_state).2.1
      (by decide),
    (C9_ties_keep sample_env sample_block_tie sample_scratch 1 0 sample_tie_state).2.2.1
      (by decide),
    (C9_ties_keep sample_env sample_block_tie sample_scratch 1 0 sample_tie_state).2.2.2.1
      (by decide),
    by decide,
    (C9_ties_keep sample_env sample_block_tie sample_scratch 1 0 sample_tie_state).2.2.2.2
      (by decide) (by decide) (by decide)⟩

/-! ## Cost of the selected path -/

theorem xor_neg_one (v : Int) : Int.xor v (-1) = -v - 1 := by
  cases v with
  | ofNat n =>
    show Int.xor (Int.ofNat n) (Int.negSucc 0) = _
    simp only [Int.xor]
    rw [Nat.xor_zero, Int.negSucc_eq]
    simp
    ring
  | negSucc n =>
    show Int.xor (Int.negSucc n) (Int.negSucc 0) = _
    simp only [Int.xor]
    rw [Nat.xor_zero, Int.negSucc_eq]
    ring

theorem xor_zero_right (v : Int) : Int.xor v 0 = v := by
  cases v with
  | ofNat n =>
    show Int.xor (Int.ofNat n) (Int.ofNat 0) = _
    simp only [Int.xor]
    rw [Nat.xor_zero]
    rfl
  | negSucc n =>
    show Int.xor (Int.negSucc n) (Int.ofNat 0) = _
    simp only [Int.xor]
    rw [Nat.xor_zero]

/-- `(v + sz) ^ sz` negates `v` when `sz = -1` and keeps it when `sz = 0`. -/
theorem xor_sign_mask (v x : Int) :
    Int.xor (v + sign_mask x) (sign_mask x) = if x < 0 then -v else v := by
  unfold sign_mask
  split
  · rw [xor_neg_one]; ring
  · rw [xor_zero_right]; ring

theorem band_advance_token_costs (env : TrellisEnv) (s : Trellis) :
    (band_advance env s).token_costs =
      if (65535 + s.band_left) % 65536 = 0 then s.token_costs - 1 else s.token_costs := by
  unfold band_advance
  dsimp only
  by_cases hc : (65535 + s.band_left) % 65536 = 0
  · rw [if_pos hc, if_pos hc]
  · rw [if_neg hc, if_neg hc]

theorem trellis_step_token_costs (env : TrellisEnv) (b : OptBlock) (i : Nat) (s : Trellis) :
    (trellis_step env b i s).token_costs =
      if (65535 + s.band_left) % 65536 = 0 then s.token_costs - 1 else s.token_costs := by
  by_cases hn : is_node b i
  · unfold is_node at hn
    unfold trellis_step
    dsimp only
    rw [if_pos hn]
    split <;> rw [band_advance_token_costs]
  · rw [trellis_step_zero env b i s hn, band_advance_token_costs]
    rfl

theorem single_trellis (env : TrellisEnv) (b : OptBlock) (g : Scratch) (h1 : b.eob = 1) :
    trellis_final env b g = trellis_step env b 0 (init_step env b 0 (trellis_init env b g)) := by
  unfold trellis_final
  rw [h1]
  rfl

/-- The locals of a single-coefficient block when the backward loop starts. -/
theorem single_start (env : TrellisEnv) (b : OptBlock) (g : Scratch) (h1 : b.eob = 1)
    (hd : 1 < b.default_eob)
    (hcum : env.band_cum_count_table (env.band_translate 1) = 1) :
    (init_step env b 0 (trellis_init env b g)).next = 1 ∧
    (init_step env b 0 (trellis_init env b g)).shortcut = false ∧
    (init_step env b 0 (trellis_init env b g)).band_left = 1 ∧
    (init_step env b 0 (trellis_init env b g)).token_costs = (env.band_translate 1 : Int) ∧
    (init_step env b 0 (trellis_init env b g)).token_cache =
      Function.update g.token_cache (b.scan 0)
        (env.av1_pt_energy_class (env.av1_get_token_cost (b.qcoeff (b.scan 0))).2) ∧
    ((init_step env b 0 (trellis_init env b g)).tokens 0 false).rate =
      (env.av1_get_token_cost (b.qcoeff (b.scan 0))).1 ∧
    ((init_step env b 0 (trellis_init env b g)).tokens 0 false).token =
      (env.av1_get_token_cost (b.qcoeff (b.scan 0))).2 ∧
    (∀ k, ((init_step env b 0 (trellis_init env b g)).tokens 1 k).rate = 0 ∧
      ((init_step env b 0 (trellis_init env b g)).tokens 1 k).error = 0 ∧
      ((init_step env b 0 (trellis_init env b g)).tokens 1 k).token = env.EOB_TOKEN) := by
  have hband : band_init env b = env.band_translate 1 := by
    unfold band_init; rw [h1, if_pos hd]
  refine ⟨h1, rfl, ?_, ?_, rfl, ?_, ?_, ?_⟩
  · show (((b.eob : Int) - (env.band_cum_count_table (band_init env b) : Int) + 1) % 65536).toNat = 1
    rw [hband, hcum, h1]; rfl
  · show ((band_init env b : Nat) : Int) = _
    rw [hband]
  · simp [init_step, setTok]
  · simp [init_step, setTok]
  · intro k
    cases k <;> simp [init_step, trellis_init, setTok, h1]


theorem single_keep (env : TrellisEnv) (b : OptBlock) (g : Scratch) (h1 : b.eob = 1)
    (hd : 1 < b.default_eob)
    (hcum : env.band_cum_count_table (env.band_translate 1) = 1) :
    (keep_candidate env b 0 (init_step env b 0 (trellis_init env b g))).1 =
      { rate := (env.av1_get_token_cost (b.qcoeff (b.scan 0))).1 +
          env.token_costs (env.band_translate 1 : Int) 0
            (env.get_coef_context (Function.update g.token_cache (b.scan 0)
              (env.av1_pt_energy_class (env.av1_get_token_cost (b.qcoeff (b.scan 0))).2)) 1)
            env.EOB_TOKEN
        error := (b.dqcoeff (b.scan 0) - b.coeff (b.scan 0)) * 2 ^ b.shift *
          ((b.dqcoeff (b.scan 0) - b.coeff (b.scan 0)) * 2 ^ b.shift)
        next := 1
        token := (env.av1_get_token_cost (b.qcoeff (b.scan 0))).2
        qc := b.qcoeff (b.scan 0)
        dqc := b.dqcoeff (b.scan 0) } := by
  obtain ⟨hnx, hsc, _, htc, hcache, hr, ht, hsent⟩ := single_start env b g h1 hd hcum
  unfold keep_candidate keep_best keep_rates
  dsimp only
  rw [hnx, hsc, htc, hcache, hr, ht, (hsent false).1, (hsent false).2.1, (hsent false).2.2]
  simp [hd]

theorem single_down (env : TrellisEnv) (b : OptBlock) (g : Scratch) (h1 : b.eob = 1)
    (hd : 1 < b.default_eob)
    (hcum : env.band_cum_count_table (env.band_translate 1) = 1)
    (htok : ∀ v, (env.av1_get_token_cost v).2 ≠ env.EOB_TOKEN) :
    (down_candidate env b 0 (init_step env b 0 (trellis_init env b g))).1 =
      if round_down (b.qcoeff (b.scan 0)) = 0 then
        { rate := 0
          error := down_dx b (b.scan 0) * down_dx b (b.scan 0)
          next := 1
          token := env.EOB_TOKEN
          qc := round_down (b.qcoeff (b.scan 0))
          dqc := down_dqc b (b.scan 0) }
      else
        { rate := (env.av1_get_token_cost (round_down (b.qcoeff (b.scan 0)))).1 +
            env.token_costs (env.band_translate 1 : Int) 0
              (env.get_coef_context (Function.update g.token_cache (b.scan 0)
                (env.av1_pt_energy_class
                  (env.av1_get_token_cost (round_down (b.qcoeff (b.scan 0)))).2)) 1)
              env.EOB_TOKEN
          error := down_dx b (b.scan 0) * down_dx b (b.scan 0)
          next := 1
          token := (env.av1_get_token_cost (round_down (b.qcoeff (b.scan 0)))).2
          qc := round_down (b.qcoeff (b.scan 0))
          dqc := down_dqc b (b.scan 0) } := by
  obtain ⟨hnx, hsc, _, htc, hcache, hr, ht, hsent⟩ := single_start env b g h1 hd hcum
  unfold down_candidate down_best down_rates down_tokens
  dsimp only
  rw [hnx, hsc, htc, hcache, (hsent false).1, (hsent false).2.1, (hsent false).2.2,
    (hsent true).1, (hsent true).2.1, (hsent true).2.2]
  by_cases hx : round_down (b.qcoeff (b.scan 0)) = 0
  · simp [hx]
  · simp [hx, hd, htok]


theorem single_block_rate_one (env : TrellisEnv) (b : OptBlock) (c : Nat → Nat) (q : Nat → Int)
    (hd : 1 < b.default_eob) :
    block_rate env b c q 1 =
      (env.av1_get_token_cost (q (b.scan 0))).1 +
        env.token_costs (env.band_translate 0 : Int) 0 b.ctx
          (env.av1_get_token_cost (q (b.scan 0))).2 +
        env.token_costs (env.band_translate 1 : Int) 0
          (env.get_coef_context (Function.update c (b.scan 0)
            (env.av1_pt_energy_class (env.av1_get_token_cost (q (b.scan 0))).2)) 1)
          env.EOB_TOKEN := by
  simp [block_rate, coded_token_rate, coded_ctx, coded_cache, hd, List.range_succ]

theorem single_block_rate_zero (env : TrellisEnv) (b : OptBlock) (c : Nat → Nat) (q : Nat → Int)
    (hd : 1 < b.default_eob) :
    block_rate env b c q 0 =
      env.token_costs (env.band_translate 0 : Int) 0 b.ctx env.EOB_TOKEN := by
  have h0 : 0 < b.default_eob := by omega
  simp [block_rate, coded_ctx, h0]

theorem single_block_error (b : OptBlock) (dq : Nat → Int) (h1 : b.eob = 1) :
    block_error b dq =
      (dq (b.scan 0) - b.coeff (b.scan 0)) * 2 ^ b.shift *
        ((dq (b.scan 0) - b.coeff (b.scan 0)) * 2 ^ b.shift) := by
  simp [block_error, h1, List.range_succ]

theorem write_back_done (b : OptBlock) (s : Trellis) (w : WriteBack) (h : ¬ w.i < b.eob) :
    ∀ n, write_back b s n w = some w := by
  intro n
  cases n <;> simp [write_back, h]


theorem land_zero_left (x : Int) : Int.land 0 x = 0 := by
  cases x with
  | ofNat n =>
    show Int.land (Int.ofNat 0) (Int.ofNat n) = 0
    simp [Int.land]
  | negSucc n =>
    show Int.land (Int.ofNat 0) (Int.negSucc n) = 0
    simp [Int.land, Nat.ldiff]

theorem round_down_eq_zero (x : Int) : round_down x = 0 ↔ x = 1 ∨ x = -1 := by
  unfold round_down sign_mask
  split <;> omega

/-- With `shift = 0` and a uniformly dequantized input, the error term of the round-down
hypothesis is the squared error of the dequantized value it carries. -/
theorem down_error_exact (b : OptBlock) (rc : Nat) (hsh : b.shift = 0)
    (hdq : b.dqcoeff rc = b.qcoeff rc * b.dequant_ptr (dq_index rc)) :
    down_dx b rc = (down_dqc b rc - b.coeff rc) * 2 ^ b.shift := by
  unfold down_dx down_dqc
  dsimp only
  rw [xor_sign_mask, hsh]
  simp only [Nat.cast_zero, land_zero_left, ne_eq, not_true_eq_false, if_false, pow_zero,
    mul_one, Int.ediv_one]
  by_cases hx : round_down (b.qcoeff rc) = 0
  · rw [hdq]
    rcases (round_down_eq_zero _).mp hx with h | h
    · rw [h]; norm_num [round_down, sign_mask]
    · rw [h]; norm_num [round_down, sign_mask]; ring
  · simp only [hx, not_false_eq_true, if_true]
    unfold sign_mask
    by_cases hneg : b.qcoeff rc < 0
    · simp [hneg]; ring
    · simp [hneg]; ring


/-- For a single-coefficient block (`eob = 1`, `shift = 0`, uniformly dequantized input,
band tables in step with the scan) the accumulated costs of the two terminal hypotheses
are the costs of the blocks they stand for, so the cost of the output is at most the cost
of the input. -/
theorem single_coeff_monotone (env : TrellisEnv) (b : OptBlock) (g : Scratch) (fuel : Nat)
    (h1 : b.eob = 1) (hf : 1 ≤ fuel) (hd : 1 < b.default_eob) (hsh : b.shift = 0)
    (hn : is_node b 0)
    (hcum : env.band_cum_count_table (env.band_translate 1) = 1)
    (hband : (env.band_translate 1 : Int) - 1 = (env.band_translate 0 : Int))
    (htok : ∀ v, (env.av1_get_token_cost v).2 ≠ env.EOB_TOKEN)
    (hdq : b.dqcoeff (b.scan 0) = b.qcoeff (b.scan 0) * b.dequant_ptr (dq_index (b.scan 0))) :
    ∃ r, av1_optimize_b env b g fuel = some r ∧
      block_rd_cost env b g.token_cache r.qcoeff r.dqcoeff r.final_eob.toNat ≤
        block_rd_cost env b g.token_cache b.qcoeff b.dqcoeff b.eob := by
  have hs := single_trellis env b g h1
  obtain ⟨hnx0, hsc0, hbl0, htc0, hcache0, hr0, ht0, hsent0⟩ := single_start env b g h1 hd hcum
  have hkeep := single_keep env b g h1 hd hcum
  have hdown := single_down env b g h1 hd hcum htok
  have hnext : (trellis_final env b g).next = 0 := by
    rw [hs]; exact trellis_step_node_next env b 0 _ hn
  have htk : ∀ k, (trellis_final env b g).tokens 0 k =
      if k = true ∧ shortcut_cond b (b.scan 0) (b.qcoeff (b.scan 0)) = true then
        (down_candidate env b 0 (init_step env b 0 (trellis_init env b g))).1
      else (keep_candidate env b 0 (init_step env b 0 (trellis_init env b g))).1 := by
    intro k; rw [hs, trellis_step_node_tokens env b 0 _ hn, if_pos rfl]
  have htc : (trellis_final env b g).token_costs = (env.band_translate 0 : Int) := by
    rw [hs, trellis_step_token_costs, hbl0, htc0, if_pos (by norm_num)]; exact hband
  have hin : block_rd_cost env b g.token_cache b.qcoeff b.dqcoeff b.eob =
      final_rd_cost env b (trellis_final env b g) false := by
    unfold block_rd_cost final_rd_cost
    rw [h1, single_block_rate_one _ _ _ _ hd, single_block_error _ _ h1, hnext, htc, htk false]
    simp only [Bool.false_eq_true, false_and, if_false, hkeep]
    congr 1
    ring
  have hnx1 : ∀ k, ((trellis_final env b g).tokens 0 k).next = 1 := by
    intro k; rw [htk k]; split
    · rw [hdown]; split <;> rfl
    · rw [hkeep]
  have hw0i : (write_back_init env b (trellis_final env b g)).i = 0 := hnext
  have hwb : write_back b (trellis_final env b g) fuel
      (write_back_init env b (trellis_final env b g)) =
      some (write_back_step b (trellis_final env b g)
        (write_back_init env b (trellis_final env b g))) := by
    obtain ⟨n, rfl⟩ : ∃ n, fuel = n + 1 := ⟨fuel - 1, by omega⟩
    have hlt : (write_back_init env b (trellis_final env b g)).i < b.eob := by
      rw [hw0i, h1]; exact Nat.one_pos
    simp only [write_back, hlt, if_true]
    apply write_back_done
    show ¬ ((trellis_final env b g).tokens _ _).next < b.eob
    rw [hw0i, hnx1, h1]; omega
  refine ⟨_, optimize_b_of_write_back env b g fuel _ hwb, ?_⟩
  dsimp only
  rw [hin]
  have hle : final_rd_cost env b (trellis_final env b g)
      (write_back_init env b (trellis_final env b g)).best ≤
      final_rd_cost env b (trellis_final env b g) false := by
    show final_rd_cost env b _ (pick_best _ _) ≤ _
    unfold pick_best
    by_cases hc : final_rd_cost env b (trellis_final env b g) true <
        final_rd_cost env b (trellis_final env b g) false
    · simp only [hc, decide_True]; exact le_of_lt hc
    · simp only [hc, decide_False]; exact le_refl _
  refine le_trans (le_of_eq ?_) hle
  unfold write_back_step
  dsimp only
  rw [hw0i]
  rw [show (write_back_init env b (trellis_final env b g)).qcoeff = b.qcoeff from rfl,
    show (write_back_init env b (trellis_final env b g)).dqcoeff = b.dqcoeff from rfl,
    show (write_back_init env b (trellis_final env b g)).final_eob = -1 from rfl]
  generalize (write_back_init env b (trellis_final env b g)).best = k
  unfold final_rd_cost block_rd_cost
  rw [hnext, htc, htk k]
  by_cases hk : k = true ∧ shortcut_cond b (b.scan 0) (b.qcoeff (b.scan 0)) = true
  · rw [if_pos hk, hdown]
    by_cases hx : round_down (b.qcoeff (b.scan 0)) = 0
    · rw [if_pos hx]
      dsimp only
      rw [if_neg (not_not.mpr hx), show ((-1 : Int) + 1).toNat = 0 from rfl,
        single_block_rate_zero _ _ _ _ hd, single_block_error _ _ h1, Function.update_same,
        down_error_exact b _ hsh hdq, zero_add]
    · rw [if_neg hx]
      dsimp only
      rw [if_pos hx, show (((0 : Nat) : Int) + 1).toNat = 1 from rfl,
        single_block_rate_one _ _ _ _ hd, single_block_error _ _ h1, Function.update_same,
        Function.update_same, down_error_exact b _ hsh hdq]
      congr 1
      ring
  · rw [if_neg hk, hkeep]
    dsimp only
    rw [if_pos (show b.qcoeff (b.scan 0) ≠ 0 from hn),
      show (((0 : Nat) : Int) + 1).toNat = 1 from rfl,
      Function.update_eq_self, Function.update_eq_self,
      single_block_rate_one _ _ _ _ hd, single_block_error _ _ h1]
    congr 1
    ring


theorem sample_token_ne_eob (v : Int) : (sample_env.av1_get_token_cost v).2 ≠ sample_env.EOB_TOKEN := by
  show sample_token v ≠ 11
  unfold sample_token
  dsimp only
  split_ifs <;> omega

/-- C2, as stated, fails: on `sample_block` (DC `1`, then `5`) the optimizer rounds the DC
coefficient down to zero; with the cost tables of `sample_env` the cost of the block it
writes back, 5286, exceeds the cost of the input block, 416, because the end-of-block
token is then coded under another context than the one the trellis charged. -/
theorem C2_counterexample :
    ∃ r, av1_optimize_b sample_env sample_block sample_scratch 2 = some r ∧
      block_rd_cost sample_env sample_block sample_scratch.token_cache
          sample_block.qcoeff sample_block.dqcoeff sample_block.eob = 416 ∧
      block_rd_cost sample_env sample_block sample_scratch.token_cache
          r.qcoeff r.dqcoeff r.final_eob.toNat = 5286 ∧
      ¬ (block_rd_cost sample_env sample_block sample_scratch.token_cache
          r.qcoeff r.dqcoeff r.final_eob.toNat ≤
        block_rd_cost sample_env sample_block sample_scratch.token_cache
          sample_block.qcoeff sample_block.dqcoeff sample_block.eob) :=
  ⟨_, rfl, by decide, by decide, by decide⟩

/-- C2, amended. The terminal hypothesis that is written back is the one of the two with
the smaller accumulated cost (`RDCOST` of its accumulated rate plus the cost of its first
token under `ctx`, and of its accumulated error).  For a single-coefficient block
(`eob = 1 < default_eob`, `shift = 0`, uniformly dequantized input, band tables in step
with the scan, no value token equal to `EOB_TOKEN`) the accumulated costs are the costs of
the blocks, and the cost of the written block is at most the cost of the input block. -/
theorem C2_selected_cost_minimal (env : TrellisEnv) (b : OptBlock) (g : Scratch) (fuel : Nat) :
    (∀ k, final_rd_cost env b (trellis_final env b g)
        (write_back_init env b (trellis_final env b g)).best ≤
      final_rd_cost env b (trellis_final env b g) k) ∧
    (b.eob = 1 → 1 ≤ fuel → 1 < b.default_eob → b.shift = 0 → is_node b 0 →
      env.band_cum_count_table (env.band_translate 1) = 1 →
      (env.band_translate 1 : Int) - 1 = (env.band_translate 0 : Int) →
      (∀ v, (env.av1_get_token_cost v).2 ≠ env.EOB_TOKEN) →
      b.dqcoeff (b.scan 0) = b.qcoeff (b.scan 0) * b.dequant_ptr (dq_index (b.scan 0)) →
      ∃ r, av1_optimize_b env b g fuel = some r ∧
        block_rd_cost env b g.token_cache r.qcoeff r.dqcoeff r.final_eob.toNat ≤
          block_rd_cost env b g.token_cache b.qcoeff b.dqcoeff b.eob) := by
  constructor
  · intro k
    show final_rd_cost env b _ (pick_best _ _) ≤ _
    unfold pick_best
    by_cases hc : final_rd_cost env b (trellis_final env b g) true <
        final_rd_cost env b (trellis_final env b g) false
    · simp only [hc, decide_True]
      cases k
      · exact le_of_lt hc
      · exact le_refl _
    · simp only [hc, decide_False]
      cases k
      · exact le_refl _
      · exact not_lt.mp hc
  · intro h1 hf hd hsh hn hcum hband htok hdq
    exact single_coeff_monotone env b g fuel h1 hf hd hsh hn hcum hband htok hdq

/-- Witness of the amended C2 on the single-coefficient block `sample_block_low`. -/
theorem C2_selected_cost_minimal_witness :
    ∃ r, av1_optimize_b sample_env sample_block_low sample_scratch 1 = some r ∧
      block_rd_cost sample_env sample_block_low sample_scratch.token_cache
          r.qcoeff r.dqcoeff r.final_eob.toNat ≤
        block_rd_cost sample_env sample_block_low sample_scratch.token_cache
          sample_block_low.qcoeff sample_block_low.dqcoeff sample_block_low.eob :=
  (C2_selected_cost_minimal sample_env sample_block_low sample_scratch 1).2
    (by decide) (by decide) (by decide) (by decide) (by decide) (by decide) (by decide)
    sample_token_ne_eob (by decide)

/-! ## The unit skip flag and the skip policy -/

theorem all_blocks_zero_nil : all_blocks_zero [] := by
  intro p b e h; simp at h

theorem all_blocks_zero_append (l m : List Call) :
    all_blocks_zero (l ++ m) ↔ all_blocks_zero l ∧ all_blocks_zero m := by
  unfold all_blocks_zero
  constructor
  · intro h
    exact ⟨fun p b e hm => h p b e (List.mem_append.mpr (Or.inl hm)),
      fun p b e hm => h p b e (List.mem_append.mpr (Or.inr hm))⟩
  · intro h p b e hm
    rcases List.mem_append.mp hm with h1 | h1
    · exact h.1 p b e h1
    · exact h.2 p b e h1

theorem SkipStep.step_refl (s : EncState) : SkipStep s s :=
  ⟨[], by simp, fun _ => rfl, fun h => absurd all_blocks_zero_nil h⟩

theorem SkipStep.step_trans {s t u : EncState} (h1 : SkipStep s t) (h2 : SkipStep t u) :
    SkipStep s u := by
  obtain ⟨l, hl, hz, hn⟩ := h1
  obtain ⟨m, hm, hz2, hn2⟩ := h2
  refine ⟨l ++ m, by rw [hm, hl, List.append_assoc], ?_, ?_⟩
  · intro h
    have := (all_blocks_zero_append l m).mp h
    rw [hz2 this.2, hz this.1]
  · intro h
    by_cases hm0 : all_blocks_zero m
    · have hl0 : ¬ all_blocks_zero l := fun hl0 => h ((all_blocks_zero_append l m).mpr ⟨hl0, hm0⟩)
      rw [hz2 hm0, hn hl0]
    · exact hn2 hm0

theorem QuietStep.quiet_refl (s : EncState) : QuietStep s s :=
  ⟨[], by simp, rfl, fun p b e hm => by simp at hm⟩

theorem QuietStep.quiet_trans {s t u : EncState} (h1 : QuietStep s t) (h2 : QuietStep t u) :
    QuietStep s u := by
  obtain ⟨l, hl, hs, hn⟩ := h1
  obtain ⟨m, hm, hs2, hn2⟩ := h2
  refine ⟨l ++ m, by rw [hm, hl, List.append_assoc], by rw [hs2, hs], ?_⟩
  intro p b e hmem
  rcases List.mem_append.mp hmem with h | h
  · exact hn p b e h
  · exact hn2 p b e h

theorem QuietStep.skipStep {s t : EncState} (h : QuietStep s t) : SkipStep s t := by
  obtain ⟨l, hl, hs, hn⟩ := h
  exact ⟨l, hl, fun _ => hs, fun h => absurd (fun p b e hm => absurd hm (hn p b e)) h⟩

theorem quiet_log_call (s : EncState) (c : Call) (hc : ∀ p b e, c ≠ Call.block_end p b e) :
    QuietStep s (log_call s c) :=
  ⟨[c], rfl, rfl, fun p b e hm => hc p b e (List.mem_singleton.mp hm).symm⟩

theorem quiet_set_plane (s : EncState) (plane : Nat) (p : PlaneBuf) :
    QuietStep s (set_plane s plane p) :=
  ⟨[], by simp [set_plane], rfl, fun p b e hm => by simp at hm⟩

theorem quiet_xform_quant (env : PipeEnv) (a : BlockArgs) (idx : AV1_XFORM_QUANT)
    (s : EncState) : QuietStep s (av1_xform_quant env a idx s) := by
  unfold av1_xform_quant
  dsimp only
  split
  · split
    · exact ((quiet_set_plane _ _ _).quiet_trans
        (quiet_log_call _ _ (by intro p b e h; cases h))).quiet_trans
        ((quiet_set_plane _ _ _).quiet_trans (quiet_log_call _ _ (by intro p b e h; cases h)))
    · exact ((quiet_set_plane _ _ _).quiet_trans
        (quiet_log_call _ _ (by intro p b e h; cases h))).quiet_trans
        ((quiet_set_plane _ _ _).quiet_trans (quiet_log_call _ _ (by intro p b e h; cases h)))
  · exact (quiet_set_plane _ _ _).quiet_trans (quiet_log_call _ _ (by intro p b e h; cases h))

theorem quiet_subtract_plane (env : PipeEnv) (bsize plane : Nat) (s : EncState) :
    QuietStep s (av1_subtract_plane env bsize plane s) := by
  unfold av1_subtract_plane
  dsimp only
  exact (quiet_set_plane _ _ _).quiet_trans (quiet_log_call _ _ (by intro p b e h; cases h))

theorem quiet_optimize_b_call (env : PipeEnv) (a : BlockArgs) (ctx : Nat) (s t : EncState)
    (v : Int) (h : optimize_b_call env a ctx s = some (t, v)) : QuietStep s t := by
  unfold optimize_b_call at h
  dsimp only at h
  split at h
  · cases h
  · simp only [Option.some.injEq, Prod.mk.injEq] at h
    rw [← h.1]
    exact (quiet_set_plane _ _ _).quiet_trans (quiet_log_call _ _ (by intro p b e h; cases h))

theorem quiet_optimize_if_coded (env : PipeEnv) (a : BlockArgs) (ctx : Nat) (s t : EncState)
    (f : Nat) (h : optimize_if_coded env a ctx s = some (t, f)) : QuietStep s t := by
  unfold optimize_if_coded at h
  split at h
  · split at h
    · cases h
    · rename_i r hr
      simp only [Option.some.injEq, Prod.mk.injEq] at h
      rw [← h.1]
      exact quiet_optimize_b_call env a ctx s r.1 r.2 hr
  · simp only [Option.some.injEq, Prod.mk.injEq] at h
    rw [← h.1]
    exact QuietStep.quiet_refl s

theorem quiet_store_ctx (env : PipeEnv) (a : BlockArgs) (flag : Nat) (s : EncState) :
    QuietStep s (store_ctx env a flag s) := by
  unfold store_ctx
  dsimp only
  split <;> exact ⟨[], by simp, rfl, fun p b e hm => by simp at hm⟩

theorem inv_txfm_call_eobs (env : PipeEnv) (a : BlockArgs) (s : EncState) :
    ((inv_txfm_call env a s).plane a.plane).eobs = (s.plane a.plane).eobs := by
  simp [inv_txfm_call, log_call, set_plane]

/-- What `finish_block` does to the skip flag, the end-of-block and the log. -/
theorem finish_block_spec (env : PipeEnv) (a : BlockArgs) (s : EncState) :
    ((finish_block env a s).plane a.plane).eobs a.block = (s.plane a.plane).eobs a.block ∧
    (finish_block env a s).skip = (if (s.plane a.plane).eobs a.block ≠ 0 then 0 else s.skip) ∧
    ∃ l, (finish_block env a s).calls =
        s.calls ++ l ++ [Call.block_end a.plane a.block ((s.plane a.plane).eobs a.block)] ∧
      ∀ p b e, Call.block_end p b e ∉ l := by
  unfold finish_block
  dsimp only
  by_cases h0 : (s.plane a.plane).eobs a.block = 0
  · simp only [h0, ne_eq, not_true_eq_false, if_false, if_true]
    exact ⟨by simp [log_call, h0], rfl, [], by simp [log_call], fun p b e hm => by simp at hm⟩
  · simp only [h0, ne_eq, not_false_eq_true, if_true, if_false]
    refine ⟨?_, rfl, [Call.inv_txfm_add a.plane a.block ((s.plane a.plane).eobs a.block)], ?_, ?_⟩
    · simp [log_call, inv_txfm_call, set_plane]
    · simp [log_call, inv_txfm_call, set_plane]
    · intro p b e hm
      simp at hm


theorem quiet_quantize_block (env : PipeEnv) (a : BlockArgs) (s : EncState) :
    QuietStep s (quantize_block env a s) := by
  unfold quantize_block
  split
  · exact quiet_set_plane _ _ _
  · exact quiet_xform_quant _ _ _ _

theorem store_ctx_plane (env : PipeEnv) (a : BlockArgs) (flag : Nat) (s : EncState) :
    (store_ctx env a flag s).plane = s.plane := by
  unfold store_ctx
  dsimp only
  split <;> rfl

/-- What a completed `encode_block` does to the unit skip flag and the log. -/
theorem encode_block_spec (env : PipeEnv) (a : BlockArgs) (st t : EncState)
    (h : encode_block env a st = some t) :
    t.skip = (if (t.plane a.plane).eobs a.block ≠ 0 then 0 else st.skip) ∧
    ∃ l, t.calls =
        st.calls ++ l ++ [Call.block_end a.plane a.block ((t.plane a.plane).eobs a.block)] ∧
      ∀ p b e, Call.block_end p b e ∉ l := by
  unfold encode_block at h
  split at h
  · cases h
  · split at h
    · cases h
    · rename_i r hr
      simp only [Option.some.injEq] at h
      subst h
      have hq : QuietStep st (store_ctx env a r.2 r.1) :=
        ((quiet_quantize_block env a st).quiet_trans
          (quiet_optimize_if_coded env a _ _ r.1 r.2 hr)).quiet_trans (quiet_store_ctx env a r.2 r.1)
      obtain ⟨l, hl, hs, hn⟩ := hq
      obtain ⟨he, hsk, m, hm, hmn⟩ := finish_block_spec env a (store_ctx env a r.2 r.1)
      rw [he, hsk, hs]
      refine ⟨rfl, l ++ m, ?_, ?_⟩
      · rw [hm, hl]; simp
      · intro p b e hmem
        rcases List.mem_append.mp hmem with h1 | h1
        · exact hn p b e h1
        · exact hmn p b e h1

theorem skipStep_of_block_end (s t : EncState) (l : List Call) (p b e : Nat)
    (hc : t.calls = s.calls ++ l ++ [Call.block_end p b e])
    (hl : ∀ p b e, Call.block_end p b e ∉ l)
    (hs : t.skip = if e ≠ 0 then 0 else s.skip) : SkipStep s t := by
  refine ⟨l ++ [Call.block_end p b e], by rw [hc, List.append_assoc], ?_, ?_⟩
  · intro hz
    have : e = 0 := hz p b e (by simp)
    rw [hs, this]; simp
  · intro hz
    have : e ≠ 0 := by
      intro h0
      apply hz
      intro p1 b1 e1 hm
      rcases List.mem_append.mp hm with h1 | h1
      · exact absurd h1 (hl p1 b1 e1)
      · have := List.mem_singleton.mp h1
        cases this
        exact h0
    rw [hs, if_pos this]

theorem skipStep_encode_block (env : PipeEnv) (a : BlockArgs) (st t : EncState)
    (h : encode_block env a st = some t) : SkipStep st t := by
  obtain ⟨hs, l, hl, hn⟩ := encode_block_spec env a st t h
  exact skipStep_of_block_end st t l _ _ _ hl hn hs

/-- With `eob` iterations allowed, `av1_optimize_b` returns. -/
theorem av1_optimize_b_total (env : TrellisEnv) (b : OptBlock) (g : Scratch) :
    ∃ r, av1_optimize_b env b g b.eob = some r := by
  obtain ⟨w, hw, _, _⟩ := optimize_b_inv env b g b.eob (le_refl _) (fun _ => True) trivial
    (fun _ _ _ _ => trivial)
  exact ⟨_, optimize_b_of_write_back env b g b.eob w hw⟩

theorem optimize_if_coded_total (env : PipeEnv) (a : BlockArgs) (ctx : Nat) (s : EncState) :
    ∃ r, optimize_if_coded env a ctx s = some r := by
  unfold optimize_if_coded
  split
  · obtain ⟨r, hr⟩ := av1_optimize_b_total (env.trellis_env a.plane a.tx_size)
      (opt_block env a ctx s) (env.stack a.plane a.block)
    have : ∃ q, optimize_b_call env a ctx s = some q := by
      unfold optimize_b_call
      dsimp only
      rw [hr]
      exact ⟨_, rfl⟩
    obtain ⟨q, hq⟩ := this
    rw [hq]
    exact ⟨_, rfl⟩
  · exact ⟨_, rfl⟩

theorem encode_block_total (env : PipeEnv) (a : BlockArgs) (st : EncState)
    (h : ¬ (env.CONFIG_VAR_TX = true ∧ blk_skip_at env a = 234)) :
    ∃ t, encode_block env a st = some t := by
  unfold encode_block
  rw [if_neg h]
  obtain ⟨r, hr⟩ := optimize_if_coded_total env a (block_ctx env a st) (quantize_block env a st)
  rw [hr]
  exact ⟨_, rfl⟩


/-- A fold of completed steps, each satisfying `SkipStep` on the state component, satisfies
`SkipStep`. -/
theorem foldlM_skipStep {σ α : Type} (π : σ → EncState) (f : σ → α → Option σ)
    (hf : ∀ s x t, f s x = some t → SkipStep (π s) (π t)) :
    ∀ (l : List α) (s t : σ), l.foldlM f s = some t → SkipStep (π s) (π t) := by
  intro l
  induction l with
  | nil =>
    intro s t h
    simp only [List.foldlM_nil, Option.pure_def, Option.some.injEq] at h
    rw [h]
    exact SkipStep.step_refl _
  | cons x xs ih =>
    intro s t h
    rw [List.foldlM_cons] at h
    cases hx : f s x with
    | none => rw [hx] at h; cases h
    | some u =>
      rw [hx] at h
      exact (hf s x u hx).step_trans (ih u t h)

theorem skipStep_encode_block_inter (env : PipeEnv) (plane plane_bsize : Nat) :
    ∀ (tx_size block r c : Nat) (st t : EncState),
      encode_block_inter env plane plane_bsize tx_size block r c st = some t →
      SkipStep st t := by
  intro tx_size
  induction tx_size with
  | zero =>
    intro block r c st t h
    rw [encode_block_inter] at h
    split at h
    · simp only [Option.some.injEq] at h
      rw [h]; exact SkipStep.step_refl _
    · split at h
      · exact skipStep_encode_block env _ st t h
      · dsimp only at h
        split at h
        · cases h
        · cases h
  | succ n ih =>
    intro block r c st t h
    rw [encode_block_inter] at h
    split at h
    · simp only [Option.some.injEq] at h
      rw [h]; exact SkipStep.step_refl _
    · split at h
      · exact skipStep_encode_block env _ st t h
      · dsimp only at h
        split at h
        · cases h
        · refine foldlM_skipStep id _ ?_ _ st t h
          intro s i u hu
          split at hu
          · simp only [Option.some.injEq] at hu
            rw [hu]; exact SkipStep.step_refl _
          · exact ih _ _ _ s u hu

theorem skipStep_encode_sb_plane (env : PipeEnv) (bsize : Nat) (st t : EncState) (plane : Nat)
    (h : encode_sb_plane env bsize st plane = some t) : SkipStep st t := by
  unfold encode_sb_plane at h
  dsimp only at h
  have h0 : ∀ (ctxs : (Nat → Nat) × (Nat → Nat)),
      SkipStep st (av1_subtract_plane env bsize plane
        { st with ta := Function.update st.ta plane ctxs.1
                  tl := Function.update st.tl plane ctxs.2 }) := by
    intro ctxs
    exact SkipStep.step_trans (QuietStep.skipStep ⟨[], by simp, rfl, fun p b e hm => by simp at hm⟩)
      (quiet_subtract_plane env bsize plane _).skipStep
  split at h
  · split at h
    · cases h
    · rename_i ps hps
      simp only [Option.map_eq_some', Prod.exists, exists_and_right, exists_eq_right] at h
      obtain ⟨n, hn⟩ := h
      have hfold := foldlM_skipStep Prod.fst _ (by
        intro s x u hu
        split at hu
        · cases hu
        · rename_i v hv
          simp only [Option.some.injEq] at hu
          rw [← hu]
          exact skipStep_encode_block_inter env plane _ _ _ _ _ s.1 v hv) ps _ (t, n) hn
      exact (h0 _).step_trans hfold
  · have hfold := foldlM_skipStep id _
      (fun s x u hu => skipStep_encode_block env x s u hu) _ _ t h
    exact (h0 _).step_trans hfold


/-- What a completed `av1_encode_block_intra` does to the unit skip flag and the log. -/
theorem encode_block_intra_spec (env : PipeEnv) (en : Bool) (a : BlockArgs) (st t : EncState)
    (h : av1_encode_block_intra env en a st = some t) :
    t.skip = (if (t.plane a.plane).eobs a.block ≠ 0 then 0 else st.skip) ∧
    ∃ l, t.calls =
        st.calls ++ l ++ [Call.block_end a.plane a.block ((t.plane a.plane).eobs a.block)] ∧
      ∀ p b e, Call.block_end p b e ∉ l := by
  unfold av1_encode_block_intra at h
  split at h
  · cases h
  · dsimp only at h
    split at h
    · cases h
    · rename_i r hr
      simp only [Option.some.injEq] at h
      subst h
      have hq0 : QuietStep st (intra_predict_subtract env a st) := by
        unfold intra_predict_subtract
        dsimp only
        exact ((quiet_set_plane _ _ _).quiet_trans
          (quiet_log_call _ _ (by intro p b e h; cases h))).quiet_trans
          (quiet_log_call _ _ (by intro p b e h; cases h))
      have hq1 : QuietStep (intra_predict_subtract env a st) r.1 := by
        unfold intra_quantize at hr
        split at hr
        · exact (quiet_xform_quant _ _ _ _).quiet_trans
            (quiet_optimize_if_coded env a _ _ r.1 r.2 hr)
        · simp only [Option.some.injEq] at hr
          rw [← hr]
          exact quiet_xform_quant _ _ _ _
      obtain ⟨l, hl, hs, hn⟩ := hq0.quiet_trans hq1
      unfold intra_finish
      dsimp only
      by_cases h0 : (r.1.plane a.plane).eobs a.block = 0
      · simp only [h0, ne_eq, not_true_eq_false, if_false]
        refine ⟨by simp [log_call, h0, hs], l, by simp [log_call, h0, hl], hn⟩
      · simp only [h0, ne_eq, not_false_eq_true, if_true]
        refine ⟨by simp [log_call, inv_txfm_call, set_plane, h0],
          l ++ [Call.inv_txfm_add a.plane a.block ((r.1.plane a.plane).eobs a.block)], ?_, ?_⟩
        · simp [log_call, inv_txfm_call, set_plane, hl]
        · intro p b e hmem
          rcases List.mem_append.mp hmem with h1 | h1
          · exact hn p b e h1
          · simp at h1

theorem encode_block_intra_total (env : PipeEnv) (en : Bool) (a : BlockArgs) (st : EncState)
    (h : env.num_4x4_blocks_wide_txsize_lookup a.tx_size * 4 =
      env.num_4x4_blocks_high_txsize_lookup a.tx_size * 4) :
    ∃ t, av1_encode_block_intra env en a st = some t := by
  unfold av1_encode_block_intra
  rw [if_neg (not_not.mpr h)]
  dsimp only
  have : ∃ r, intra_quantize env en a
      (env.combine_entropy_contexts (st.ta a.plane a.blk_col) (st.tl a.plane a.blk_row))
      (intra_predict_subtract env a st) = some r := by
    unfold intra_quantize
    split
    · exact optimize_if_coded_total _ _ _ _
    · exact ⟨_, rfl⟩
  obtain ⟨r, hr⟩ := this
  rw [hr]
  exact ⟨_, rfl⟩

theorem skipStep_encode_sb (env : PipeEnv) (bsize : Nat) (st t : EncState)
    (hx : env.x_skip = 0) (h : av1_encode_sb env bsize st = some t) :
    SkipStep { st with skip := 1 } t := by
  unfold av1_encode_sb at h
  dsimp only at h
  rw [if_neg (not_not.mpr hx)] at h
  exact foldlM_skipStep id _ (fun s x u hu => skipStep_encode_sb_plane env bsize s u x hu) _ _ t h


/-- C6, as stated, fails: on `sample_state`, whose block 0 holds stale coefficients, the
skip policy leaves `eob = 1`, quantized coefficient 3 and dequantized coefficient 30. -/
theorem C6_counterexample :
    ((av1_xform_quant sample_pipe sample_args AV1_XFORM_QUANT.SKIP_QUANT sample_state).plane
        0).eobs 0 = 1 ∧
    ((av1_xform_quant sample_pipe sample_args AV1_XFORM_QUANT.SKIP_QUANT sample_state).plane
        0).qcoeff 0 = 3 ∧
    ((av1_xform_quant sample_pipe sample_args AV1_XFORM_QUANT.SKIP_QUANT sample_state).plane
        0).dqcoeff 0 = 30 := by
  decide

/-- C6, amended. With the skip policy `av1_xform_quant` runs the forward transform and no
quantizer: the quantized buffer, the dequantized buffer and the end-of-block entries of
the plane are left as they were.  End-of-block 0 and all-zero quantized and dequantized
coefficients of the block are what the call yields under any other policy when
`x->skip_block` is set. -/
theorem C6_skip_policy (env : PipeEnv) (a : BlockArgs) (st : EncState) :
    ((av1_xform_quant env a AV1_XFORM_QUANT.SKIP_QUANT st).plane a.plane).qcoeff =
        (st.plane a.plane).qcoeff ∧
    ((av1_xform_quant env a AV1_XFORM_QUANT.SKIP_QUANT st).plane a.plane).dqcoeff =
        (st.plane a.plane).dqcoeff ∧
    ((av1_xform_quant env a AV1_XFORM_QUANT.SKIP_QUANT st).plane a.plane).eobs =
        (st.plane a.plane).eobs ∧
    (av1_xform_quant env a AV1_XFORM_QUANT.SKIP_QUANT st).calls =
        st.calls ++ [Call.fwd_txfm a.plane a.block FWD_TXFM_OPT.NORMAL] ∧
    (∀ idx, idx ≠ AV1_XFORM_QUANT.SKIP_QUANT → env.skip_block ≠ 0 →
      ((av1_xform_quant env a idx st).plane a.plane).eobs a.block = 0 ∧
      ∀ k, 16 * a.block ≤ k → k < 16 * a.block + env.get_tx2d_size a.tx_size →
        ((av1_xform_quant env a idx st).plane a.plane).qcoeff k = 0 ∧
        ((av1_xform_quant env a idx st).plane a.plane).dqcoeff k = 0) := by
  refine ⟨?_, ?_, ?_, ?_, ?_⟩
  · simp [av1_xform_quant, set_plane, log_call]
  · simp [av1_xform_quant, set_plane, log_call]
  · simp [av1_xform_quant, set_plane, log_call]
  · simp [av1_xform_quant, set_plane, log_call, fwd_txfm_opt_list]
  · intro idx hidx hsk
    unfold av1_xform_quant
    dsimp only
    rw [if_pos hidx, if_neg hsk]
    refine ⟨by simp [set_plane, log_call, av1_quantize_skip], ?_⟩
    intro k h1 h2
    simp [set_plane, log_call, av1_quantize_skip, h1, h2]

/-- Witness of the amended C6: the skip policy on `sample_state`, and the FP policy with
`x->skip_block` set. -/
theorem C6_skip_policy_witness :
    ((av1_xform_quant sample_pipe sample_args AV1_XFORM_QUANT.SKIP_QUANT sample_state).plane
        sample_args.plane).eobs = (sample_state.plane sample_args.plane).eobs ∧
    (((av1_xform_quant { sample_pipe with skip_block := 1 } sample_args AV1_XFORM_QUANT.FP
        sample_state).plane sample_args.plane).eobs sample_args.block = 0 ∧
      ∀ k, 16 * sample_args.block ≤ k →
        k < 16 * sample_args.block +
          ({ sample_pipe with skip_block := 1 } : PipeEnv).get_tx2d_size sample_args.tx_size →
        ((av1_xform_quant { sample_pipe with skip_block := 1 } sample_args AV1_XFORM_QUANT.FP
          sample_state).plane sample_args.plane).qcoeff k = 0 ∧
        ((av1_xform_quant { sample_pipe with skip_block := 1 } sample_args AV1_XFORM_QUANT.FP
          sample_state).plane sample_args.plane).dqcoeff k = 0) :=
  ⟨(C6_skip_policy sample_pipe sample_args sample_state).2.2.1,
    (C6_skip_policy { sample_pipe with skip_block := 1 } sample_args sample_state).2.2.2.2
      AV1_XFORM_QUANT.FP (by decide) (by decide)⟩

/-- C10. Unit skip flag: a call of `encode_block` or of `av1_encode_block_intra` whose
assertion holds returns, leaves the flag at its old value when the block's final
end-of-block is 0 and stores 0 otherwise (it never stores 1), and logs that final
end-of-block; after a completed `av1_encode_sb` with `x->skip = 0` the flag is 1 exactly
when every block that was processed ended with end-of-block 0. -/
theorem C10_unit_skip_flag (env : PipeEnv) (en : Bool) (bsize : Nat) (a : BlockArgs)
    (st : EncState) :
    (¬ (env.CONFIG_VAR_TX = true ∧ blk_skip_at env a = 234) →
      ∃ t, encode_block env a st = some t ∧
        t.skip = (if (t.plane a.plane).eobs a.block ≠ 0 then 0 else st.skip) ∧
        ∃ l, t.calls = st.calls ++ l ++
            [Call.block_end a.plane a.block ((t.plane a.plane).eobs a.block)] ∧
          ∀ p b e, Call.block_end p b e ∉ l) ∧
    (env.num_4x4_blocks_wide_txsize_lookup a.tx_size * 4 =
        env.num_4x4_blocks_high_txsize_lookup a.tx_size * 4 →
      ∃ t, av1_encode_block_intra env en a st = some t ∧
        t.skip = (if (t.plane a.plane).eobs a.block ≠ 0 then 0 else st.skip) ∧
        ∃ l, t.calls = st.calls ++ l ++
            [Call.block_end a.plane a.block ((t.plane a.plane).eobs a.block)] ∧
          ∀ p b e, Call.block_end p b e ∉ l) ∧
    (∀ t, env.x_skip = 0 → av1_encode_sb env bsize st = some t →
      ∃ l, t.calls = st.calls ++ l ∧
        (t.skip = 1 ↔ ∀ p b e, Call.block_end p b e ∈ l → e = 0)) := by
  refine ⟨?_, ?_, ?_⟩
  · intro h
    obtain ⟨t, ht⟩ := encode_block_total env a st h
    exact ⟨t, ht, encode_block_spec env a st t ht⟩
  · intro h
    obtain ⟨t, ht⟩ := encode_block_intra_total env en a st h
    exact ⟨t, ht, encode_block_intra_spec env en a st t ht⟩
  · intro t hx h
    obtain ⟨l, hl, hz, hn⟩ := skipStep_encode_sb env bsize st t hx h
    refine ⟨l, hl, ?_⟩
    constructor
    · intro h1
      by_contra hc
      have := hn hc
      omega
    · intro h1
      exact hz h1

/-- Witness of C10 on the sample pipeline: `encode_block` and `av1_encode_block_intra` on
the first block, and `av1_encode_sb` over the three planes (the flag ends at 0, as blocks
with coefficients were coded). -/
theorem C10_unit_skip_flag_witness :
    (∃ t, encode_block sample_pipe sample_args sample_state = some t ∧
        t.skip = (if (t.plane sample_args.plane).eobs sample_args.block ≠ 0 then 0
          else sample_state.skip) ∧
        ∃ l, t.calls = sample_state.calls ++ l ++
            [Call.block_end sample_args.plane sample_args.block
              ((t.plane sample_args.plane).eobs sample_args.block)] ∧
          ∀ p b e, Call.block_end p b e ∉ l) ∧
    (∃ t, av1_encode_block_intra sample_pipe true sample_args sample_state = some t ∧
        t.skip = (if (t.plane sample_args.plane).eobs sample_args.block ≠ 0 then 0
          else sample_state.skip) ∧
        ∃ l, t.calls = sample_state.calls ++ l ++
            [Call.block_end sample_args.plane sample_args.block
              ((t.plane sample_args.plane).eobs sample_args.block)] ∧
          ∀ p b e, Call.block_end p b e ∉ l) ∧
    (∃ l, ((av1_encode_sb sample_pipe 0 sample_state).get (by decide!)).calls =
        sample_state.calls ++ l ∧
      (((av1_encode_sb sample_pipe 0 sample_state).get (by decide!)).skip = 1 ↔
        ∀ p b e, Call.block_end p b e ∈ l → e = 0)) :=
  ⟨(C10_unit_skip_flag sample_pipe true 0 sample_args sample_state).1 (by decide),
    (C10_unit_skip_flag sample_pipe true 0 sample_args sample_state).2.1 (by decide),
    (C10_unit_skip_flag sample_pipe true 0 sample_args sample_state).2.2 _ (by decide)
      (Option.some_get _).symm⟩


/-! ## Skipped units, edge clipping and the round-down candidate -/

/-- C11. Already-skipped unit: when `x->skip` is nonzero, `av1_encode_sb` returns with
`mbmi->skip = 1` and nothing else changed: no collaborator is called, and every plane
buffer, end-of-block entry and entropy context is as before. -/
theorem C11_already_skipped (env : PipeEnv) (bsize : Nat) (st : EncState)
    (h : env.x_skip ≠ 0) :
    ∃ t, av1_encode_sb env bsize st = some t ∧ t.skip = 1 ∧ t.plane = st.plane ∧
      t.ta = st.ta ∧ t.tl = st.tl ∧ t.calls = st.calls := by
  refine ⟨{ st with skip := 1 }, ?_, rfl, rfl, rfl, rfl, rfl⟩
  unfold av1_encode_sb
  dsimp only
  rw [if_pos h]

/-- Witness of C11 on the sample pipeline with `x->skip = 1`. -/
theorem C11_already_skipped_witness :
    ∃ t, av1_encode_sb { sample_pipe with x_skip := 1 } 0 sample_state = some t ∧
      t.skip = 1 ∧ t.plane = sample_state.plane ∧ t.ta = sample_state.ta ∧
      t.tl = sample_state.tl ∧ t.calls = sample_state.calls :=
  C11_already_skipped { sample_pipe with x_skip := 1 } 0 sample_state (by decide)

/-- C14. Scenario D, edge clipping: a call of `encode_block_inter` whose `blk_row` or
`blk_col` is not below the number of 4x4 rows or columns of the plane block, reduced by
the negative `mb_to_bottom_edge` or `mb_to_right_edge` shifted right by
`5 + subsampling`, returns at once: no collaborator is called and the state (skip flag,
end-of-block entries, entropy contexts, plane buffers) is the one it was given. -/
theorem C14_edge_clipping (env : PipeEnv) (plane plane_bsize tx_size block blk_row blk_col : Nat)
    (st : EncState)
    (h : (blk_row : Int) ≥
        (if env.mb_to_bottom_edge < 0 then
          (env.num_4x4_blocks_high_lookup plane_bsize : Int) +
            env.mb_to_bottom_edge / 2 ^ (5 + env.subsampling_y plane)
        else (env.num_4x4_blocks_high_lookup plane_bsize : Int)) ∨
      (blk_col : Int) ≥
        (if env.mb_to_right_edge < 0 then
          (env.num_4x4_blocks_wide_lookup plane_bsize : Int) +
            env.mb_to_right_edge / 2 ^ (5 + env.subsampling_x plane)
        else (env.num_4x4_blocks_wide_lookup plane_bsize : Int))) :
    encode_block_inter env plane plane_bsize tx_size block blk_row blk_col st = some st := by
  have ho : outside_frame env plane plane_bsize blk_row blk_col = true := by
    unfold outside_frame
    dsimp only
    exact decide_eq_true h
  rw [encode_block_inter, if_pos ho]

/-- Witness of C14: with the right frame edge one 4x4 column inside the plane block, the
call at column 1 is clipped. -/
theorem C14_edge_clipping_witness :
    encode_block_inter { sample_pipe with CONFIG_VAR_TX := true, mb_to_right_edge := -32 }
      0 0 0 1 0 1 sample_state = some sample_state :=
  C14_edge_clipping { sample_pipe with CONFIG_VAR_TX := true, mb_to_right_edge := -32 }
    0 0 0 1 0 1 sample_state (by decide)

/-- C18, as stated, fails: on a state with residual 57 at index 0, the call with the skip
policy logs a forward transform and overwrites entry 0 of the coefficient buffer, 0 before
the call, with 57. -/
theorem C18_counterexample :
    (av1_xform_quant sample_pipe sample_args AV1_XFORM_QUANT.SKIP_QUANT
        sample_state_residual).calls = [Call.fwd_txfm 0 0 FWD_TXFM_OPT.NORMAL] ∧
    (sample_state_residual.plane 0).coeff 0 = 0 ∧
    ((av1_xform_quant sample_pipe sample_args AV1_XFORM_QUANT.SKIP_QUANT
        sample_state_residual).plane 0).coeff 0 = 57 := by
  decide

/-- C18, amended. With the skip policy `av1_xform_quant` does invoke the forward
transform, with option `FWD_TXFM_OPT_NORMAL`, and stores its output in the coefficient
buffer of the plane; the forward transform is the only collaborator it calls: what it
bypasses is the quantizer. -/
theorem C18_skip_policy_transforms (env : PipeEnv) (a : BlockArgs) (st : EncState) :
    ((av1_xform_quant env a AV1_XFORM_QUANT.SKIP_QUANT st).plane a.plane).coeff =
        env.fwd_txfm a FWD_TXFM_OPT.NORMAL (st.plane a.plane).src_diff
          (st.plane a.plane).coeff ∧
    (av1_xform_quant env a AV1_XFORM_QUANT.SKIP_QUANT st).calls =
        st.calls ++ [Call.fwd_txfm a.plane a.block FWD_TXFM_OPT.NORMAL] := by
  refine ⟨?_, ?_⟩
  · simp [av1_xform_quant, set_plane, log_call, fwd_txfm_opt_list]
  · simp [av1_xform_quant, set_plane, log_call, fwd_txfm_opt_list]

theorem shortcut_cond_iff (b : OptBlock) (rc : Nat) (x : Int) :
    shortcut_cond b rc x = true ↔
      ((x.natAbs : Int) ≤ 3 ∧
        (x.natAbs : Int) * b.dequant_ptr (dq_index rc) >
          ((b.coeff rc).natAbs : Int) * 2 ^ b.shift ∧
        (x.natAbs : Int) * b.dequant_ptr (dq_index rc) <
          ((b.coeff rc).natAbs : Int) * 2 ^ b.shift + b.dequant_ptr (dq_index rc)) := by
  unfold shortcut_cond
  by_cases h3 : (x.natAbs : Int) > 3
  · rw [if_pos h3]
    constructor
    · intro h; exact absurd h (by decide)
    · intro h; omega
  · rw [if_neg h3, decide_eq_true_iff]
    constructor
    · intro h; exact ⟨by omega, h⟩
    · intro h; exact h.2

/-- C19. Round-down only under the pruning heuristic: wherever the call changes the
quantized coefficient `x` of a scan position below `eob`, `|x| <= 3` and
`|coeff| * 2^shift < |x| * dq < |coeff| * 2^shift + dq` hold for `dq = dequant[rc != 0]`,
and the new value is `x - sgn(x)`. -/
theorem C19_round_down_pruned (env : TrellisEnv) (b : OptBlock) (g : Scratch) (fuel : Nat)
    (hf : b.eob ≤ fuel) :
    ∃ r, av1_optimize_b env b g fuel = some r ∧ ∀ i, i < b.eob →
      r.qcoeff (b.scan i) ≠ b.qcoeff (b.scan i) →
      (((b.qcoeff (b.scan i)).natAbs : Int) ≤ 3 ∧
        ((b.qcoeff (b.scan i)).natAbs : Int) * b.dequant_ptr (dq_index (b.scan i)) >
          ((b.coeff (b.scan i)).natAbs : Int) * 2 ^ b.shift ∧
        ((b.qcoeff (b.scan i)).natAbs : Int) * b.dequant_ptr (dq_index (b.scan i)) <
          ((b.coeff (b.scan i)).natAbs : Int) * 2 ^ b.shift +
            b.dequant_ptr (dq_index (b.scan i))) ∧
      r.qcoeff (b.scan i) = b.qcoeff (b.scan i) - Int.sign (b.qcoeff (b.scan i)) := by
  have hs := loopInv_final env b g
  obtain ⟨w, hw, hP, _⟩ := optimize_b_inv env b g fuel hf
    (fun w => ∀ rc, w.qcoeff rc = b.qcoeff rc ∨
      (b.qcoeff rc ≠ 0 ∧ shortcut_cond b rc (b.qcoeff rc) = true ∧
        w.qcoeff rc = round_down (b.qcoeff rc)))
    (fun rc => Or.inl rfl)
    (by
      intro w hlt hn hP rc
      show (write_back_step b _ w).qcoeff rc = _ ∨ _
      unfold write_back_step
      dsimp only
      by_cases hrc : rc = b.scan w.i
      · subst hrc
        rw [Function.update_same]
        have ok := hs.nodes w.i (Nat.zero_le _) hlt hn
        cases hb : w.best
        · left; exact ok.qc_keep
        · rw [ok.qc_down]
          by_cases hc : shortcut_cond b (b.scan w.i) (b.qcoeff (b.scan w.i)) = true
          · right; rw [if_pos hc]; exact ⟨hn, hc, rfl⟩
          · left; rw [if_neg hc]
      · rw [Function.update_noteq hrc]; exact hP rc)
  refine ⟨_, optimize_b_of_write_back env b g fuel w hw, ?_⟩
  intro i _ hne
  dsimp only at hne ⊢
  rcases hP (b.scan i) with h1 | ⟨hx, hc, h1⟩
  · exact absurd h1 hne
  · exact ⟨(shortcut_cond_iff b _ _).mp hc, by rw [h1]; exact round_down_eq _ hx⟩

/-- Witness of C19 on the two-coefficient sample block, whose DC coefficient is rounded
down. -/
theorem C19_round_down_pruned_witness :
    ∃ r, av1_optimize_b sample_env sample_block sample_scratch 2 = some r ∧
      ∀ i, i < sample_block.eob →
      r.qcoeff (sample_block.scan i) ≠ sample_block.qcoeff (sample_block.scan i) →
      (((sample_block.qcoeff (sample_block.scan i)).natAbs : Int) ≤ 3 ∧
        ((sample_block.qcoeff (sample_block.scan i)).natAbs : Int) *
            sample_block.dequant_ptr (dq_index (sample_block.scan i)) >
          ((sample_block.coeff (sample_block.scan i)).natAbs : Int) * 2 ^ sample_block.shift ∧
        ((sample_block.qcoeff (sample_block.scan i)).natAbs : Int) *
            sample_block.dequant_ptr (dq_index (sample_block.scan i)) <
          ((sample_block.coeff (sample_block.scan i)).natAbs : Int) * 2 ^ sample_block.shift +
            sample_block.dequant_ptr (dq_index (sample_block.scan i))) ∧
      r.qcoeff (sample_block.scan i) =
        sample_block.qcoeff (sample_block.scan i) -
          Int.sign (sample_block.qcoeff (sample_block.scan i)) :=
  C19_round_down_pruned sample_env sample_block sample_scratch 2 (by decide)

theorem ldiff_one_left (n : Nat) : Nat.ldiff 1 n = (n + 1) % 2 := by
  unfold Nat.ldiff
  rw [Nat.bitwise]
  simp
  split_ifs <;> omega

/-- The test `1 & x` reads the parity of `x`. -/
theorem land_one_left (x : Int) : Int.land 1 x = x % 2 := by
  cases x with
  | ofNat n =>
    show Int.land (Int.ofNat 1) (Int.ofNat n) = _
    simp only [Int.land]
    rw [Nat.one_and_eq_mod_two]
    simp
  | negSucc n =>
    show Int.land (Int.ofNat 1) (Int.negSucc n) = _
    simp only [Int.land]
    rw [ldiff_one_left, Int.negSucc_eq]
    omega

/-- The mask `d & 0x01` reads the parity of `d`. -/
theorem land_one_right (d : Int) : Int.land d 1 = d % 2 := by
  cases d with
  | ofNat n =>
    show Int.land (Int.ofNat n) (Int.ofNat 1) = _
    simp only [Int.land]
    rw [Nat.and_one_is_mod]
    simp
  | negSucc n =>
    show Int.land (Int.negSucc n) (Int.ofNat 1) = _
    simp only [Int.land]
    rw [ldiff_one_left, Int.negSucc_eq]
    omega

theorem round_down_natAbs (x : Int) (hx : x ≠ 0) :
    ((round_down x).natAbs : Int) + 1 = (x.natAbs : Int) := by
  unfold round_down sign_mask
  split <;> omega

/-- The dequantized value given to the round-down hypothesis, for `shift` 0 or 1 and an
input dequantized uniformly: the uniform dequantization of the reduced value. -/
theorem down_dqc_uniform (b : OptBlock) (rc : Nat) (hsh : b.shift = 0 ∨ b.shift = 1)
    (hx : b.qcoeff rc ≠ 0)
    (hin : b.dqcoeff rc = Int.sign (b.qcoeff rc) *
      (((b.qcoeff rc).natAbs : Int) * b.dequant_ptr (dq_index rc) / 2 ^ b.shift)) :
    down_dqc b rc = Int.sign (round_down (b.qcoeff rc)) *
      (((round_down (b.qcoeff rc)).natAbs : Int) * b.dequant_ptr (dq_index rc) / 2 ^ b.shift) := by
  have habs := round_down_natAbs _ hx
  have hmul : ((b.qcoeff rc).natAbs : Int) * b.dequant_ptr (dq_index rc) =
      ((round_down (b.qcoeff rc)).natAbs : Int) * b.dequant_ptr (dq_index rc) +
        b.dequant_ptr (dq_index rc) := by
    rw [← habs]; ring
  have hpar : (((round_down (b.qcoeff rc)).natAbs : Int) * b.dequant_ptr (dq_index rc)) % 2 =
      ((((round_down (b.qcoeff rc)).natAbs : Int) % 2) * (b.dequant_ptr (dq_index rc) % 2)) % 2 :=
    Int.mul_emod _ _ _
  have hrd : round_down (b.qcoeff rc) = b.qcoeff rc - (2 * sign_mask (b.qcoeff rc) + 1) := rfl
  rw [hmul] at hin
  unfold down_dqc
  dsimp only
  generalize hA : ((round_down (b.qcoeff rc)).natAbs : Int) * b.dequant_ptr (dq_index rc) = A
    at hin hpar ⊢
  generalize b.dequant_ptr (dq_index rc) = d at hin hpar ⊢
  generalize hy : round_down (b.qcoeff rc) = y at habs hpar hrd ⊢
  generalize b.qcoeff rc = x at hx hin habs hrd ⊢
  generalize b.dqcoeff rc = dqin at hin ⊢
  have hsx : Int.sign x = if x < 0 then -1 else 1 := by
    rcases lt_trichotomy x 0 with h | h | h
    · rw [if_pos h, Int.sign_eq_neg_one_of_neg h]
    · exact absurd h hx
    · rw [if_neg (by omega), Int.sign_eq_one_of_pos h]
  have hsy : Int.sign y = if y < 0 then -1 else if y = 0 then 0 else 1 := by
    rcases lt_trichotomy y 0 with h | h | h
    · rw [if_pos h, Int.sign_eq_neg_one_of_neg h]
    · rw [if_neg (by omega), if_pos h, h]; rfl
    · rw [if_neg (by omega), if_neg (by omega), Int.sign_eq_one_of_pos h]
  rw [hsx] at hin
  rw [hsy]
  unfold sign_mask at hrd ⊢
  rcases hsh with h0 | h1
  · rw [h0] at hin ⊢
    simp only [Nat.cast_zero, land_zero_left, ne_eq, not_true_eq_false, if_false, pow_zero,
      Int.ediv_one] at hin ⊢
    split_ifs at hin hrd ⊢ <;> first | omega | (exfalso; assumption)
  · rw [h1] at hin ⊢
    simp only [Nat.cast_one, land_one_left, land_one_right, pow_one] at hin ⊢
    have hym : (y.natAbs : Int) % 2 = y % 2 := by omega
    rw [hym] at hpar
    have hp0 : y % 2 = 0 → A % 2 = 0 := by
      intro h; rw [hpar, h]; simp
    have hp1 : y % 2 = 1 → A % 2 = d % 2 := by
      intro h; rw [hpar, h, one_mul]; omega
    clear hpar
    have hcase : y % 2 = 0 ∨ y % 2 = 1 := by omega
    rcases hcase with hc | hc
    · have := hp0 hc
      split_ifs at hin hrd ⊢ <;> first | omega | (exfalso; assumption)
    · have := hp1 hc
      split_ifs at hin hrd ⊢ <;> first | omega | (exfalso; assumption)

/-- The dequantized value of the second hypothesis of a node whose round-down candidate is
evaluated is the one computed at lines 323-337. -/
theorem down_dqc_final (env : TrellisEnv) (b : OptBlock) (g : Scratch) (j : Nat)
    (hj : j < b.eob) (hn : is_node b j)
    (hc : shortcut_cond b (b.scan j) (b.qcoeff (b.scan j)) = true) :
    ((trellis_final env b g).tokens j true).dqc = down_dqc b (b.scan j) := by
  have key : ∀ (n : Nat) (s : Trellis), n ≤ b.eob →
      (∀ k, n ≤ k → k < b.eob → is_node b k →
        shortcut_cond b (b.scan k) (b.qcoeff (b.scan k)) = true →
        (s.tokens k true).dqc = down_dqc b (b.scan k)) →
      ∀ k, k < b.eob → is_node b k →
        shortcut_cond b (b.scan k) (b.qcoeff (b.scan k)) = true →
        ((trellis_loop env b n s).tokens k true).dqc = down_dqc b (b.scan k) := by
    intro n
    induction n with
    | zero => intro s _ h k hk hkn hkc; exact h k (Nat.zero_le _) hk hkn hkc
    | succ n ih =>
      intro s hle h k hk hkn hkc
      refine ih (trellis_step env b n s) (by omega) ?_ k hk hkn hkc
      intro m hm1 hm2 hmn hmc
      by_cases hnode : is_node b n
      · rw [trellis_step_node_tokens env b n s hnode]
        by_cases hmn2 : m = n
        · subst hmn2
          rw [if_pos rfl, if_pos ⟨rfl, hmc⟩]
          rfl
        · rw [if_neg hmn2]
          exact h m (by omega) hm2 hmn hmc
      · rw [trellis_step_zero env b n s hnode, band_advance_tokens,
          (zero_update_fields env n s m true).2.2.1]
        have : m ≠ n := fun e => hnode (e ▸ hmn)
        exact h m (by omega) hm2 hmn hmc
  unfold trellis_final
  exact key b.eob _ (le_refl _) (fun k h1 h2 => by omega) j hj hn hc

/-- C20. Dequantized value after round-down: for `shift` 0 or 1, when the input
dequantized coefficient is `sgn(x) * ((|x| * dq) >> shift)`, the round-down hypothesis of
a nonzero `x` carries `x' = x - sgn(x)` and the dequantized value
`sgn(x') * ((|x'| * dq) >> shift)`, which is 0 when `x' = 0`, for every `dq`, odd or even:
both as computed at any loop state and as left in the trellis of a position whose
round-down candidate is evaluated. -/
theorem C20_round_down_dequant (env : TrellisEnv) (b : OptBlock) (g : Scratch) (i : Nat)
    (s : Trellis) (hi : i < b.eob) (hsh : b.shift = 0 ∨ b.shift = 1) (hx : is_node b i)
    (hin : b.dqcoeff (b.scan i) = Int.sign (b.qcoeff (b.scan i)) *
      (((b.qcoeff (b.scan i)).natAbs : Int) * b.dequant_ptr (dq_index (b.scan i)) /
        2 ^ b.shift)) :
    (down_candidate env b i s).1.qc = b.qcoeff (b.scan i) - Int.sign (b.qcoeff (b.scan i)) ∧
    (down_candidate env b i s).1.dqc =
      Int.sign (b.qcoeff (b.scan i) - Int.sign (b.qcoeff (b.scan i))) *
        (((b.qcoeff (b.scan i) - Int.sign (b.qcoeff (b.scan i))).natAbs : Int) *
          b.dequant_ptr (dq_index (b.scan i)) / 2 ^ b.shift) ∧
    (b.qcoeff (b.scan i) - Int.sign (b.qcoeff (b.scan i)) = 0 →
      (down_candidate env b i s).1.dqc = 0) ∧
    (shortcut_cond b (b.scan i) (b.qcoeff (b.scan i)) = true →
      ((trellis_final env b g).tokens i true).dqc =
        Int.sign (b.qcoeff (b.scan i) - Int.sign (b.qcoeff (b.scan i))) *
          (((b.qcoeff (b.scan i) - Int.sign (b.qcoeff (b.scan i))).natAbs : Int) *
            b.dequant_ptr (dq_index (b.scan i)) / 2 ^ b.shift)) := by
  have hrd := round_down_eq _ hx
  have hu := down_dqc_uniform b (b.scan i) hsh hx hin
  rw [hrd] at hu
  have hq : (down_candidate env b i s).1.qc = round_down (b.qcoeff (b.scan i)) := rfl
  have hd : (down_candidate env b i s).1.dqc = down_dqc b (b.scan i) := rfl
  refine ⟨by rw [hq, hrd], by rw [hd, hu], ?_, ?_⟩
  · intro h0
    rw [hd, hu, h0]
    simp
  · intro hc
    rw [down_dqc_final env b g i hi hx hc, hu]

/-- Witness of C20 with `shift = 1` and the odd step 3: `x = 2` dequantized to 3 is
reduced to `x' = 1` with dequantized value `(1 * 3) >> 1 = 1`. -/
theorem C20_round_down_dequant_witness :
    (down_candidate sample_env sample_block_half 0 sample_tie_state).1.qc = 1 ∧
    (down_candidate sample_env sample_block_half 0 sample_tie_state).1.dqc = 1 ∧
    ((trellis_final sample_env sample_block_half sample_scratch).tokens 0 true).dqc = 1 :=
  ⟨(C20_round_down_dequant sample_env sample_block_half sample_scratch 0 sample_tie_state
      (by decide) (by decide) (by decide) (by decide)).1,
    (C20_round_down_dequant sample_env sample_block_half sample_scratch 0 sample_tie_state
      (by decide) (by decide) (by decide) (by decide)).2.1,
    (C20_round_down_dequant sample_env sample_block_half sample_scratch 0 sample_tie_state
      (by decide) (by decide) (by decide) (by decide)).2.2.2 (by decide)⟩

/-! ## The residual of a plane -/

/-- One row of `aom_subtract_block`: the entries from `off` on receive the values `v`,
the others are kept. -/
theorem subtract_row_spec (off : Nat) (v : Nat → Int) :
    ∀ (m : Nat) (d : Nat → Int) (k : Nat),
      ((List.range m).foldl (fun d c => Function.update d (off + c) (v c)) d) k =
        if off ≤ k ∧ k < off + m then v (k - off) else d k := by
  intro m
  induction m with
  | zero =>
    intro d k
    rw [if_neg (by omega)]
    rfl
  | succ m ih =>
    intro d k
    rw [List.range_succ, List.foldl_append]
    simp only [List.foldl_cons, List.foldl_nil]
    by_cases hk : k = off + m
    · subst hk
      rw [Function.update_same, if_pos (by omega)]
      congr 1
      omega
    · rw [Function.update_noteq hk, ih]
      by_cases h1 : off ≤ k ∧ k < off + m
      · rw [if_pos h1, if_pos (by omega)]
      · rw [if_neg h1, if_neg (by omega)]

/-- The residual written by `aom_subtract_block` when the rows of the residual buffer do
not overlap (`cols <= diff_stride`). -/
theorem aom_subtract_block_spec (rows cols : Nat) (diff : Nat → Int) (diff_off diff_stride : Nat)
    (src : Nat → Int) (src_off src_stride : Nat) (pred : Nat → Int)
    (pred_off pred_stride : Nat) (hs : cols ≤ diff_stride) :
    ∀ r c, r < rows → c < cols →
      aom_subtract_block rows cols diff diff_off diff_stride src src_off src_stride pred
          pred_off pred_stride (diff_off + r * diff_stride + c) =
        src (src_off + r * src_stride + c) - pred (pred_off + r * pred_stride + c) := by
  unfold aom_subtract_block
  induction rows with
  | zero => intro r c hr; omega
  | succ n ih =>
    intro r c hr hc
    rw [List.range_succ, List.foldl_append]
    simp only [List.foldl_cons, List.foldl_nil]
    have hrow := subtract_row_spec (diff_off + n * diff_stride)
      (fun c => src (src_off + n * src_stride + c) - pred (pred_off + n * pred_stride + c)) cols
    simp only [← Nat.add_assoc] at hrow
    rw [hrow]
    by_cases hrn : r = n
    · subst hrn
      rw [if_pos (by omega)]
      have : diff_off + r * diff_stride + c - (diff_off + r * diff_stride) = c := by omega
      rw [this]
    · have hlt : r < n := by omega
      have hmul : (r + 1) * diff_stride ≤ n * diff_stride := Nat.mul_le_mul_right _ hlt
      have hexp : (r + 1) * diff_stride = r * diff_stride + diff_stride := by ring
      rw [if_neg (by omega)]
      exact ih r c hlt hc

/-- C17. Residual: after `av1_subtract_plane(x, bsize, plane)`, with `bw` and `bh` four
times the number of 4x4 blocks wide and high of the plane block size, every
`src_diff[r * bw + c]` with `r < bh` and `c < bw` is
`src[r * src_stride + c] - dst[r * dst_stride + c]`, and the source and prediction buffers
are as before. -/
theorem C17_residual (env : PipeEnv) (bsize plane : Nat) (st : EncState) :
    (∀ r c, r < 4 * env.num_4x4_blocks_high_lookup (env.get_plane_block_size bsize plane) →
      c < 4 * env.num_4x4_blocks_wide_lookup (env.get_plane_block_size bsize plane) →
      ((av1_subtract_plane env bsize plane st).plane plane).src_diff
          (r * (4 * env.num_4x4_blocks_wide_lookup (env.get_plane_block_size bsize plane)) + c) =
        (st.plane plane).src (r * env.src_stride plane + c) -
          (st.plane plane).dst (r * env.dst_stride plane + c)) ∧
    ((av1_subtract_plane env bsize plane st).plane plane).src = (st.plane plane).src ∧
    ((av1_subtract_plane env bsize plane st).plane plane).dst = (st.plane plane).dst := by
  refine ⟨?_, ?_, ?_⟩
  · intro r c hr hc
    have h := aom_subtract_block_spec
      (4 * env.num_4x4_blocks_high_lookup (env.get_plane_block_size bsize plane))
      (4 * env.num_4x4_blocks_wide_lookup (env.get_plane_block_size bsize plane))
      (st.plane plane).src_diff 0
      (4 * env.num_4x4_blocks_wide_lookup (env.get_plane_block_size bsize plane))
      (st.plane plane).src 0 (env.src_stride plane) (st.plane plane).dst 0
      (env.dst_stride plane) (le_refl _) r c hr hc
    simp only [Nat.zero_add] at h
    simp only [av1_subtract_plane, log_call, set_plane, Function.update_same]
    exact h
  · simp [av1_subtract_plane, log_call, set_plane]
  · simp [av1_subtract_plane, log_call, set_plane]

/-- Witness of C17 on the sample pipeline: the residual at row 0, column 0 of plane 0. -/
theorem C17_residual_witness :
    ((av1_subtract_plane sample_pipe 0 0 sample_state).plane 0).src_diff
        (0 * (4 * sample_pipe.num_4x4_blocks_wide_lookup
          (sample_pipe.get_plane_block_size 0 0)) + 0) =
      (sample_state.plane 0).src (0 * sample_pipe.src_stride 0 + 0) -
        (sample_state.plane 0).dst (0 * sample_pipe.dst_stride 0 + 0) :=
  (C17_residual sample_pipe 0 0 sample_state).1 0 0 (by decide) (by decide)

/-! ## The stages of the block encoders -/

/-- The value returned by a completed `av1_optimize_b` lies between 0 and the input
`eob`, and the value stored in `eobs[block]` is its `uint16_t` truncation. -/
theorem av1_optimize_b_bounds (env : TrellisEnv) (b : OptBlock) (g : Scratch) (r : OptResult)
    (h : av1_optimize_b env b g b.eob = some r) :
    0 ≤ r.final_eob ∧ r.final_eob ≤ (b.eob : Int) ∧ r.eobs_block = r.final_eob % 65536 := by
  obtain ⟨w, hw, ⟨h1, h2⟩, _⟩ := optimize_b_inv env b g b.eob (le_refl _)
    (fun w => -1 ≤ w.final_eob ∧ w.final_eob < (b.eob : Int))
    ⟨le_refl _, by show (-1 : Int) < (b.eob : Int); omega⟩
    (by
      intro w hlt _ hP
      show -1 ≤ (write_back_step b _ w).final_eob ∧ (write_back_step b _ w).final_eob < _
      unfold write_back_step
      dsimp only
      split
      · constructor <;> omega
      · exact hP)
  rw [optimize_b_of_write_back env b g b.eob w hw] at h
  simp only [Option.some.injEq] at h
  subst h
  dsimp only
  refine ⟨by omega, by omega, rfl⟩

/-- The array left by the broadcast loop of lines 829-834. -/
theorem broadcast_ctx_spec (t : Nat → Nat) (off : Nat) :
    ∀ (n j : Nat), broadcast_ctx t off n j = if off ≤ j ∧ j < off + n then t off else t j := by
  intro n
  induction n with
  | zero =>
    intro j
    rw [if_neg (by omega)]
    rfl
  | succ n ih =>
    intro j
    unfold broadcast_ctx at ih ⊢
    rw [List.range_succ, List.foldl_append]
    simp only [List.foldl_cons, List.foldl_nil]
    have hoff : (List.foldl (fun t i => Function.update t (off + i) (t off)) t (List.range n)) off
        = t off := by
      rw [ih off]; split <;> rfl
    have hj := ih j
    generalize List.foldl (fun t i => Function.update t (off + i) (t off)) t (List.range n) = u
      at hoff hj ⊢
    by_cases hjn : j = off + n
    · subst hjn
      simp only [Function.update_same, hoff]
      rw [if_pos (by omega)]
    · simp only [Function.update_noteq hjn, hj]
      by_cases h1 : off ≤ j ∧ j < off + n
      · rw [if_pos h1, if_pos (by omega)]
      · rw [if_neg h1, if_neg (by omega)]

/-- What the optimizer stage does to the pipeline state. -/
theorem optimize_if_coded_effect (env : PipeEnv) (a : BlockArgs) (ctx : Nat) (s t : EncState)
    (f : Nat) (h : optimize_if_coded env a ctx s = some (t, f))
    (h16 : (s.plane a.plane).eobs a.block < 65536) :
    t.calls = s.calls ++
        (if (s.plane a.plane).eobs a.block ≠ 0 then [Call.optimize_b a.plane a.block] else []) ∧
    t.skip = s.skip ∧ t.ta = s.ta ∧ t.tl = s.tl ∧
    (t.plane a.plane).dst = (s.plane a.plane).dst ∧
    (∀ p, p ≠ a.plane → t.plane p = s.plane p) ∧
    f = (if (t.plane a.plane).eobs a.block ≠ 0 then 1 else 0) ∧
    (t.plane a.plane).eobs a.block ≤ (s.plane a.plane).eobs a.block := by
  unfold optimize_if_coded at h
  by_cases h0 : (s.plane a.plane).eobs a.block ≠ 0
  · rw [if_pos h0] at h
    unfold optimize_b_call at h
    dsimp only at h
    cases hr : av1_optimize_b (env.trellis_env a.plane a.tx_size) (opt_block env a ctx s)
        (env.stack a.plane a.block) (opt_block env a ctx s).eob with
    | none => rw [hr] at h; cases h
    | some r =>
      rw [hr] at h
      simp only [Option.some.injEq, Prod.mk.injEq] at h
      obtain ⟨ht, hf⟩ := h
      obtain ⟨hb0, hb1, hb2⟩ := av1_optimize_b_bounds _ _ _ r hr
      have heob : (opt_block env a ctx s).eob = (s.plane a.plane).eobs a.block := rfl
      rw [heob] at hb1
      have hstore : r.eobs_block.toNat = r.final_eob.toNat := by
        rw [hb2]; congr 1; omega
      subst ht
      refine ⟨by simp [log_call, set_plane, h0], rfl, rfl, rfl, ?_, ?_, ?_, ?_⟩
      · simp [log_call, set_plane]
      · intro p hp
        simp [log_call, set_plane, Function.update_noteq hp]
      · simp only [log_call, set_plane, Function.update_same, hstore]
        rw [← hf]
        by_cases hpos : r.final_eob > 0
        · rw [if_pos hpos, if_pos (by omega)]
        · rw [if_neg hpos, if_neg (by omega)]
      · simp only [log_call, set_plane, Function.update_same, hstore]
        omega
  · rw [if_neg h0] at h
    simp only [Option.some.injEq, Prod.mk.injEq] at h
    obtain ⟨ht, hf⟩ := h
    subst ht
    have h00 : (s.plane a.plane).eobs a.block = 0 := not_not.mp h0
    refine ⟨by simp [h00], rfl, rfl, rfl, rfl, fun _ _ => rfl, ?_, le_refl _⟩
    rw [← hf, h00]; simp


/-- The entropy context arrays after the flag of the block has been stored. -/
theorem store_ctx_effect (env : PipeEnv) (a : BlockArgs) (f : Nat) (s : EncState) :
    (store_ctx env a f s).plane = s.plane ∧ (store_ctx env a f s).skip = s.skip ∧
    (store_ctx env a f s).calls = s.calls ∧
    (∀ p k, (store_ctx env a f s).ta p k =
      if p = a.plane ∧ (k = a.blk_col ∨ (env.CONFIG_VAR_TX = true ∧ a.blk_col ≤ k ∧
          k < a.blk_col + env.num_4x4_blocks_wide_txsize_lookup a.tx_size)) then f
      else s.ta p k) ∧
    (∀ p k, (store_ctx env a f s).tl p k =
      if p = a.plane ∧ (k = a.blk_row ∨ (env.CONFIG_VAR_TX = true ∧ a.blk_row ≤ k ∧
          k < a.blk_row + env.num_4x4_blocks_high_txsize_lookup a.tx_size)) then f
      else s.tl p k) := by
  have key : ∀ (t0 : Nat → Nat) (c n k : Nat),
      broadcast_ctx (Function.update t0 c f) c n k =
        if k = c ∨ (c ≤ k ∧ k < c + n) then f else t0 k := by
    intro t0 c n k
    rw [broadcast_ctx_spec]
    by_cases h1 : c ≤ k ∧ k < c + n
    · rw [if_pos h1, if_pos (Or.inr h1), Function.update_same]
    · rw [if_neg h1]
      by_cases h2 : k = c
      · rw [h2, Function.update_same, if_pos (Or.inl rfl)]
      · rw [Function.update_noteq h2, if_neg (by tauto)]
  unfold store_ctx
  dsimp only
  by_cases hv : env.CONFIG_VAR_TX = true
  · rw [if_pos hv]
    refine ⟨rfl, rfl, rfl, ?_, ?_⟩
    · intro p k
      dsimp only
      by_cases hp : p = a.plane
      · subst hp
        rw [Function.update_same, key]
        simp [hv]
      · rw [Function.update_noteq hp, if_neg (by tauto)]
    · intro p k
      dsimp only
      by_cases hp : p = a.plane
      · subst hp
        rw [Function.update_same, key]
        simp [hv]
      · rw [Function.update_noteq hp, if_neg (by tauto)]
  · rw [if_neg hv]
    refine ⟨rfl, rfl, rfl, ?_, ?_⟩
    · intro p k
      dsimp only
      by_cases hp : p = a.plane
      · subst hp
        rw [Function.update_same]
        by_cases hk : k = a.blk_col
        · rw [hk, Function.update_same, if_pos ⟨rfl, Or.inl rfl⟩]
        · rw [Function.update_noteq hk, if_neg (by tauto)]
      · rw [Function.update_noteq hp, if_neg (by tauto)]
    · intro p k
      dsimp only
      by_cases hp : p = a.plane
      · subst hp
        rw [Function.update_same]
        by_cases hk : k = a.blk_row
        · rw [hk, Function.update_same, if_pos ⟨rfl, Or.inl rfl⟩]
        · rw [Function.update_noteq hk, if_neg (by tauto)]
      · rw [Function.update_noteq hp, if_neg (by tauto)]

/-- What the last stage of `encode_block` does to the pipeline state. -/
theorem finish_block_effect (env : PipeEnv) (a : BlockArgs) (s : EncState) :
    (finish_block env a s).ta = s.ta ∧ (finish_block env a s).tl = s.tl ∧
    (finish_block env a s).calls = s.calls ++
      (if (s.plane a.plane).eobs a.block ≠ 0 then
        [Call.inv_txfm_add a.plane a.block ((s.plane a.plane).eobs a.block)] else []) ++
      [Call.block_end a.plane a.block ((s.plane a.plane).eobs a.block)] ∧
    ((finish_block env a s).plane a.plane).eobs = (s.plane a.plane).eobs ∧
    ((finish_block env a s).plane a.plane).dst =
      (if (s.plane a.plane).eobs a.block ≠ 0 then
        env.inv_txfm_add a ((s.plane a.plane).eobs a.block) (s.plane a.plane).dqcoeff
          (s.plane a.plane).dst
      else (s.plane a.plane).dst) ∧
    (finish_block env a s).skip =
      (if (s.plane a.plane).eobs a.block ≠ 0 then 0 else s.skip) := by
  unfold finish_block
  dsimp only
  by_cases h0 : (s.plane a.plane).eobs a.block = 0
  · simp [h0, log_call]
  · simp [h0, log_call, inv_txfm_call, set_plane]

/-- What the transform and quantize stage of `encode_block` leaves alone, and what it
logs. -/
theorem quantize_block_effect (env : PipeEnv) (a : BlockArgs) (s : EncState) :
    (quantize_block env a s).ta = s.ta ∧ (quantize_block env a s).tl = s.tl ∧
    (quantize_block env a s).skip = s.skip ∧
    ((quantize_block env a s).plane a.plane).dst = (s.plane a.plane).dst ∧
    (quantize_block env a s).calls = s.calls ++
      (if env.CONFIG_VAR_TX = true ∧ blk_skip_at env a ≠ 0 then []
      else
        [Call.fwd_txfm a.plane a.block FWD_TXFM_OPT.NORMAL] ++
          (if env.skip_block = 0 then [Call.quantize a.plane a.block AV1_XFORM_QUANT.FP]
          else [Call.quantize_skip a.plane a.block])) := by
  unfold quantize_block
  by_cases hv : env.CONFIG_VAR_TX = true ∧ blk_skip_at env a ≠ 0
  · rw [if_pos hv, if_pos hv]
    simp [set_plane]
  · rw [if_neg hv, if_neg hv]
    unfold av1_xform_quant
    dsimp only
    rw [if_pos (by decide)]
    by_cases hs : env.skip_block = 0
    · rw [if_pos hs, if_pos hs]
      simp [log_call, set_plane, fwd_txfm_opt_list]
    · rw [if_neg hs, if_neg hs]
      simp [log_call, set_plane, fwd_txfm_opt_list, av1_quantize_skip]


/-- What `av1_xform_quant` leaves alone, and what it logs. -/
theorem xform_quant_effect (env : PipeEnv) (a : BlockArgs) (idx : AV1_XFORM_QUANT)
    (s : EncState) :
    (av1_xform_quant env a idx s).ta = s.ta ∧ (av1_xform_quant env a idx s).tl = s.tl ∧
    (av1_xform_quant env a idx s).skip = s.skip ∧
    ((av1_xform_quant env a idx s).plane a.plane).dst = (s.plane a.plane).dst ∧
    (av1_xform_quant env a idx s).calls = s.calls ++
      ([Call.fwd_txfm a.plane a.block (fwd_txfm_opt_list idx)] ++
        (if idx ≠ AV1_XFORM_QUANT.SKIP_QUANT then
          (if env.skip_block = 0 then [Call.quantize a.plane a.block idx]
          else [Call.quantize_skip a.plane a.block])
        else [])) := by
  unfold av1_xform_quant
  dsimp only
  by_cases hi : idx ≠ AV1_XFORM_QUANT.SKIP_QUANT
  · rw [if_pos hi, if_pos hi]
    by_cases hs : env.skip_block = 0
    · rw [if_pos hs, if_pos hs]
      simp [log_call, set_plane]
    · rw [if_neg hs, if_neg hs]
      simp [log_call, set_plane, av1_quantize_skip]
  · rw [if_neg hi, if_neg hi]
    simp [log_call, set_plane]

/-- The end-of-block that `av1_xform_quant` stores when it quantizes. -/
theorem xform_quant_eob (env : PipeEnv) (a : BlockArgs) (idx : AV1_XFORM_QUANT)
    (s : EncState) (hi : idx ≠ AV1_XFORM_QUANT.SKIP_QUANT) :
    ((av1_xform_quant env a idx s).plane a.plane).eobs a.block =
      if env.skip_block = 0 then
        (env.quantize idx a
          (env.fwd_txfm a (fwd_txfm_opt_list idx) (s.plane a.plane).src_diff
            (s.plane a.plane).coeff)
          (s.plane a.plane).qcoeff (s.plane a.plane).dqcoeff).2.2
      else 0 := by
  unfold av1_xform_quant
  dsimp only
  rw [if_pos hi]
  by_cases hs : env.skip_block = 0
  · rw [if_pos hs, if_pos hs]
    simp [log_call, set_plane]
  · rw [if_neg hs, if_neg hs]
    simp [log_call, set_plane, av1_quantize_skip]

/-- The end-of-block that the transform and quantize stage of `encode_block` stores. -/
theorem quantize_block_eob (env : PipeEnv) (a : BlockArgs) (s : EncState) :
    ((quantize_block env a s).plane a.plane).eobs a.block =
      if env.CONFIG_VAR_TX = true ∧ blk_skip_at env a ≠ 0 then 0
      else if env.skip_block = 0 then
        (env.quantize AV1_XFORM_QUANT.FP a
          (env.fwd_txfm a FWD_TXFM_OPT.NORMAL (s.plane a.plane).src_diff
            (s.plane a.plane).coeff)
          (s.plane a.plane).qcoeff (s.plane a.plane).dqcoeff).2.2
      else 0 := by
  unfold quantize_block
  by_cases hv : env.CONFIG_VAR_TX = true ∧ blk_skip_at env a ≠ 0
  · rw [if_pos hv, if_pos hv]
    simp [set_plane]
  · rw [if_neg hv, if_neg hv]
    exact xform_quant_eob env a AV1_XFORM_QUANT.FP s (by decide)

/-- What the prediction and subtraction stage of `av1_encode_block_intra` does. -/
theorem intra_predict_subtract_effect (env : PipeEnv) (a : BlockArgs) (s : EncState) :
    (intra_predict_subtract env a s).ta = s.ta ∧ (intra_predict_subtract env a s).tl = s.tl ∧
    (intra_predict_subtract env a s).skip = s.skip ∧
    ((intra_predict_subtract env a s).plane a.plane).dst =
      env.av1_predict_intra_block a (s.plane a.plane).dst ∧
    (intra_predict_subtract env a s).calls = s.calls ++
      [Call.predict_intra a.plane a.block, Call.subtract_block a.plane] := by
  unfold intra_predict_subtract
  simp [log_call, set_plane]

/-- What the last stage of `av1_encode_block_intra` does to the pipeline state. -/
theorem intra_finish_effect (env : PipeEnv) (a : BlockArgs) (s : EncState) :
    (intra_finish env a s).ta = s.ta ∧ (intra_finish env a s).tl = s.tl ∧
    (intra_finish env a s).calls = s.calls ++
      (if (s.plane a.plane).eobs a.block ≠ 0 then
        [Call.inv_txfm_add a.plane a.block ((s.plane a.plane).eobs a.block)] else []) ++
      [Call.block_end a.plane a.block ((s.plane a.plane).eobs a.block)] ∧
    ((intra_finish env a s).plane a.plane).eobs = (s.plane a.plane).eobs ∧
    ((intra_finish env a s).plane a.plane).dst =
      (if (s.plane a.plane).eobs a.block ≠ 0 then
        env.inv_txfm_add a ((s.plane a.plane).eobs a.block) (s.plane a.plane).dqcoeff
          (s.plane a.plane).dst
      else (s.plane a.plane).dst) ∧
    (intra_finish env a s).skip =
      (if (s.plane a.plane).eobs a.block ≠ 0 then 0 else s.skip) := by
  unfold intra_finish
  dsimp only
  by_cases h0 : (s.plane a.plane).eobs a.block = 0
  · simp [h0, log_call]
  · simp [h0, log_call, inv_txfm_call, set_plane]

/-- The log left by the optimizer stage, whatever the end-of-block it is given. -/
theorem optimize_if_coded_calls (env : PipeEnv) (a : BlockArgs) (ctx : Nat) (s t : EncState)
    (f : Nat) (h : optimize_if_coded env a ctx s = some (t, f)) :
    t.calls = s.calls ++
      (if (s.plane a.plane).eobs a.block ≠ 0 then [Call.optimize_b a.plane a.block] else []) := by
  unfold optimize_if_coded at h
  by_cases h0 : (s.plane a.plane).eobs a.block ≠ 0
  · rw [if_pos h0] at h
    unfold optimize_b_call at h
    dsimp only at h
    cases hr : av1_optimize_b (env.trellis_env a.plane a.tx_size) (opt_block env a ctx s)
        (env.stack a.plane a.block) (opt_block env a ctx s).eob with
    | none => rw [hr] at h; cases h
    | some r =>
      rw [hr] at h
      simp only [Option.some.injEq, Prod.mk.injEq] at h
      rw [← h.1]
      simp [log_call, set_plane, h0]
  · rw [if_neg h0] at h
    simp only [Option.some.injEq, Prod.mk.injEq] at h
    rw [← h.1, if_neg h0, List.append_nil]

/-- A call of `encode_block` whose assertion holds runs its three stages. -/
theorem encode_block_stages (env : PipeEnv) (a : BlockArgs) (st : EncState)
    (hb : ¬ (env.CONFIG_VAR_TX = true ∧ blk_skip_at env a = 234)) :
    ∃ r, optimize_if_coded env a (block_ctx env a st) (quantize_block env a st) = some r ∧
      encode_block env a st = some (finish_block env a (store_ctx env a r.2 r.1)) := by
  obtain ⟨r, hr⟩ := optimize_if_coded_total env a (block_ctx env a st) (quantize_block env a st)
  refine ⟨r, hr, ?_⟩
  unfold encode_block
  rw [if_neg hb, hr]

/-- A call of `av1_encode_block_intra` whose assertion holds runs its stages. -/
theorem encode_block_intra_stages (env : PipeEnv) (en : Bool) (a : BlockArgs) (st : EncState)
    (hsq : env.num_4x4_blocks_wide_txsize_lookup a.tx_size * 4 =
      env.num_4x4_blocks_high_txsize_lookup a.tx_size * 4) :
    ∃ r, intra_quantize env en a
        (env.combine_entropy_contexts (st.ta a.plane a.blk_col) (st.tl a.plane a.blk_row))
        (intra_predict_subtract env a st) = some r ∧
      av1_encode_block_intra env en a st =
        some
          (intra_finish env a
            { r.1 with
              ta := Function.update r.1.ta a.plane
                (Function.update (r.1.ta a.plane) a.blk_col r.2)
              tl := Function.update r.1.tl a.plane
                (Function.update (r.1.tl a.plane) a.blk_row r.2) }) := by
  have : ∃ r, intra_quantize env en a
      (env.combine_entropy_contexts (st.ta a.plane a.blk_col) (st.tl a.plane a.blk_row))
      (intra_predict_subtract env a st) = some r := by
    unfold intra_quantize
    split
    · exact optimize_if_coded_total _ _ _ _
    · exact ⟨_, rfl⟩
  obtain ⟨r, hr⟩ := this
  refine ⟨r, hr, ?_⟩
  unfold av1_encode_block_intra
  rw [if_neg (not_not.mpr hsq)]
  dsimp only
  rw [hr]

/-! ## Reconstruction, context propagation and optimizer gating -/

/-- C16. Optimizer gating and policy selection: a call of `av1_encode_block_intra` whose
assertion holds returns after logging the prediction, the subtraction, the forward
transform, the quantizer of the FP policy when `enable_optimize_b` is set and of the B
policy otherwise (`av1_quantize_skip` when `x->skip_block` is set), `av1_optimize_b`
exactly when `enable_optimize_b` is set and the end-of-block stored by the quantization
is nonzero, and the reconstruction; a call of `encode_block` whose assertion holds
returns after logging `av1_optimize_b` exactly when the end-of-block left by the
quantization with the FP policy, or by the forced per-block skip (which leaves 0), is
nonzero. -/
theorem C16_optimizer_gating (env : PipeEnv) (en : Bool) (a : BlockArgs) (st : EncState)
    (hsq : env.num_4x4_blocks_wide_txsize_lookup a.tx_size * 4 =
      env.num_4x4_blocks_high_txsize_lookup a.tx_size * 4)
    (hb : ¬ (env.CONFIG_VAR_TX = true ∧ blk_skip_at env a = 234)) :
    (∃ t l, av1_encode_block_intra env en a st = some t ∧
      t.calls = st.calls ++ l ∧
      l = [Call.predict_intra a.plane a.block, Call.subtract_block a.plane,
            Call.fwd_txfm a.plane a.block FWD_TXFM_OPT.NORMAL] ++
          (if env.skip_block = 0 then
            [Call.quantize a.plane a.block
              (if en = true then AV1_XFORM_QUANT.FP else AV1_XFORM_QUANT.B)]
          else [Call.quantize_skip a.plane a.block]) ++
          (if en = true ∧
              ((av1_xform_quant env a AV1_XFORM_QUANT.FP
                (intra_predict_subtract env a st)).plane a.plane).eobs a.block ≠ 0 then
            [Call.optimize_b a.plane a.block]
          else []) ++
          (if (t.plane a.plane).eobs a.block ≠ 0 then
            [Call.inv_txfm_add a.plane a.block ((t.plane a.plane).eobs a.block)]
          else []) ++
          [Call.block_end a.plane a.block ((t.plane a.plane).eobs a.block)] ∧
      (Call.optimize_b a.plane a.block ∈ l ↔
        en = true ∧
          ((av1_xform_quant env a AV1_XFORM_QUANT.FP
            (intra_predict_subtract env a st)).plane a.plane).eobs a.block ≠ 0)) ∧
    (∃ t l, encode_block env a st = some t ∧
      t.calls = st.calls ++ l ∧
      l = (if env.CONFIG_VAR_TX = true ∧ blk_skip_at env a ≠ 0 then []
          else
            [Call.fwd_txfm a.plane a.block FWD_TXFM_OPT.NORMAL] ++
              (if env.skip_block = 0 then [Call.quantize a.plane a.block AV1_XFORM_QUANT.FP]
              else [Call.quantize_skip a.plane a.block])) ++
          (if ((quantize_block env a st).plane a.plane).eobs a.block ≠ 0 then
            [Call.optimize_b a.plane a.block]
          else []) ++
          (if (t.plane a.plane).eobs a.block ≠ 0 then
            [Call.inv_txfm_add a.plane a.block ((t.plane a.plane).eobs a.block)]
          else []) ++
          [Call.block_end a.plane a.block ((t.plane a.plane).eobs a.block)] ∧
      (Call.optimize_b a.plane a.block ∈ l ↔
        ((quantize_block env a st).plane a.plane).eobs a.block ≠ 0) ∧
      (env.CONFIG_VAR_TX = true ∧ blk_skip_at env a ≠ 0 →
        ((quantize_block env a st).plane a.plane).eobs a.block = 0)) := by
  constructor
  · obtain ⟨⟨s1, f⟩, hr, ht⟩ := encode_block_intra_stages env en a st hsq
    obtain ⟨-, -, -, -, hc0⟩ := intra_predict_subtract_effect env a st
    refine ⟨_, _, ht, ?_, rfl, ?_⟩
    · obtain ⟨-, -, hc3, he3, -, -⟩ := intra_finish_effect env a
        { s1 with
          ta := Function.update s1.ta a.plane (Function.update (s1.ta a.plane) a.blk_col f)
          tl := Function.update s1.tl a.plane (Function.update (s1.tl a.plane) a.blk_row f) }
      dsimp only at hc3 he3 ⊢
      rw [he3, hc3]
      unfold intra_quantize at hr
      cases en with
      | true =>
        rw [if_pos rfl] at hr
        have hc2 := optimize_if_coded_calls env a _ _ s1 f hr
        obtain ⟨-, -, -, -, hc1⟩ := xform_quant_effect env a AV1_XFORM_QUANT.FP
          (intra_predict_subtract env a st)
        rw [hc2, hc1, hc0]
        by_cases hs : env.skip_block = 0 <;>
          by_cases h1 : ((av1_xform_quant env a AV1_XFORM_QUANT.FP
            (intra_predict_subtract env a st)).plane a.plane).eobs a.block = 0 <;>
          simp [hs, h1, fwd_txfm_opt_list]
      | false =>
        rw [if_neg (by decide)] at hr
        simp only [Option.some.injEq, Prod.mk.injEq] at hr
        obtain ⟨hs1, -⟩ := hr
        obtain ⟨-, -, -, -, hc1⟩ := xform_quant_effect env a AV1_XFORM_QUANT.B
          (intra_predict_subtract env a st)
        rw [← hs1, hc1, hc0]
        by_cases hs : env.skip_block = 0 <;> simp [hs, fwd_txfm_opt_list]
    · by_cases hs : env.skip_block = 0 <;>
        by_cases h1 : ((av1_xform_quant env a AV1_XFORM_QUANT.FP
          (intra_predict_subtract env a st)).plane a.plane).eobs a.block = 0 <;>
        cases en <;> simp [hs, h1]
  · obtain ⟨⟨s1, f⟩, hr, ht⟩ := encode_block_stages env a st hb
    refine ⟨_, _, ht, ?_, rfl, ?_, ?_⟩
    · obtain ⟨-, -, hc3, he3, -, -⟩ := finish_block_effect env a (store_ctx env a f s1)
      obtain ⟨hp2, -, hc2, -, -⟩ := store_ctx_effect env a f s1
      have hc1 := optimize_if_coded_calls env a _ _ s1 f hr
      obtain ⟨-, -, -, -, hc0⟩ := quantize_block_effect env a st
      dsimp only at hc3 he3 ⊢
      rw [he3, hc3, hp2, hc2, hc1, hc0]
      simp
    · by_cases hv : env.CONFIG_VAR_TX = true ∧ blk_skip_at env a ≠ 0 <;>
        by_cases hs : env.skip_block = 0 <;>
        by_cases h1 : ((quantize_block env a st).plane a.plane).eobs a.block = 0 <;>
        simp [hv, hs, h1]
    · intro hv
      rw [quantize_block_eob, if_pos hv]


/-- Witness of C16: the intra call with the optimizer enabled and the inter call on the
sample pipeline. -/
theorem C16_optimizer_gating_witness :
    (∃ t l, av1_encode_block_intra sample_pipe true sample_args sample_state = some t ∧
      t.calls = sample_state.calls ++ l ∧
      (Call.optimize_b sample_args.plane sample_args.block ∈ l ↔
        true = true ∧
          ((av1_xform_quant sample_pipe sample_args AV1_XFORM_QUANT.FP
            (intra_predict_subtract sample_pipe sample_args sample_state)).plane
              sample_args.plane).eobs sample_args.block ≠ 0)) ∧
    (∃ t l, encode_block sample_pipe sample_args sample_state = some t ∧
      t.calls = sample_state.calls ++ l ∧
      (Call.optimize_b sample_args.plane sample_args.block ∈ l ↔
        ((quantize_block sample_pipe sample_args sample_state).plane
          sample_args.plane).eobs sample_args.block ≠ 0)) := by
  obtain ⟨⟨t, l, h1, h2, -, h4⟩, ⟨u, m, k1, k2, -, k4, -⟩⟩ :=
    C16_optimizer_gating sample_pipe true sample_args sample_state (by decide) (by decide)
  exact ⟨⟨t, l, h1, h2, h4⟩, ⟨u, m, k1, k2, k4⟩⟩

/-- The end-of-block left by `av1_xform_quant` fits `uint16_t` when the one the quantizer
returns does. -/
theorem xform_quant_eob_lt (env : PipeEnv) (a : BlockArgs) (idx : AV1_XFORM_QUANT)
    (s : EncState) (hi : idx ≠ AV1_XFORM_QUANT.SKIP_QUANT)
    (hq : ∀ i c q d, (env.quantize i a c q d).2.2 < 65536) :
    ((av1_xform_quant env a idx s).plane a.plane).eobs a.block < 65536 := by
  rw [xform_quant_eob env a idx s hi]
  split
  · exact hq _ _ _ _
  · decide

/-- The end-of-block left by the transform and quantize stage of `encode_block` fits
`uint16_t` when the one the quantizer returns does. -/
theorem quantize_block_eob_lt (env : PipeEnv) (a : BlockArgs) (s : EncState)
    (hq : ∀ i c q d, (env.quantize i a c q d).2.2 < 65536) :
    ((quantize_block env a s).plane a.plane).eobs a.block < 65536 := by
  rw [quantize_block_eob]
  split
  · decide
  · split
    · exact hq _ _ _ _
    · decide

/-- C12. Reconstruction is triggered exactly when the final end-of-block is positive.
With a quantizer whose end-of-block fits `uint16_t`, a call of `encode_block` and a call
of `av1_encode_block_intra` whose assertion holds return; the end-of-block `E` of the
block at return is the one left by the optimizer stage; `inv_txfm_add` is logged, for
this block and with `E`, exactly when `0 < E`; the destination buffer is then the output
of `inv_txfm_add` on the dequantized coefficients left by the optimizer stage and the
prediction, and is the prediction itself otherwise; and when `E = 0` the above and left
entropy context entries of the block are 0 and the unit skip flag is as before. -/
theorem C12_reconstruction_trigger (env : PipeEnv) (en : Bool) (a : BlockArgs)
    (st : EncState)
    (hsq : env.num_4x4_blocks_wide_txsize_lookup a.tx_size * 4 =
      env.num_4x4_blocks_high_txsize_lookup a.tx_size * 4)
    (hb : ¬ (env.CONFIG_VAR_TX = true ∧ blk_skip_at env a = 234))
    (hq : ∀ i c q d, (env.quantize i a c q d).2.2 < 65536) :
    (∃ r t l, optimize_if_coded env a (block_ctx env a st) (quantize_block env a st) = some r ∧
      encode_block env a st = some t ∧
      (t.plane a.plane).eobs a.block = (r.1.plane a.plane).eobs a.block ∧
      t.calls = st.calls ++ l ∧
      (∀ p b e, Call.inv_txfm_add p b e ∈ l ↔
        0 < (t.plane a.plane).eobs a.block ∧ p = a.plane ∧ b = a.block ∧
          e = (t.plane a.plane).eobs a.block) ∧
      (t.plane a.plane).dst =
        (if 0 < (t.plane a.plane).eobs a.block then
          env.inv_txfm_add a ((t.plane a.plane).eobs a.block) (r.1.plane a.plane).dqcoeff
            (st.plane a.plane).dst
        else (st.plane a.plane).dst) ∧
      ((t.plane a.plane).eobs a.block = 0 →
        t.ta a.plane a.blk_col = 0 ∧ t.tl a.plane a.blk_row = 0 ∧ t.skip = st.skip)) ∧
    (∃ r t l, intra_quantize env en a
          (env.combine_entropy_contexts (st.ta a.plane a.blk_col) (st.tl a.plane a.blk_row))
          (intra_predict_subtract env a st) = some r ∧
      av1_encode_block_intra env en a st = some t ∧
      (t.plane a.plane).eobs a.block = (r.1.plane a.plane).eobs a.block ∧
      t.calls = st.calls ++ l ∧
      (∀ p b e, Call.inv_txfm_add p b e ∈ l ↔
        0 < (t.plane a.plane).eobs a.block ∧ p = a.plane ∧ b = a.block ∧
          e = (t.plane a.plane).eobs a.block) ∧
      (t.plane a.plane).dst =
        (if 0 < (t.plane a.plane).eobs a.block then
          env.inv_txfm_add a ((t.plane a.plane).eobs a.block) (r.1.plane a.plane).dqcoeff
            (env.av1_predict_intra_block a (st.plane a.plane).dst)
        else env.av1_predict_intra_block a (st.plane a.plane).dst) ∧
      ((t.plane a.plane).eobs a.block = 0 →
        t.ta a.plane a.blk_col = 0 ∧ t.tl a.plane a.blk_row = 0 ∧ t.skip = st.skip)) := by
  constructor
  · obtain ⟨⟨s1, f⟩, hr, ht⟩ := encode_block_stages env a st hb
    obtain ⟨ha0, hl0, hk0, hd0, hc0⟩ := quantize_block_effect env a st
    obtain ⟨hc1, hk1, ha1, hl1, hd1, -, hf, -⟩ :=
      optimize_if_coded_effect env a _ _ s1 f hr (quantize_block_eob_lt env a st hq)
    obtain ⟨hp2, hk2, hc2, ha2, hl2⟩ := store_ctx_effect env a f s1
    obtain ⟨ha3, hl3, hc3, he3, hd3, hk3⟩ := finish_block_effect env a (store_ctx env a f s1)
    rw [hp2] at hc3 he3 hd3 hk3
    refine ⟨(s1, f), _,
      (if env.CONFIG_VAR_TX = true ∧ blk_skip_at env a ≠ 0 then []
        else
          [Call.fwd_txfm a.plane a.block FWD_TXFM_OPT.NORMAL] ++
            (if env.skip_block = 0 then [Call.quantize a.plane a.block AV1_XFORM_QUANT.FP]
            else [Call.quantize_skip a.plane a.block])) ++
        ((if ((quantize_block env a st).plane a.plane).eobs a.block ≠ 0 then
            [Call.optimize_b a.plane a.block] else []) ++
          ((if (s1.plane a.plane).eobs a.block ≠ 0 then
              [Call.inv_txfm_add a.plane a.block ((s1.plane a.plane).eobs a.block)] else []) ++
            [Call.block_end a.plane a.block ((s1.plane a.plane).eobs a.block)])),
      hr, ht, ?_, ?_, ?_, ?_, ?_⟩
    · dsimp only
      rw [he3]
    · rw [hc3, hc2, hc1, hc0]
      simp only [List.append_assoc]
    · intro p b e
      dsimp only
      rw [he3]
      by_cases hv : env.CONFIG_VAR_TX = true ∧ blk_skip_at env a ≠ 0 <;>
        by_cases hs : env.skip_block = 0 <;>
        by_cases h0 : ((quantize_block env a st).plane a.plane).eobs a.block = 0 <;>
        by_cases h1 : (s1.plane a.plane).eobs a.block = 0 <;>
        simp [hv, hs, h0, h1, Nat.pos_iff_ne_zero]
    · dsimp only
      rw [he3, hd3, hd1, hd0]
      by_cases h1 : (s1.plane a.plane).eobs a.block = 0
      · simp [h1]
      · simp [h1, Nat.pos_iff_ne_zero]
    · dsimp only
      rw [he3]
      intro h1
      rw [ha3, hl3, hk3, ha2, hl2, hk2, hk1, hk0, hf]
      simp [h1]
  · obtain ⟨⟨s1, f⟩, hr, ht⟩ := encode_block_intra_stages env en a st hsq
    obtain ⟨ha0, hl0, hk0, hd0, hc0⟩ := intra_predict_subtract_effect env a st
    obtain ⟨ha3, hl3, hc3, he3, hd3, hk3⟩ := intra_finish_effect env a
      { s1 with
        ta := Function.update s1.ta a.plane (Function.update (s1.ta a.plane) a.blk_col f)
        tl := Function.update s1.tl a.plane (Function.update (s1.tl a.plane) a.blk_row f) }
    dsimp only at ha3 hl3 hc3 he3 hd3 hk3
    have hmid : (∃ m, s1.calls = (intra_predict_subtract env a st).calls ++ m ∧
          ∀ p b e, Call.inv_txfm_add p b e ∉ m) ∧
        s1.skip = st.skip ∧ (s1.plane a.plane).dst =
          env.av1_predict_intra_block a (st.plane a.plane).dst ∧
        f = (if (s1.plane a.plane).eobs a.block ≠ 0 then 1 else 0) := by
      unfold intra_quantize at hr
      cases en with
      | true =>
        rw [if_pos rfl] at hr
        obtain ⟨-, -, hk1, hd1, hc1⟩ := xform_quant_effect env a AV1_XFORM_QUANT.FP
          (intra_predict_subtract env a st)
        obtain ⟨hc2, hk2, -, -, hd2, -, hf, -⟩ :=
          optimize_if_coded_effect env a _ _ s1 f hr
            (xform_quant_eob_lt env a _ _ (by decide) hq)
        refine ⟨⟨_, by rw [hc2, hc1, List.append_assoc], ?_⟩, by rw [hk2, hk1, hk0],
          by rw [hd2, hd1, hd0], hf⟩
        intro p b e
        by_cases hs : env.skip_block = 0 <;>
          by_cases h0 : ((av1_xform_quant env a AV1_XFORM_QUANT.FP
            (intra_predict_subtract env a st)).plane a.plane).eobs a.block = 0 <;>
          simp [hs, h0]
      | false =>
        rw [if_neg (by decide)] at hr
        simp only [Option.some.injEq, Prod.mk.injEq] at hr
        obtain ⟨hs1, hf⟩ := hr
        obtain ⟨-, -, hk1, hd1, hc1⟩ := xform_quant_effect env a AV1_XFORM_QUANT.B
          (intra_predict_subtract env a st)
        rw [hs1] at hk1 hd1 hc1 hf
        refine ⟨⟨_, hc1, ?_⟩, by rw [hk1, hk0], by rw [hd1, hd0], ?_⟩
        · intro p b e
          by_cases hs : env.skip_block = 0 <;> simp [hs]
        · rw [← hf]
          by_cases h1 : (s1.plane a.plane).eobs a.block = 0
          · simp [h1]
          · simp [h1, Nat.pos_iff_ne_zero]
    obtain ⟨⟨m, hm, hmn⟩, hk1, hd1, hf⟩ := hmid
    refine ⟨(s1, f), _,
      [Call.predict_intra a.plane a.block, Call.subtract_block a.plane] ++
        (m ++
          ((if (s1.plane a.plane).eobs a.block ≠ 0 then
              [Call.inv_txfm_add a.plane a.block ((s1.plane a.plane).eobs a.block)] else []) ++
            [Call.block_end a.plane a.block ((s1.plane a.plane).eobs a.block)])),
      hr, ht, ?_, ?_, ?_, ?_, ?_⟩
    · dsimp only
      rw [he3]
    · dsimp only
      rw [hc3, hm, hc0]
      simp only [List.append_assoc]
    · intro p b e
      dsimp only
      rw [he3]
      have := hmn p b e
      by_cases h1 : (s1.plane a.plane).eobs a.block = 0
      · simp [h1, this]
      · simp [h1, this, Nat.pos_iff_ne_zero]
    · dsimp only
      rw [he3, hd3, hd1]
      by_cases h1 : (s1.plane a.plane).eobs a.block = 0
      · simp [h1]
      · simp [h1, Nat.pos_iff_ne_zero]
    · dsimp only
      rw [he3]
      intro h1
      rw [ha3, hl3, hk3, hk1, hf]
      simp [h1]


/-- Witness of C12: the inter call and the intra call on the sample pipeline. -/
theorem C12_reconstruction_trigger_witness :
    (∃ t l, encode_block sample_pipe sample_args sample_state = some t ∧
      t.calls = sample_state.calls ++ l ∧
      (∀ p b e, Call.inv_txfm_add p b e ∈ l ↔
        0 < (t.plane sample_args.plane).eobs sample_args.block ∧ p = sample_args.plane ∧
          b = sample_args.block ∧ e = (t.plane sample_args.plane).eobs sample_args.block)) ∧
    (∃ t l, av1_encode_block_intra sample_pipe true sample_args sample_state = some t ∧
      t.calls = sample_state.calls ++ l ∧
      (∀ p b e, Call.inv_txfm_add p b e ∈ l ↔
        0 < (t.plane sample_args.plane).eobs sample_args.block ∧ p = sample_args.plane ∧
          b = sample_args.block ∧ e = (t.plane sample_args.plane).eobs sample_args.block)) := by
  obtain ⟨⟨-, t, l, -, h1, -, h2, h3, -⟩, ⟨-, u, m, -, k1, -, k2, k3, -⟩⟩ :=
    C12_reconstruction_trigger sample_pipe true sample_args sample_state (by decide)
      (by decide)
      (by
        intro i c q d
        show (if Int.tdiv (c (16 * sample_args.block)) 10 = 0 then 0 else 1) < 65536
        split <;> decide)
  exact ⟨⟨t, l, h1, h2, h3⟩, ⟨u, m, k1, k2, k3⟩⟩

/-- C13. Scenario A, for every block: when the forward transform maps an all-zero
residual of the block to all-zero coefficients of the block and the quantizer maps
all-zero coefficients to end-of-block 0, a call of `encode_block` whose assertion holds,
on a block whose residual is all zero, returns with end-of-block 0 after logging neither
`av1_optimize_b` nor `inv_txfm_add`; the above and left entropy context entries of the
block are 0, the unit skip flag is as before, and the destination buffer of the plane,
which held the prediction, is as before. -/
theorem C13_zero_residual (env : PipeEnv) (a : BlockArgs) (st : EncState)
    (hb : ¬ (env.CONFIG_VAR_TX = true ∧ blk_skip_at env a = 234))
    (hres : residual_zero env a (st.plane a.plane).src_diff)
    (hf : ∀ diff coeff, residual_zero env a diff →
      ∀ k, k < env.get_tx2d_size a.tx_size →
        env.fwd_txfm a FWD_TXFM_OPT.NORMAL diff coeff (16 * a.block + k) = 0)
    (hq : ∀ coeff q d, (∀ k, k < env.get_tx2d_size a.tx_size → coeff (16 * a.block + k) = 0) →
      (env.quantize AV1_XFORM_QUANT.FP a coeff q d).2.2 = 0) :
    ∃ t l, encode_block env a st = some t ∧ t.calls = st.calls ++ l ∧
      (∀ p b, Call.optimize_b p b ∉ l) ∧ (∀ p b e, Call.inv_txfm_add p b e ∉ l) ∧
      (t.plane a.plane).eobs a.block = 0 ∧
      t.ta a.plane a.blk_col = 0 ∧ t.tl a.plane a.blk_row = 0 ∧ t.skip = st.skip ∧
      (t.plane a.plane).dst = (st.plane a.plane).dst := by
  have he0 : ((quantize_block env a st).plane a.plane).eobs a.block = 0 := by
    rw [quantize_block_eob]
    split
    · rfl
    · split
      · exact hq _ _ _ (hf _ _ hres)
      · rfl
  obtain ⟨⟨s1, f⟩, hr, ht⟩ := encode_block_stages env a st hb
  obtain ⟨ha0, hl0, hk0, hd0, hc0⟩ := quantize_block_effect env a st
  obtain ⟨hc1, hk1, ha1, hl1, hd1, -, hf1, hle⟩ :=
    optimize_if_coded_effect env a _ _ s1 f hr (by rw [he0]; decide)
  obtain ⟨hp2, hk2, hc2, ha2, hl2⟩ := store_ctx_effect env a f s1
  obtain ⟨ha3, hl3, hc3, he3, hd3, hk3⟩ := finish_block_effect env a (store_ctx env a f s1)
  rw [hp2] at hc3 he3 hd3 hk3
  have he1 : (s1.plane a.plane).eobs a.block = 0 := by omega
  have hf0 : f = 0 := by rw [hf1, he1]; simp
  refine ⟨_,
    (if env.CONFIG_VAR_TX = true ∧ blk_skip_at env a ≠ 0 then []
      else
        [Call.fwd_txfm a.plane a.block FWD_TXFM_OPT.NORMAL] ++
          (if env.skip_block = 0 then [Call.quantize a.plane a.block AV1_XFORM_QUANT.FP]
          else [Call.quantize_skip a.plane a.block])) ++
      [Call.block_end a.plane a.block 0],
    ht, ?_, ?_, ?_, ?_, ?_, ?_, ?_, ?_⟩
  · dsimp only
    rw [hc3, hc2, hc1, hc0, he0, he1]
    simp
  · intro p b
    by_cases hv : env.CONFIG_VAR_TX = true ∧ blk_skip_at env a ≠ 0 <;>
      by_cases hs : env.skip_block = 0 <;> simp [hv, hs]
  · intro p b e
    by_cases hv : env.CONFIG_VAR_TX = true ∧ blk_skip_at env a ≠ 0 <;>
      by_cases hs : env.skip_block = 0 <;> simp [hv, hs]
  · dsimp only
    rw [he3, he1]
  · dsimp only
    rw [ha3, ha2, hf0]
    simp
  · dsimp only
    rw [hl3, hl2, hf0]
    simp
  · dsimp only
    rw [hk3, he1, hk2, hk1, hk0]
    simp
  · dsimp only
    rw [hd3, he1, hd1, hd0]
    simp

/-- Witness of C13: the first block of the sample state, whose residual is zero, under
the sample pipeline with the strided forward transform. -/
theorem C13_zero_residual_witness :
    ∃ t l, encode_block sample_pipe_strided sample_args sample_state = some t ∧
      t.calls = sample_state.calls ++ l ∧
      (∀ p b, Call.optimize_b p b ∉ l) ∧ (∀ p b e, Call.inv_txfm_add p b e ∉ l) ∧
      (t.plane sample_args.plane).eobs sample_args.block = 0 ∧
      t.ta sample_args.plane sample_args.blk_col = 0 ∧
      t.tl sample_args.plane sample_args.blk_row = 0 ∧ t.skip = sample_state.skip ∧
      (t.plane sample_args.plane).dst = (sample_state.plane sample_args.plane).dst :=
  C13_zero_residual sample_pipe_strided sample_args sample_state (by decide)
    (fun _ _ _ _ => rfl)
    (by
      intro diff coeff h k hk
      have hk16 : k < 16 := hk
      have h1 := h (k / 4) (k % 4) (by show k / 4 < 4 * 2 ^ 0; omega)
        (by show k % 4 < 4 * 2 ^ 0; omega)
      show (if 16 * 0 ≤ 16 * 0 + k ∧ 16 * 0 + k < 16 * 0 + 16 then
          diff (4 * (0 * 8 + 0) + ((16 * 0 + k - 16 * 0) / 4) * 8 + (16 * 0 + k - 16 * 0) % 4)
        else coeff (16 * 0 + k)) = 0
      rw [if_pos (by omega)]
      have h2 : diff (4 * (0 * (4 * 2) + 0) + k / 4 * (4 * 2) + k % 4) = 0 := h1
      simpa using h2)
    (by
      intro coeff q d h
      have h0 : coeff (16 * 0 + 0) = 0 := h 0 (by decide)
      show (if Int.tdiv (coeff (16 * 0)) 10 = 0 then 0 else 1) = 0
      rw [if_pos (by simpa using congrArg (fun x => Int.tdiv x 10) h0)])

/-- C15. Context propagation: with `CONFIG_VAR_TX`, a quantizer whose end-of-block fits
`uint16_t` and a transform that spans at least one 4x4 column and row, a call of
`encode_block` whose assertion holds returns with every above-context entry
`ta[blk_col + i]`, `i` below the number of 4x4 columns of the transform, and every
left-context entry `tl[blk_row + j]`, `j` below its number of 4x4 rows, equal to 1 when
the final end-of-block of the block is positive and to 0 otherwise; every other context
entry, of this plane and of the others, is as before. -/
theorem C15_context_propagation (env : PipeEnv) (a : BlockArgs) (st : EncState)
    (hv : env.CONFIG_VAR_TX = true) (hb : blk_skip_at env a ≠ 234)
    (hq : ∀ i c q d, (env.quantize i a c q d).2.2 < 65536)
    (hw : 0 < env.num_4x4_blocks_wide_txsize_lookup a.tx_size)
    (hh : 0 < env.num_4x4_blocks_high_txsize_lookup a.tx_size) :
    ∃ t, encode_block env a st = some t ∧
      (∀ i, i < env.num_4x4_blocks_wide_txsize_lookup a.tx_size →
        t.ta a.plane (a.blk_col + i) = if 0 < (t.plane a.plane).eobs a.block then 1 else 0) ∧
      (∀ j, j < env.num_4x4_blocks_high_txsize_lookup a.tx_size →
        t.tl a.plane (a.blk_row + j) = if 0 < (t.plane a.plane).eobs a.block then 1 else 0) ∧
      (∀ p k, ¬ (p = a.plane ∧ a.blk_col ≤ k ∧
          k < a.blk_col + env.num_4x4_blocks_wide_txsize_lookup a.tx_size) →
        t.ta p k = st.ta p k) ∧
      (∀ p k, ¬ (p = a.plane ∧ a.blk_row ≤ k ∧
          k < a.blk_row + env.num_4x4_blocks_high_txsize_lookup a.tx_size) →
        t.tl p k = st.tl p k) := by
  obtain ⟨⟨s1, f⟩, hr, ht⟩ := encode_block_stages env a st (fun h => hb h.2)
  obtain ⟨ha0, hl0, -, -, -⟩ := quantize_block_effect env a st
  obtain ⟨-, -, ha1, hl1, -, -, hf, -⟩ :=
    optimize_if_coded_effect env a _ _ s1 f hr (quantize_block_eob_lt env a st hq)
  obtain ⟨hp2, -, -, ha2, hl2⟩ := store_ctx_effect env a f s1
  obtain ⟨ha3, hl3, -, he3, -, -⟩ := finish_block_effect env a (store_ctx env a f s1)
  rw [hp2] at he3
  have hf1 : f = if 0 < (s1.plane a.plane).eobs a.block then 1 else 0 := by
    rw [hf]
    by_cases h1 : (s1.plane a.plane).eobs a.block = 0
    · simp [h1]
    · simp [h1, Nat.pos_iff_ne_zero]
  refine ⟨_, ht, ?_, ?_, ?_, ?_⟩
  · intro i hi
    dsimp only
    rw [he3, ha3, ha2, if_pos ⟨rfl, Or.inr ⟨hv, by omega, by omega⟩⟩, hf1]
  · intro j hj
    dsimp only
    rw [he3, hl3, hl2, if_pos ⟨rfl, Or.inr ⟨hv, by omega, by omega⟩⟩, hf1]
  · intro p k hn
    dsimp only
    rw [ha3, ha2, if_neg, ha1, ha0]
    rintro ⟨hp, hk | ⟨-, hk1, hk2⟩⟩
    · exact hn ⟨hp, by omega, by omega⟩
    · exact hn ⟨hp, hk1, hk2⟩
  · intro p k hn
    dsimp only
    rw [hl3, hl2, if_neg, hl1, hl0]
    rintro ⟨hp, hk | ⟨-, hk1, hk2⟩⟩
    · exact hn ⟨hp, by omega, by omega⟩
    · exact hn ⟨hp, hk1, hk2⟩

/-- Witness of C15: an 8x8 block at row 1, column 2 whose residual is coded (final
end-of-block 1), on context arrays that hold 7 everywhere: the entries `ta[2..3]` and
`tl[1..2]` of plane 0 become 1 and every other entry is still 7. -/
theorem C15_context_propagation_witness :
    ∃ t, encode_block { sample_pipe with CONFIG_VAR_TX := true } sample_args_wide
        sample_state_coded = some t ∧
      (t.plane 0).eobs 0 = 1 ∧
      (∀ i, i < 2 → t.ta 0 (2 + i) = 1) ∧
      (∀ j, j < 2 → t.tl 0 (1 + j) = 1) ∧
      (∀ p k, ¬ (p = 0 ∧ 2 ≤ k ∧ k < 2 + 2) → t.ta p k = 7) ∧
      (∀ p k, ¬ (p = 0 ∧ 1 ≤ k ∧ k < 1 + 2) → t.tl p k = 7) := by
  obtain ⟨t, h1, h2, h3, h4, h5⟩ :=
    C15_context_propagation { sample_pipe with CONFIG_VAR_TX := true } sample_args_wide
      sample_state_coded rfl (by decide)
      (by
        intro i c q d
        show (if Int.tdiv (c (16 * sample_args_wide.block)) 10 = 0 then 0 else 1) < 65536
        split <;> decide)
      (by decide) (by decide)
  have he : (t.plane 0).eobs 0 = 1 := by
    have hv : (encode_block { sample_pipe with CONFIG_VAR_TX := true } sample_args_wide
        sample_state_coded).map (fun u => (u.plane 0).eobs 0) = some 1 := by decide
    rw [h1] at hv
    simpa using hv
  have hf : (if 0 < (t.plane sample_args_wide.plane).eobs sample_args_wide.block then 1
      else 0) = 1 := by
    show (if 0 < (t.plane 0).eobs 0 then 1 else 0) = 1
    rw [he]
    rfl
  refine ⟨t, h1, he, ?_, ?_, h4, h5⟩
  · intro i hi
    have := h2 i hi
    rw [hf] at this
    exact this
  · intro j hj
    have := h3 j hj
    rw [hf] at this
    exact this

/-! ## The zero-coefficient update, the sentinel and the shortcut flag -/

/-- The backward loop run to its end leaves the locals of `trellis_final`. -/
theorem trellis_after_loop (env : TrellisEnv) (b : OptBlock) (g : Scratch) :
    ∀ k, k ≤ b.eob →
      trellis_loop env b (b.eob - k) (trellis_after env b g k) = trellis_final env b g := by
  intro k
  induction k with
  | zero => intro _; rfl
  | succ k ih =>
    intro hk
    rw [← ih (by omega)]
    have h : b.eob - k = (b.eob - (k + 1)) + 1 := by omega
    rw [h]
    rfl

theorem trellis_after_final (env : TrellisEnv) (b : OptBlock) (g : Scratch) :
    trellis_after env b g b.eob = trellis_final env b g := by
  have h := trellis_after_loop env b g b.eob (le_refl _)
  rw [Nat.sub_self] at h
  exact h

/-- C26. Zero coefficients add cost without adding a node: an iteration of the backward
loop at a scan position whose quantized coefficient is zero leaves `next` as it was; a
hypothesis at `next` whose token is not `EOB_TOKEN` has its rate grown by
`(*token_costs)[1][pt][token]`, `pt` the context of position `i + 1`, and its token set
to `ZERO_TOKEN`; a hypothesis at `next` whose token is `EOB_TOKEN` is left as it was; no
error, quantized value, dequantized value or `next` field changes, and no other trellis
entry is written. -/
theorem C26_zero_coefficient_update (env : TrellisEnv) (b : OptBlock) (i : Nat) (s : Trellis)
    (hz : b.qcoeff (b.scan i) = 0) :
    (trellis_step env b i s).next = s.next ∧
    (∀ k, (s.tokens s.next k).token ≠ env.EOB_TOKEN →
      ((trellis_step env b i s).tokens s.next k).rate =
        (s.tokens s.next k).rate +
          env.token_costs s.token_costs 1 (env.get_coef_context s.token_cache (i + 1))
            (s.tokens s.next k).token ∧
      ((trellis_step env b i s).tokens s.next k).token = env.ZERO_TOKEN) ∧
    (∀ k, (s.tokens s.next k).token = env.EOB_TOKEN →
      (trellis_step env b i s).tokens s.next k = s.tokens s.next k) ∧
    (∀ j k, ((trellis_step env b i s).tokens j k).error = (s.tokens j k).error ∧
      ((trellis_step env b i s).tokens j k).qc = (s.tokens j k).qc ∧
      ((trellis_step env b i s).tokens j k).dqc = (s.tokens j k).dqc ∧
      ((trellis_step env b i s).tokens j k).next = (s.tokens j k).next) ∧
    (∀ j k, j ≠ s.next → (trellis_step env b i s).tokens j k = s.tokens j k) ∧
    (trellis_step env b i s).token_cache = s.token_cache := by
  have hn : ¬ is_node b i := fun h => h hz
  rw [trellis_step_zero env b i s hn]
  refine ⟨by rw [band_advance_next, zero_update_next], ?_, ?_, ?_, ?_, ?_⟩
  · intro k hk
    rw [band_advance_tokens]
    unfold zero_update setTok
    dsimp only
    cases k <;> split_ifs <;> simp_all
  · intro k hk
    rw [band_advance_tokens]
    unfold zero_update setTok
    dsimp only
    cases k <;> split_ifs <;> simp_all
  · intro j k
    rw [band_advance_tokens]
    have h := zero_update_fields env i s j k
    exact ⟨h.2.2.2, h.2.1, h.2.2.1, h.1⟩
  · intro j k hj
    rw [band_advance_tokens]
    unfold zero_update setTok
    dsimp only
    split_ifs <;> simp_all
  · rw [band_advance_token_cache]
    rfl


/-- Witness of C26: the zero coefficient at scan position 1 of the three-position sample
block. -/
theorem C26_zero_coefficient_update_witness :
    (trellis_step sample_env sample_block_gap 1
        (trellis_after sample_env sample_block_gap sample_scratch 1)).next =
      (trellis_after sample_env sample_block_gap sample_scratch 1).next :=
  (C26_zero_coefficient_update sample_env sample_block_gap 1
    (trellis_after sample_env sample_block_gap sample_scratch 1) (by decide)).1

/-- The zero-coefficient update writes no entry other than the one at `next`. -/
theorem zero_update_other (env : TrellisEnv) (i : Nat) (s : Trellis) (j : Nat) (k : Bool)
    (hj : j ≠ s.next) : (zero_update env i s).tokens j k = s.tokens j k := by
  unfold zero_update setTok
  dsimp only
  split_ifs <;> simp_all

theorem init_loop_sentinel (env : TrellisEnv) (b : OptBlock) (g : Scratch) :
    ∀ n, n ≤ b.eob → ∀ k,
      is_sentinel env b ((init_loop env b n (trellis_init env b g)).tokens b.eob k) := by
  intro n
  induction n with
  | zero =>
    intro _ k
    unfold init_loop trellis_init setTok is_sentinel
    cases k <;> simp
  | succ n ih =>
    intro hn k
    have h := ih (by omega) k
    have hne : b.eob ≠ n := by omega
    show is_sentinel env b
      ((init_step env b n (init_loop env b n (trellis_init env b g))).tokens b.eob k)
    unfold init_step setTok
    dsimp only
    rw [if_neg (fun hc => hne hc.1)]
    exact h

/-- An iteration of the backward loop below `eob` keeps the sentinel entry. -/
theorem trellis_step_sentinel (env : TrellisEnv) (b : OptBlock) (i : Nat) (s : Trellis)
    (hi : i < b.eob) (h : ∀ k, is_sentinel env b (s.tokens b.eob k)) :
    ∀ k, (trellis_step env b i s).tokens b.eob k = s.tokens b.eob k := by
  intro k
  by_cases hn : is_node b i
  · rw [trellis_step_node_tokens env b i s hn, if_neg (by omega)]
  · rw [trellis_step_zero env b i s hn, band_advance_tokens]
    by_cases hnx : s.next = b.eob
    · have h0 := (h false).2.2.2.1
      have h1 := (h true).2.2.2.1
      unfold zero_update setTok
      dsimp only
      rw [hnx, if_neg (not_not.mpr h0), if_neg (not_not.mpr h1)]
    · exact zero_update_other env i s b.eob k (fun hc => hnx hc.symm)

theorem trellis_after_sentinel (env : TrellisEnv) (b : OptBlock) (g : Scratch) :
    ∀ m, m ≤ b.eob → ∀ k, is_sentinel env b ((trellis_after env b g m).tokens b.eob k) := by
  intro m
  induction m with
  | zero => intro _ k; exact init_loop_sentinel env b g b.eob (le_refl _) k
  | succ m ih =>
    intro hm k
    show is_sentinel env b
      ((trellis_step env b (b.eob - (m + 1)) (trellis_after env b g m)).tokens b.eob k)
    rw [trellis_step_sentinel env b _ _ (by omega) (ih (by omega))]
    exact ih (by omega) k

/-- C23. Sentinel invariant: after every iteration of the first loop and after every
iteration of the backward loop, hence also during the write-back loop, which reads the
trellis left by the backward loop, both hypotheses of the entry at the input
end-of-block position have rate 0, error 0, `next = default_eob`, token `EOB_TOKEN` and
quantized value 0; an iteration of the backward loop, the zero-coefficient update
included, leaves the entry as it finds it. -/
theorem C23_sentinel_invariant (env : TrellisEnv) (b : OptBlock) (g : Scratch) :
    (∀ n, n ≤ b.eob → ∀ k,
      is_sentinel env b ((init_loop env b n (trellis_init env b g)).tokens b.eob k)) ∧
    (∀ m, m ≤ b.eob → ∀ k, is_sentinel env b ((trellis_after env b g m).tokens b.eob k)) ∧
    (∀ k, is_sentinel env b ((trellis_final env b g).tokens b.eob k)) ∧
    (∀ m, m < b.eob → ∀ k,
      (trellis_after env b g (m + 1)).tokens b.eob k =
        (trellis_after env b g m).tokens b.eob k) ∧
    (∀ i s, (∀ k, is_sentinel env b (s.tokens b.eob k)) → ∀ k,
      (zero_update env i s).tokens b.eob k = s.tokens b.eob k) := by
  refine ⟨init_loop_sentinel env b g, trellis_after_sentinel env b g, ?_, ?_, ?_⟩
  · intro k
    rw [← trellis_after_final]
    exact trellis_after_sentinel env b g b.eob (le_refl _) k
  · intro m hm k
    exact trellis_step_sentinel env b _ _ (by omega)
      (trellis_after_sentinel env b g m (by omega)) k
  · intro i s h k
    by_cases hnx : s.next = b.eob
    · have h0 := (h false).2.2.2.1
      have h1 := (h true).2.2.2.1
      unfold zero_update setTok
      dsimp only
      rw [hnx, if_neg (not_not.mpr h0), if_neg (not_not.mpr h1)]
    · exact zero_update_other env i s b.eob k (fun hc => hnx hc.symm)

/-- Witness of C23: the sentinel of the three-position sample block after the backward
loop. -/
theorem C23_sentinel_invariant_witness :
    is_sentinel sample_env sample_block_gap
      ((trellis_final sample_env sample_block_gap sample_scratch).tokens
        sample_block_gap.eob false) :=
  (C23_sentinel_invariant sample_env sample_block_gap sample_scratch).2.2.1 false

/-- C22 on the three-position sample block: when the backward loop reaches scan position
0, whose coefficient is nonzero, `shortcut` is 0 and `next` is 2, yet the two hypotheses
at position 2 differ: the first keeps the value 2 with error 16, the second holds the
rounded-down value 1 with error 36.  The zero coefficient at position 1 left them with
the same rate, 250, and line 359 compares rates only. -/
theorem C22_shortcut_after_zero :
    sample_block_gap.qcoeff (sample_block_gap.scan 0) ≠ 0 ∧
    (trellis_after sample_env sample_block_gap sample_scratch 2).shortcut = false ∧
    (trellis_after sample_env sample_block_gap sample_scratch 2).next = 2 ∧
    ((trellis_after sample_env sample_block_gap sample_scratch 2).tokens 2 false).rate = 250 ∧
    ((trellis_after sample_env sample_block_gap sample_scratch 2).tokens 2 true).rate = 250 ∧
    ((trellis_after sample_env sample_block_gap sample_scratch 2).tokens 2 false).qc = 2 ∧
    ((trellis_after sample_env sample_block_gap sample_scratch 2).tokens 2 true).qc = 1 ∧
    ((trellis_after sample_env sample_block_gap sample_scratch 2).tokens 2 false).dqc = 20 ∧
    ((trellis_after sample_env sample_block_gap sample_scratch 2).tokens 2 true).dqc = 10 ∧
    ((trellis_after sample_env sample_block_gap sample_scratch 2).tokens 2 false).error = 16 ∧
    ((trellis_after sample_env sample_block_gap sample_scratch 2).tokens 2 true).error = 36 := by
  decide

/-- C21 on the 32x32-style sample block with quantizer step 9: the round-down candidate
of the DC coefficient (value 2 dequantized to 9, original coefficient 8) is evaluated;
its dequantized value is `(1 * 9) >> 1 = 4`, so that the square of
`(dqc - coeff) * 2^shift` is 64, but the squared-error term that line 304 computes, and
that the hypothesis carries, is 49; the term of the keep candidate is the square of
`(dqcoeff - coeff) * 2^shift`, 4. -/
theorem C21_round_down_error_odd_step :
    shortcut_cond sample_block_odd 0 (sample_block_odd.qcoeff 0) = true ∧
    sample_block_odd.dqcoeff 0 =
      Int.sign (sample_block_odd.qcoeff 0) *
        (((sample_block_odd.qcoeff 0).natAbs : Int) * sample_block_odd.dequant_ptr 0 /
          2 ^ sample_block_odd.shift) ∧
    ((trellis_final sample_env sample_block_odd sample_scratch).tokens 0 true).qc = 1 ∧
    ((trellis_final sample_env sample_block_odd sample_scratch).tokens 0 true).dqc = 4 ∧
    ((trellis_final sample_env sample_block_odd sample_scratch).tokens 0 true).error = 49 ∧
    down_dx sample_block_odd 0 * down_dx sample_block_odd 0 = 49 ∧
    ((down_dqc sample_block_odd 0 - sample_block_odd.coeff 0) * 2 ^ sample_block_odd.shift) *
      ((down_dqc sample_block_odd 0 - sample_block_odd.coeff 0) * 2 ^ sample_block_odd.shift) =
        64 ∧
    ((trellis_final sample_env sample_block_odd sample_scratch).tokens 0 false).error = 4 := by
  decide

/-! ## The write-back walk and the frame of the optimizer -/

/-- Scan positions that hold no nonzero input coefficient add nothing to the list of the
nonzero positions below a bound. -/
theorem filter_range_gap (b : OptBlock) (i : Nat) :
    ∀ j, i ≤ j → (∀ m, i ≤ m → m < j → ¬ is_node b m) →
      (List.range j).filter (fun m => decide (is_node b m)) =
        (List.range i).filter (fun m => decide (is_node b m)) := by
  intro j
  induction j with
  | zero =>
    intro hij _
    have : i = 0 := by omega
    rw [this]
  | succ j ih =>
    intro hij hgap
    by_cases he : i = j + 1
    · rw [he]
    · have hj : ¬ is_node b j := hgap j (by omega) (by omega)
      rw [List.range_succ, List.filter_append, ih (by omega) (fun m h1 h2 => hgap m h1 (by omega))]
      simp [hj]

/-- C24. The backtrack walk terminates and visits exactly the nonzero-input positions:
in the trellis left by the backward loop both hypotheses of the node of a nonzero scan
position `i` have `i < next <= eob`; the write-back loop ends within `eob` iterations,
and the positions it visits, in order, are the scan positions below `eob` whose input
quantized coefficient is nonzero, each once, in increasing order. -/
theorem C24_backtrack_walk (env : TrellisEnv) (b : OptBlock) (g : Scratch) (fuel : Nat)
    (hf : b.eob ≤ fuel) :
    (∀ i, i < b.eob → is_node b i → ∀ k,
      i < ((trellis_final env b g).tokens i k).next ∧
        ((trellis_final env b g).tokens i k).next ≤ b.eob) ∧
    ∃ r, av1_optimize_b env b g fuel = some r ∧
      r.visited = (List.range b.eob).filter (fun i => decide (is_node b i)) ∧
      List.Pairwise (fun x y => x < y) r.visited ∧
      (∀ i, i ∈ r.visited ↔ i < b.eob ∧ b.qcoeff (b.scan i) ≠ 0) ∧
      r.visited.length ≤ b.eob := by
  have hs := loopInv_final env b g
  refine ⟨fun i hi hn k =>
    ⟨(hs.nodes i (Nat.zero_le _) hi hn).next_gt k, (hs.nodes i (Nat.zero_le _) hi hn).next_le k⟩,
    ?_⟩
  obtain ⟨w, hw, hP, hi⟩ := optimize_b_inv env b g fuel hf
    (fun w => w.visited = (List.range w.i).filter (fun m => decide (is_node b m)))
    (by
      show [] = (List.range (trellis_final env b g).next).filter _
      rw [filter_range_gap b 0 _ (Nat.zero_le _) (fun m h1 h2 => hs.head_gap m h1 h2)]
      rfl)
    (by
      intro w hlt hn hP
      have ok := hs.nodes w.i (Nat.zero_le _) hlt hn
      show w.visited ++ [w.i] =
        (List.range ((trellis_final env b g).tokens w.i w.best).next).filter _
      rw [filter_range_gap b (w.i + 1) _ (ok.next_gt w.best)
        (fun m h1 h2 => ok.gap w.best m (by omega) h2), List.range_succ, List.filter_append, hP]
      simp [hn])
  refine ⟨_, optimize_b_of_write_back env b g fuel w hw, ?_, ?_, ?_, ?_⟩
  · dsimp only
    rw [hP, hi]
  · dsimp only
    rw [hP]
    exact List.Pairwise.filter _ (List.pairwise_lt_range _)
  · intro i
    dsimp only
    rw [hP, hi]
    simp [is_node]
  · dsimp only
    rw [hP]
    calc ((List.range w.i).filter (fun m => decide (is_node b m))).length
        ≤ (List.range w.i).length := List.length_filter_le _ _
      _ = w.i := List.length_range _
      _ ≤ b.eob := by omega

/-- Witness of C24: the walk over the three-position sample block visits positions 0
and 2. -/
theorem C24_backtrack_walk_witness :
    ∃ r, av1_optimize_b sample_env sample_block_gap sample_scratch 3 = some r ∧
      r.visited = (List.range sample_block_gap.eob).filter
        (fun i => decide (is_node sample_block_gap i)) ∧
      r.visited.length ≤ sample_block_gap.eob := by
  obtain ⟨r, h1, h2, -, -, h5⟩ :=
    (C24_backtrack_walk sample_env sample_block_gap sample_scratch 3 (by decide)).2
  exact ⟨r, h1, h2, h5⟩

/-- C27. Frame of the optimizer: the call returns with the quantized and dequantized
buffers of the block changed at most at the indices `scan[i]`, `i < eob`, whose input
quantized coefficient is nonzero; an index that holds a zero input coefficient keeps it
(and its dequantized value), and so does `scan[j]` for `j >= eob` when the scan table
does not repeat an index.  On the pipeline state the call writes, besides these entries
of `qcoeff` and `dqcoeff` of the plane, only `eobs[block]` (and the ghost log): the
coefficient, residual, source and destination buffers, the other end-of-block entries,
the other planes, the entropy contexts and the skip flag are as before. -/
theorem C27_optimizer_frame (env : TrellisEnv) (b : OptBlock) (g : Scratch) (fuel : Nat)
    (penv : PipeEnv) (a : BlockArgs) (ctx : Nat) (st : EncState) (hf : b.eob ≤ fuel) :
    (∃ r, av1_optimize_b env b g fuel = some r ∧
      (∀ rc, (∀ i, i < b.eob → b.qcoeff (b.scan i) ≠ 0 → b.scan i ≠ rc) →
        r.qcoeff rc = b.qcoeff rc ∧ r.dqcoeff rc = b.dqcoeff rc) ∧
      (∀ rc, b.qcoeff rc = 0 → r.qcoeff rc = 0 ∧ r.dqcoeff rc = b.dqcoeff rc) ∧
      (∀ j, b.eob ≤ j → (∀ i, i < b.eob → b.scan i ≠ b.scan j) →
        r.qcoeff (b.scan j) = b.qcoeff (b.scan j) ∧
          r.dqcoeff (b.scan j) = b.dqcoeff (b.scan j))) ∧
    (∃ t v, optimize_b_call penv a ctx st = some (t, v) ∧
      (t.plane a.plane).coeff = (st.plane a.plane).coeff ∧
      (t.plane a.plane).src_diff = (st.plane a.plane).src_diff ∧
      (t.plane a.plane).src = (st.plane a.plane).src ∧
      (t.plane a.plane).dst = (st.plane a.plane).dst ∧
      (∀ blk, blk ≠ a.block → (t.plane a.plane).eobs blk = (st.plane a.plane).eobs blk) ∧
      (∀ p, p ≠ a.plane → t.plane p = st.plane p) ∧
      t.ta = st.ta ∧ t.tl = st.tl ∧ t.skip = st.skip ∧
      (∀ k, (∀ i, i < (st.plane a.plane).eobs a.block →
          (st.plane a.plane).qcoeff (16 * a.block + penv.get_scan a.plane a.block a.tx_size i)
            ≠ 0 →
          16 * a.block + penv.get_scan a.plane a.block a.tx_size i ≠ k) →
        (t.plane a.plane).qcoeff k = (st.plane a.plane).qcoeff k ∧
          (t.plane a.plane).dqcoeff k = (st.plane a.plane).dqcoeff k)) := by
  have key : ∀ (env : TrellisEnv) (b : OptBlock) (g : Scratch) (fuel : Nat), b.eob ≤ fuel →
      ∃ r, av1_optimize_b env b g fuel = some r ∧
        ∀ rc, (∀ i, i < b.eob → b.qcoeff (b.scan i) ≠ 0 → b.scan i ≠ rc) →
          r.qcoeff rc = b.qcoeff rc ∧ r.dqcoeff rc = b.dqcoeff rc := by
    intro env b g fuel hf
    obtain ⟨w, hw, hP, -⟩ := optimize_b_inv env b g fuel hf
      (fun w => ∀ rc, (∀ i, i < b.eob → b.qcoeff (b.scan i) ≠ 0 → b.scan i ≠ rc) →
        w.qcoeff rc = b.qcoeff rc ∧ w.dqcoeff rc = b.dqcoeff rc)
      (fun rc _ => ⟨rfl, rfl⟩)
      (by
        intro w hlt hn hP rc hrc
        have hne : rc ≠ b.scan w.i := fun hc => hrc w.i hlt hn hc.symm
        show (write_back_step b _ w).qcoeff rc = _ ∧ (write_back_step b _ w).dqcoeff rc = _
        unfold write_back_step
        dsimp only
        rw [Function.update_noteq hne, Function.update_noteq hne]
        exact hP rc hrc)
    exact ⟨_, optimize_b_of_write_back env b g fuel w hw, hP⟩
  constructor
  · obtain ⟨r, hr, hP⟩ := key env b g fuel hf
    refine ⟨r, hr, hP, ?_, ?_⟩
    · intro rc h0
      have h := hP rc (fun i _ hn hc => hn (by rw [hc]; exact h0))
      exact ⟨by rw [h.1, h0], h.2⟩
    · intro j _ hinj
      exact hP _ (fun i hi _ => hinj i hi)
  · obtain ⟨r, hr, hP⟩ := key (penv.trellis_env a.plane a.tx_size) (opt_block penv a ctx st)
      (penv.stack a.plane a.block) (opt_block penv a ctx st).eob (le_refl _)
    have hcall : optimize_b_call penv a ctx st = some
        (log_call
          (set_plane st a.plane
            { st.plane a.plane with
              qcoeff := fun k => if 16 * a.block ≤ k then r.qcoeff (k - 16 * a.block)
                else (st.plane a.plane).qcoeff k
              dqcoeff := fun k => if 16 * a.block ≤ k then r.dqcoeff (k - 16 * a.block)
                else (st.plane a.plane).dqcoeff k
              eobs := Function.update (st.plane a.plane).eobs a.block r.eobs_block.toNat })
          (Call.optimize_b a.plane a.block), r.final_eob) := by
      unfold optimize_b_call
      dsimp only
      rw [hr]
    refine ⟨_, _, hcall, ?_, ?_, ?_, ?_, ?_, ?_, rfl, rfl, rfl, ?_⟩
    · simp [log_call, set_plane]
    · simp [log_call, set_plane]
    · simp [log_call, set_plane]
    · simp [log_call, set_plane]
    · intro blk hblk
      simp [log_call, set_plane, Function.update_noteq hblk]
    · intro p hp
      simp [log_call, set_plane, Function.update_noteq hp]
    · intro k hk
      simp only [log_call, set_plane, Function.update_same]
      by_cases hle : 16 * a.block ≤ k
      · rw [if_pos hle, if_pos hle]
        have h := hP (k - 16 * a.block) (by
          intro i hi hn hc
          refine hk i hi hn ?_
          have : (opt_block penv a ctx st).scan i = penv.get_scan a.plane a.block a.tx_size i :=
            rfl
          rw [← this, hc]
          omega)
        have e : 16 * a.block + (k - 16 * a.block) = k := by omega
        have hq : (opt_block penv a ctx st).qcoeff (k - 16 * a.block) =
            (st.plane a.plane).qcoeff k := by
          show (st.plane a.plane).qcoeff (16 * a.block + (k - 16 * a.block)) = _
          rw [e]
        have hd : (opt_block penv a ctx st).dqcoeff (k - 16 * a.block) =
            (st.plane a.plane).dqcoeff k := by
          show (st.plane a.plane).dqcoeff (16 * a.block + (k - 16 * a.block)) = _
          rw [e]
        rw [h.1, h.2, hq, hd]
        exact ⟨rfl, rfl⟩
      · rw [if_neg hle, if_neg hle]
        exact ⟨rfl, rfl⟩

/-- Witness of C27 on the three-position sample block and the sample pipeline. -/
theorem C27_optimizer_frame_witness :
    ∃ r, av1_optimize_b sample_env sample_block_gap sample_scratch 3 = some r ∧
      (∀ rc, sample_block_gap.qcoeff rc = 0 →
        r.qcoeff rc = 0 ∧ r.dqcoeff rc = sample_block_gap.dqcoeff rc) := by
  obtain ⟨r, h1, -, h3, -⟩ :=
    (C27_optimizer_frame sample_env sample_block_gap sample_scratch 3 sample_pipe sample_args 0
      sample_state (by decide)).1
  exact ⟨r, h1, h3⟩

/-! ## The accumulated error of the selected path -/

theorem trellis_step_node_best (env : TrellisEnv) (b : OptBlock) (i : Nat) (s : Trellis)
    (h : is_node b i) (j : Nat) (k : Bool) :
    (trellis_step env b i s).best_index j k =
      if j = i then
        (if k = true ∧ shortcut_cond b (b.scan i) (b.qcoeff (b.scan i)) = true then
          (down_candidate env b i s).2.1
        else (keep_candidate env b i s).2)
      else s.best_index j k := by
  unfold is_node at h
  unfold trellis_step
  dsimp only
  rw [if_pos h]
  split
  · rename_i hc
    cases k <;> by_cases hj : j = i <;> simp [setBest, hc, hj]
  · rename_i hc
    cases k <;> by_cases hj : j = i <;> simp [setBest, hc, hj]

theorem zero_update_best (env : TrellisEnv) (i : Nat) (s : Trellis) (j : Nat) (k : Bool)
    (hj : j ≠ i) : (zero_update env i s).best_index j k = s.best_index j k := by
  unfold zero_update setBest
  dsimp only
  simp [hj]

theorem keep_candidate_error (env : TrellisEnv) (b : OptBlock) (i : Nat) (s : Trellis) :
    (keep_candidate env b i s).1.error =
      cand_error b i false + (s.tokens s.next (keep_candidate env b i s).2).error := by
  unfold keep_candidate cand_error
  dsimp only
  cases keep_best env b i s <;> simp

theorem down_candidate_error (env : TrellisEnv) (b : OptBlock) (i : Nat) (s : Trellis)
    (hc : shortcut_cond b (b.scan i) (b.qcoeff (b.scan i)) = true) :
    (down_candidate env b i s).1.error =
      cand_error b i true + (s.tokens s.next (down_candidate env b i s).2.1).error := by
  unfold down_candidate cand_error
  dsimp only
  cases down_best env b i s <;> simp [hc]

theorem errInv_step (env : TrellisEnv) (b : OptBlock) (i : Nat) (s : Trellis)
    (hi : i < b.eob) (h : LoopInv b s (i + 1)) (he : ErrInv b s (i + 1)) :
    ErrInv b (trellis_step env b i s) i := by
  intro j hj1 hj2 hjn k
  have hge := h.head_ge
  by_cases hn : is_node b i
  · have htok := trellis_step_node_tokens env b i s hn
    have hbest := trellis_step_node_best env b i s hn
    by_cases hji : j = i
    · subst hji
      have hsn : s.next ≠ j := by omega
      by_cases hc : k = true ∧ shortcut_cond b (b.scan j) (b.qcoeff (b.scan j)) = true
      · rw [htok j k, hbest j k, if_pos rfl, if_pos rfl, if_pos hc, if_pos hc]
        have hnx : (down_candidate env b j s).1.next = s.next := rfl
        rw [hnx, htok s.next, if_neg hsn, down_candidate_error env b j s hc.2, hc.1]
      · rw [htok j k, hbest j k, if_pos rfl, if_pos rfl, if_neg hc, if_neg hc]
        have hnx : (keep_candidate env b j s).1.next = s.next := rfl
        rw [hnx, htok s.next, if_neg hsn, keep_candidate_error env b j s]
        congr 1
        unfold cand_error
        rw [if_neg (by simp), if_neg hc]
    · have hj : i + 1 ≤ j := by omega
      have ok := h.nodes j hj hj2 hjn
      have hgt := ok.next_gt k
      rw [htok j k, hbest j k, if_neg hji, if_neg hji, htok, if_neg (by omega)]
      exact he j hj hj2 hjn k
  · have hstep := trellis_step_zero env b i s hn
    have hji : j ≠ i := fun hc => hn (hc ▸ hjn)
    have hj : i + 1 ≤ j := by omega
    have hf := zero_update_fields env i s
    rw [hstep, band_advance_tokens, band_advance_best_index, zero_update_best env i s j k hji,
      (hf j k).2.2.2, (hf j k).1, (hf _ _).2.2.2]
    exact he j hj hj2 hjn k

theorem errInv_loop (env : TrellisEnv) (b : OptBlock) :
    ∀ (n : Nat) (s : Trellis), n ≤ b.eob → LoopInv b s n → ErrInv b s n →
      ErrInv b (trellis_loop env b n s) 0 := by
  intro n
  induction n with
  | zero => intro s _ _ h; exact h
  | succ n ih =>
    intro s hn h he
    exact ih _ (by omega) (loopInv_step env b n s (by omega) h)
      (errInv_step env b n s (by omega) h he)

/-- The backward loop ends with the error of every node hypothesis accounted for. -/
theorem errInv_final (env : TrellisEnv) (b : OptBlock) (g : Scratch) :
    ErrInv b (trellis_final env b g) 0 := by
  unfold trellis_final
  have hn := init_loop_next env b g b.eob
  apply errInv_loop env b b.eob _ (le_refl _)
  · refine ⟨?_, ?_, ?_, ?_, ?_, ?_⟩
    · rw [hn]
    · rw [hn]
    · rw [hn]; intro h; omega
    · intro m h1 h2; rw [hn] at h2; omega
    · intro j h1 h2; omega
    · intro j h1 h2; omega
  · intro j h1 h2
    omega

/-- The error of the hypothesis the write-back loop stands at is the sum of the
squared-error terms over the rest of its walk. -/
theorem write_back_path_error (b : OptBlock) (s : Trellis) (hs : LoopInv b s 0)
    (he : ErrInv b s 0) (hz : ∀ k, (s.tokens b.eob k).error = 0) :
    ∀ (fuel : Nat) (w : WriteBack), b.eob ≤ w.i + fuel → w.i ≤ b.eob →
      (w.i < b.eob → is_node b w.i) →
      (s.tokens w.i w.best).error =
        ((write_back_path b s fuel w).map (fun p => cand_error b p.1 p.2)).sum := by
  intro fuel
  induction fuel with
  | zero =>
    intro w h1 h2 _
    have : w.i = b.eob := by omega
    rw [this]
    simp [write_back_path, hz]
  | succ n ih =>
    intro w h1 h2 h3
    by_cases hlt : w.i < b.eob
    · have hnode := h3 hlt
      have ok := hs.nodes w.i (Nat.zero_le _) hlt hnode
      have hgt := ok.next_gt w.best
      have hi : (write_back_step b s w).i = (s.tokens w.i w.best).next := rfl
      have hb : (write_back_step b s w).best = s.best_index w.i w.best := rfl
      have hrec := ih (write_back_step b s w) (by rw [hi]; omega)
        (by rw [hi]; exact ok.next_le w.best) (by rw [hi]; exact ok.next_node w.best)
      rw [hi, hb] at hrec
      rw [he w.i (Nat.zero_le _) hlt hnode w.best, hrec]
      simp [write_back_path, hlt]
    · have : w.i = b.eob := by omega
      rw [this, hz]
      simp [write_back_path, hlt]

/-- The positions of the pairs of the walk are the positions the loop visits. -/
theorem write_back_path_visited (b : OptBlock) (s : Trellis) :
    ∀ (fuel : Nat) (w w' : WriteBack), write_back b s fuel w = some w' →
      w'.visited = w.visited ++ (write_back_path b s fuel w).map Prod.fst := by
  intro fuel
  induction fuel with
  | zero =>
    intro w w' h
    by_cases hlt : w.i < b.eob
    · simp [write_back, hlt] at h
    · simp only [write_back, hlt, if_false, Option.some.injEq] at h
      rw [← h]
      simp [write_back_path]
  | succ n ih =>
    intro w w' h
    by_cases hlt : w.i < b.eob
    · simp only [write_back, hlt, if_true] at h
      rw [ih _ _ h]
      simp [write_back_path, hlt, write_back_step]
    · simp only [write_back, hlt, if_false, Option.some.injEq] at h
      rw [← h]
      simp [write_back_path, hlt]

/-- Every pair of the walk is a node below `eob`. -/
theorem write_back_path_nodes (b : OptBlock) (s : Trellis) (hs : LoopInv b s 0) :
    ∀ (fuel : Nat) (w : WriteBack), w.i ≤ b.eob → (w.i < b.eob → is_node b w.i) →
      ∀ p, p ∈ write_back_path b s fuel w → w.i ≤ p.1 ∧ p.1 < b.eob ∧ is_node b p.1 := by
  intro fuel
  induction fuel with
  | zero => intro w _ _ p hp; simp [write_back_path] at hp
  | succ n ih =>
    intro w h2 h3 p hp
    by_cases hlt : w.i < b.eob
    · have hnode := h3 hlt
      have ok := hs.nodes w.i (Nat.zero_le _) hlt hnode
      have hgt := ok.next_gt w.best
      have hi : (write_back_step b s w).i = (s.tokens w.i w.best).next := rfl
      simp only [write_back_path, hlt, if_true, List.mem_cons] at hp
      rcases hp with hp | hp
      · rw [hp]
        exact ⟨le_refl _, hlt, hnode⟩
      · have := ih (write_back_step b s w) (by rw [hi]; exact ok.next_le w.best)
          (by rw [hi]; exact ok.next_node w.best) p hp
        rw [hi] at this
        exact ⟨by omega, this.2⟩
    · simp [write_back_path, hlt] at hp

/-- The values written at the visit of a pair of the walk are still in the buffers when
the loop ends, provided no later scan position has the same index. -/
theorem write_back_path_written (b : OptBlock) (s : Trellis) (hs : LoopInv b s 0)
    (hinj : ∀ i j, i < b.eob → j < b.eob → b.scan i = b.scan j → i = j) :
    ∀ (fuel : Nat) (w w' : WriteBack), w.i ≤ b.eob → (w.i < b.eob → is_node b w.i) →
      write_back b s fuel w = some w' →
      (∀ j, j < w.i → j < b.eob → w'.qcoeff (b.scan j) = w.qcoeff (b.scan j) ∧
        w'.dqcoeff (b.scan j) = w.dqcoeff (b.scan j)) ∧
      ∀ p, p ∈ write_back_path b s fuel w →
        w'.qcoeff (b.scan p.1) = (s.tokens p.1 p.2).qc ∧
          w'.dqcoeff (b.scan p.1) = (s.tokens p.1 p.2).dqc := by
  intro fuel
  induction fuel with
  | zero =>
    intro w w' _ _ h
    by_cases hlt : w.i < b.eob
    · simp [write_back, hlt] at h
    · simp only [write_back, hlt, if_false, Option.some.injEq] at h
      rw [← h]
      exact ⟨fun _ _ _ => ⟨rfl, rfl⟩, fun p hp => by simp [write_back_path] at hp⟩
  | succ n ih =>
    intro w w' h2 h3 h
    by_cases hlt : w.i < b.eob
    · have hnode := h3 hlt
      have ok := hs.nodes w.i (Nat.zero_le _) hlt hnode
      have hgt := ok.next_gt w.best
      have hi : (write_back_step b s w).i = (s.tokens w.i w.best).next := rfl
      simp only [write_back, hlt, if_true] at h
      obtain ⟨hkeep, hpath⟩ := ih (write_back_step b s w) w'
        (by rw [hi]; exact ok.next_le w.best) (by rw [hi]; exact ok.next_node w.best) h
      rw [hi] at hkeep
      constructor
      · intro j hj hje
        have hne : b.scan j ≠ b.scan w.i := fun hc => by
          have := hinj j w.i hje hlt hc
          omega
        have := hkeep j (by omega) hje
        rw [this.1, this.2]
        simp [write_back_step, Function.update_noteq hne]
      · intro p hp
        simp only [write_back_path, hlt, if_true, List.mem_cons] at hp
        rcases hp with hp | hp
        · rw [hp]
          have := hkeep w.i hgt hlt
          rw [this.1, this.2]
          simp [write_back_step]
        · exact hpath p hp
    · simp only [write_back, hlt, if_false, Option.some.injEq] at h
      rw [← h]
      exact ⟨fun _ _ _ => ⟨rfl, rfl⟩, fun p hp => by simp [write_back_path, hlt] at hp⟩


/-- C28. Backtracking reproduces the costed path: the call returns, and the accumulated
error of the terminal hypothesis it selects (`tokens[next][best]` after line 380) is the
sum, over the pairs `(i, best)` of the iterations of the write-back loop, of the
squared-error term of hypothesis `best` of position `i`.  The positions of the pairs are
the positions the loop visits; the values the loop writes at the visit of a pair,
`tokens[i][best].qc` and `.dqc`, are those of the candidate the term belongs to: the
round-down candidate when `best = 1` and the shortcut test holds, the keep candidate
otherwise; and they are the values in the buffers at return when the scan table repeats
no index. -/
theorem C28_backtrack_costed_path (env : TrellisEnv) (b : OptBlock) (g : Scratch)
    (fuel : Nat) (hf : b.eob ≤ fuel) :
    ∃ r, av1_optimize_b env b g fuel = some r ∧
      ((trellis_final env b g).tokens (trellis_final env b g).next
          (write_back_init env b (trellis_final env b g)).best).error =
        ((write_back_path b (trellis_final env b g) fuel
          (write_back_init env b (trellis_final env b g))).map
            (fun p => cand_error b p.1 p.2)).sum ∧
      (write_back_path b (trellis_final env b g) fuel
        (write_back_init env b (trellis_final env b g))).map Prod.fst = r.visited ∧
      (∀ p, p ∈ write_back_path b (trellis_final env b g) fuel
          (write_back_init env b (trellis_final env b g)) →
        p.1 < b.eob ∧ b.qcoeff (b.scan p.1) ≠ 0 ∧
        ((trellis_final env b g).tokens p.1 p.2).qc =
          (if p.2 = true ∧ shortcut_cond b (b.scan p.1) (b.qcoeff (b.scan p.1)) = true then
            round_down (b.qcoeff (b.scan p.1))
          else b.qcoeff (b.scan p.1)) ∧
        ((trellis_final env b g).tokens p.1 p.2).dqc =
          (if p.2 = true ∧ shortcut_cond b (b.scan p.1) (b.qcoeff (b.scan p.1)) = true then
            down_dqc b (b.scan p.1)
          else b.dqcoeff (b.scan p.1))) ∧
      ((∀ i j, i < b.eob → j < b.eob → b.scan i = b.scan j → i = j) →
        ∀ p, p ∈ write_back_path b (trellis_final env b g) fuel
            (write_back_init env b (trellis_final env b g)) →
          r.qcoeff (b.scan p.1) = ((trellis_final env b g).tokens p.1 p.2).qc ∧
            r.dqcoeff (b.scan p.1) = ((trellis_final env b g).tokens p.1 p.2).dqc) := by
  have hs := loopInv_final env b g
  have he := errInv_final env b g
  have hz : ∀ k, ((trellis_final env b g).tokens b.eob k).error = 0 := by
    intro k
    rw [← trellis_after_final]
    exact (trellis_after_sentinel env b g b.eob (le_refl _) k).2.1
  obtain ⟨w, hw, -, -⟩ := optimize_b_inv env b g fuel hf (fun _ => True) trivial
    (fun _ _ _ _ => trivial)
  have hnext : (write_back_init env b (trellis_final env b g)).i =
      (trellis_final env b g).next := rfl
  have h0le : (write_back_init env b (trellis_final env b g)).i ≤ b.eob := hs.head_le
  have h0node : (write_back_init env b (trellis_final env b g)).i < b.eob →
      is_node b (write_back_init env b (trellis_final env b g)).i := hs.head_node
  refine ⟨_, optimize_b_of_write_back env b g fuel w hw, ?_, ?_, ?_, ?_⟩
  · have h := write_back_path_error b _ hs he hz fuel
      (write_back_init env b (trellis_final env b g)) (by rw [hnext]; omega) h0le h0node
    rw [hnext] at h
    exact h
  · dsimp only
    rw [write_back_path_visited b _ fuel _ w hw]
    rfl
  · intro p hp
    obtain ⟨-, hlt, hn⟩ := write_back_path_nodes b _ hs fuel _ h0le h0node p hp
    have ok := hs.nodes p.1 (Nat.zero_le _) hlt hn
    refine ⟨hlt, hn, ?_, ?_⟩
    · cases hk : p.2
      · rw [if_neg (by simp)]
        exact ok.qc_keep
      · rw [ok.qc_down]
        by_cases hc : shortcut_cond b (b.scan p.1) (b.qcoeff (b.scan p.1)) = true
        · rw [if_pos hc, if_pos ⟨rfl, hc⟩]
        · rw [if_neg hc, if_neg (fun h => hc h.2)]
    · cases hk : p.2
      · rw [if_neg (by simp)]
        exact ok.dqc_keep
      · by_cases hc : shortcut_cond b (b.scan p.1) (b.qcoeff (b.scan p.1)) = true
        · rw [if_pos ⟨rfl, hc⟩]
          exact down_dqc_final env b g p.1 hlt hn hc
        · rw [if_neg (fun h => hc h.2)]
          exact ok.dqc_down (by simpa using hc)
  · intro hinj p hp
    exact (write_back_path_written b _ hs hinj fuel _ w h0le h0node hw).2 p hp

/-- Witness of C28: on the three-position sample block the selected terminal hypothesis
carries the sum of the terms of its walk. -/
theorem C28_backtrack_costed_path_witness :
    ∃ r, av1_optimize_b sample_env sample_block_gap sample_scratch 3 = some r ∧
      ((trellis_final sample_env sample_block_gap sample_scratch).tokens
          (trellis_final sample_env sample_block_gap sample_scratch).next
          (write_back_init sample_env sample_block_gap
            (trellis_final sample_env sample_block_gap sample_scratch)).best).error =
        ((write_back_path sample_block_gap
          (trellis_final sample_env sample_block_gap sample_scratch) 3
          (write_back_init sample_env sample_block_gap
            (trellis_final sample_env sample_block_gap sample_scratch))).map
            (fun p => cand_error sample_block_gap p.1 p.2)).sum := by
  obtain ⟨r, h1, h2, -⟩ :=
    C28_backtrack_costed_path sample_env sample_block_gap sample_scratch 3 (by decide)
  exact ⟨r, h1, h2⟩

/-! ## Independence of the entropy contexts in the intra path -/

theorem xform_quant_ctx (env : PipeEnv) (a : BlockArgs) (idx : AV1_XFORM_QUANT) (s : EncState)
    (ta tl : Nat → Nat → Nat) :
    av1_xform_quant env a idx { s with ta := ta, tl := tl } =
      { av1_xform_quant env a idx s with ta := ta, tl := tl } := by
  unfold av1_xform_quant
  dsimp only
  split_ifs <;> rfl

theorem intra_finish_ctx (env : PipeEnv) (a : BlockArgs) (s : EncState)
    (ta tl : Nat → Nat → Nat) :
    intra_finish env a { s with ta := ta, tl := tl } =
      { intra_finish env a s with ta := ta, tl := tl } := by
  unfold intra_finish
  dsimp only
  split_ifs <;> rfl

/-- The state that `av1_encode_block_intra` returns when `enable_optimize_b` is 0. -/
theorem encode_block_intra_plain (env : PipeEnv) (a : BlockArgs) (st : EncState)
    (hsq : env.num_4x4_blocks_wide_txsize_lookup a.tx_size * 4 =
      env.num_4x4_blocks_high_txsize_lookup a.tx_size * 4) :
    av1_encode_block_intra env false a st = some
      { intra_finish env a
          (av1_xform_quant env a AV1_XFORM_QUANT.B (intra_predict_subtract env a st)) with
        ta := Function.update st.ta a.plane
          (Function.update (st.ta a.plane) a.blk_col
            (if ((av1_xform_quant env a AV1_XFORM_QUANT.B
              (intra_predict_subtract env a st)).plane a.plane).eobs a.block > 0 then 1 else 0))
        tl := Function.update st.tl a.plane
          (Function.update (st.tl a.plane) a.blk_row
            (if ((av1_xform_quant env a AV1_XFORM_QUANT.B
              (intra_predict_subtract env a st)).plane a.plane).eobs a.block > 0 then 1 else 0)) } := by
  obtain ⟨ha0, hl0, -, -, -⟩ := intra_predict_subtract_effect env a st
  obtain ⟨ha1, hl1, -, -, -⟩ := xform_quant_effect env a AV1_XFORM_QUANT.B
    (intra_predict_subtract env a st)
  unfold av1_encode_block_intra
  rw [if_neg (not_not.mpr hsq)]
  unfold intra_quantize
  dsimp only
  rw [if_neg (by decide)]
  dsimp only
  rw [intra_finish_ctx, ha1, ha0, hl1, hl0]

/-- C29. With optimization disabled the intra encoder does not depend on the entropy
context arrays: two calls of `av1_encode_block_intra` with `enable_optimize_b = 0` whose
assertion holds, on states that differ only in the contents of `ta` and `tl`, both
return, with the same plane buffers (quantized and dequantized coefficients,
end-of-block entries, destination pixels among them), the same skip flag and the same
log; each stores `(eob > 0)` in the above-context entry `blk_col` and the left-context
entry `blk_row` of the plane and leaves every other context entry as it was given. -/
theorem C29_intra_context_independence (env : PipeEnv) (a : BlockArgs) (st : EncState)
    (ta2 tl2 : Nat → Nat → Nat)
    (hsq : env.num_4x4_blocks_wide_txsize_lookup a.tx_size * 4 =
      env.num_4x4_blocks_high_txsize_lookup a.tx_size * 4) :
    ∃ t1 t2, av1_encode_block_intra env false a st = some t1 ∧
      av1_encode_block_intra env false a { st with ta := ta2, tl := tl2 } = some t2 ∧
      t1.plane = t2.plane ∧ t1.skip = t2.skip ∧ t1.calls = t2.calls ∧
      t1.ta a.plane a.blk_col = (if (t1.plane a.plane).eobs a.block > 0 then 1 else 0) ∧
      t1.tl a.plane a.blk_row = (if (t1.plane a.plane).eobs a.block > 0 then 1 else 0) ∧
      t2.ta a.plane a.blk_col = (if (t2.plane a.plane).eobs a.block > 0 then 1 else 0) ∧
      t2.tl a.plane a.blk_row = (if (t2.plane a.plane).eobs a.block > 0 then 1 else 0) ∧
      (∀ p k, ¬ (p = a.plane ∧ k = a.blk_col) → t1.ta p k = st.ta p k ∧ t2.ta p k = ta2 p k) ∧
      (∀ p k, ¬ (p = a.plane ∧ k = a.blk_row) → t1.tl p k = st.tl p k ∧ t2.tl p k = tl2 p k) := by
  have h1 := encode_block_intra_plain env a st hsq
  have h2 := encode_block_intra_plain env a { st with ta := ta2, tl := tl2 } hsq
  have hps : intra_predict_subtract env a { st with ta := ta2, tl := tl2 } =
      { intra_predict_subtract env a st with ta := ta2, tl := tl2 } := rfl
  rw [hps, xform_quant_ctx, intra_finish_ctx] at h2
  dsimp only at h2
  have he : ((intra_finish env a (av1_xform_quant env a AV1_XFORM_QUANT.B
      (intra_predict_subtract env a st))).plane a.plane).eobs a.block =
      ((av1_xform_quant env a AV1_XFORM_QUANT.B
        (intra_predict_subtract env a st)).plane a.plane).eobs a.block := by
    rw [(intra_finish_effect env a _).2.2.2.1]
  have key : ∀ (f : Nat → Nat → Nat) (c v : Nat) (p k : Nat), ¬ (p = a.plane ∧ k = c) →
      Function.update f a.plane (Function.update (f a.plane) c v) p k = f p k := by
    intro f c v p k hn
    by_cases hp : p = a.plane
    · subst hp
      rw [Function.update_same, Function.update_noteq (fun hk => hn ⟨rfl, hk⟩)]
    · rw [Function.update_noteq hp]
  refine ⟨_, _, h1, h2, rfl, rfl, rfl, ?_, ?_, ?_, ?_, ?_, ?_⟩
  · dsimp only
    rw [he, Function.update_same, Function.update_same]
  · dsimp only
    rw [he, Function.update_same, Function.update_same]
  · dsimp only
    rw [he, Function.update_same, Function.update_same]
  · dsimp only
    rw [he, Function.update_same, Function.update_same]
  · intro p k hn
    exact ⟨key st.ta _ _ p k hn, key ta2 _ _ p k hn⟩
  · intro p k hn
    exact ⟨key st.tl _ _ p k hn, key tl2 _ _ p k hn⟩

/-- Witness of C29: the sample state against the same state with all context entries
set to 7. -/
theorem C29_intra_context_independence_witness :
    ∃ t1 t2, av1_encode_block_intra sample_pipe false sample_args sample_state = some t1 ∧
      av1_encode_block_intra sample_pipe false sample_args
        { sample_state with ta := fun _ _ => 7, tl := fun _ _ => 7 } = some t2 ∧
      t1.plane = t2.plane ∧ t1.skip = t2.skip := by
  obtain ⟨t1, t2, h1, h2, h3, h4, -⟩ :=
    C29_intra_context_independence sample_pipe sample_args sample_state (fun _ _ => 7)
      (fun _ _ => 7) (by decide)
  exact ⟨t1, t2, h1, h2, h3, h4⟩

/-! ## Band bookkeeping -/

theorem init_loop_band (env : TrellisEnv) (b : OptBlock) (s : Trellis) :
    ∀ n, (init_loop env b n s).band_left = s.band_left ∧
      (init_loop env b n s).band_counts = s.band_counts ∧
      (init_loop env b n s).token_costs = s.token_costs := by
  intro n
  induction n with
  | zero => exact ⟨rfl, rfl, rfl⟩
  | succ n ih => exact ih

/-- The update of the band locals reads and writes the band locals only. -/
theorem band_advance_congr (env : TrellisEnv) (s u : Trellis)
    (h1 : u.band_left = s.band_left) (h2 : u.band_counts = s.band_counts)
    (h3 : u.token_costs = s.token_costs) :
    (band_advance env u).band_left = (band_advance env s).band_left ∧
    (band_advance env u).band_counts = (band_advance env s).band_counts ∧
    (band_advance env u).token_costs = (band_advance env s).token_costs := by
  unfold band_advance
  dsimp only
  rw [h1, h2, h3]
  generalize (65535 + s.band_left) % 65536 = bl
  by_cases hz : bl = 0
  · rw [if_pos hz, if_pos hz]
    exact ⟨rfl, rfl, rfl⟩
  · rw [if_neg hz, if_neg hz]
    exact ⟨rfl, rfl, rfl⟩

/-- Every branch of an iteration of the backward loop ends with the same update of the
band locals, that of lines 239-243 and 363-367. -/
theorem trellis_step_band (env : TrellisEnv) (b : OptBlock) (i : Nat) (s : Trellis) :
    (trellis_step env b i s).band_left = (band_advance env s).band_left ∧
    (trellis_step env b i s).band_counts = (band_advance env s).band_counts ∧
    (trellis_step env b i s).token_costs = (band_advance env s).token_costs := by
  by_cases hn : is_node b i
  · unfold is_node at hn
    unfold trellis_step
    dsimp only
    rw [if_pos hn]
    by_cases hc : shortcut_cond b (b.scan i) (b.qcoeff (b.scan i)) = true
    · rw [if_pos hc]
      exact band_advance_congr env s _ rfl rfl rfl
    · rw [if_neg hc]
      exact band_advance_congr env s _ rfl rfl rfl
  · rw [trellis_step_zero env b i s hn]
    exact band_advance_congr env s _ rfl rfl rfl

theorem cum_mono (env : TrellisEnv) (nb : Nat)
    (hcum : ∀ bnd : Nat, bnd < nb → env.band_cum_count_table (bnd + 1) =
      env.band_cum_count_table bnd + env.band_count_table (bnd : Int)) :
    ∀ x y, x ≤ y → y ≤ nb → env.band_cum_count_table x ≤ env.band_cum_count_table y := by
  intro x y hxy
  induction y with
  | zero =>
    intro _
    have : x = 0 := by omega
    rw [this]
  | succ y ih =>
    intro hy
    by_cases h : x = y + 1
    · rw [h]
    · have := ih (by omega) (by omega)
      rw [hcum y (by omega)]
      omega

/-- One iteration of the backward loop keeps the band locals in step. -/
theorem bandInv_step (env : TrellisEnv) (b : OptBlock) (i : Nat) (s : Trellis) (nb : Nat)
    (h16 : b.default_eob < 65535)
    (hbt : ∀ p, p < b.default_eob → env.band_translate p < nb)
    (hcum : ∀ bnd : Nat, bnd < nb → env.band_cum_count_table (bnd + 1) =
      env.band_cum_count_table bnd + env.band_count_table (bnd : Int))
    (hrange : ∀ p, p < b.default_eob →
      env.band_cum_count_table (env.band_translate p) ≤ p ∧
        p < env.band_cum_count_table (env.band_translate p + 1))
    (hstep : ∀ p, p + 1 < b.default_eob →
      env.band_translate (p + 1) ≤ env.band_translate p + 1)
    (hi : i + 1 ≤ b.default_eob) (h : BandInv env b s (i + 1)) :
    BandInv env b (trellis_step env b i s) i := by
  obtain ⟨h1, h2, h3⟩ := h
  obtain ⟨e1, e2, e3⟩ := trellis_step_band env b i s
  have hmono := cum_mono env nb hcum
  have hbi : band_at env b i = env.band_translate i := by
    unfold band_at
    rw [if_pos (by omega)]
  have hri := hrange i (by omega)
  have hbti := hbt i (by omega)
  have hcle : env.band_cum_count_table (band_at env b (i + 1)) ≤ i + 1 := by
    unfold band_at
    by_cases hlt : i + 1 < b.default_eob
    · rw [if_pos hlt]
      exact (hrange _ hlt).1
    · rw [if_neg hlt]
      show env.band_cum_count_table (env.band_translate i) ≤ i + 1
      omega
  have hbl : (65535 + s.band_left) % 65536 = s.band_left - 1 := by omega
  unfold BandInv
  rw [e1, e2, e3, hbi]
  unfold band_advance
  dsimp only
  rw [hbl]
  by_cases hz : s.band_left - 1 = 0
  · rw [if_pos hz]
    dsimp only
    have hlt : i + 1 < b.default_eob := by
      by_contra hc
      have hb : band_at env b (i + 1) = env.band_translate i := by
        unfold band_at
        rw [if_neg hc]
        rfl
      rw [hb] at h3
      omega
    have hb : band_at env b (i + 1) = env.band_translate (i + 1) := by
      unfold band_at
      rw [if_pos hlt]
    rw [hb] at h1 h2 h3
    have hlt2 : env.band_translate i < env.band_translate (i + 1) := by
      by_contra hc
      have := hmono _ _ (not_lt.mp hc) (by omega)
      omega
    have hs := hstep i hlt
    have hbt1 : env.band_translate (i + 1) = env.band_translate i + 1 := by omega
    have hint : ((env.band_translate (i + 1) : Nat) : Int) - 1 =
        ((env.band_translate i : Nat) : Int) := by
      rw [hbt1]
      push_cast
      ring
    rw [h1, h2, hint]
    refine ⟨rfl, rfl, ?_⟩
    have hc := hcum (env.band_translate i) hbti
    rw [← hbt1] at hc
    omega
  · rw [if_neg hz]
    dsimp only
    have hb : band_at env b (i + 1) = env.band_translate i := by
      unfold band_at
      by_cases hlt : i + 1 < b.default_eob
      · rw [if_pos hlt]
        have hr1 := hrange (i + 1) hlt
        rcases Nat.lt_trichotomy (env.band_translate (i + 1)) (env.band_translate i) with
          hc | hc | hc
        · have := hmono (env.band_translate (i + 1) + 1) (env.band_translate i) hc (by omega)
          omega
        · exact hc
        · have := hmono (env.band_translate i + 1) (env.band_translate (i + 1)) hc
            (by have := hbt (i + 1) hlt; omega)
          have hb1 : band_at env b (i + 1) = env.band_translate (i + 1) := by
            unfold band_at
            rw [if_pos hlt]
          rw [hb1] at h3
          omega
      · rw [if_neg hlt]
        rfl
    rw [hb] at h1 h2 h3
    exact ⟨h1, h2, by omega⟩

theorem bandInv_after (env : TrellisEnv) (b : OptBlock) (g : Scratch) (nb : Nat)
    (hle : b.eob ≤ b.default_eob) (hpos : 0 < b.default_eob) (h16 : b.default_eob < 65535)
    (hbt : ∀ p, p < b.default_eob → env.band_translate p < nb)
    (hcum : ∀ bnd : Nat, bnd < nb → env.band_cum_count_table (bnd + 1) =
      env.band_cum_count_table bnd + env.band_count_table (bnd : Int))
    (hrange : ∀ p, p < b.default_eob →
      env.band_cum_count_table (env.band_translate p) ≤ p ∧
        p < env.band_cum_count_table (env.band_translate p + 1))
    (hstep : ∀ p, p + 1 < b.default_eob →
      env.band_translate (p + 1) ≤ env.band_translate p + 1) :
    ∀ k, k ≤ b.eob → BandInv env b (trellis_after env b g k) (b.eob - k) := by
  intro k
  induction k with
  | zero =>
    intro _
    obtain ⟨e1, e2, e3⟩ := init_loop_band env b (trellis_init env b g) b.eob
    have hb : band_init env b = band_at env b b.eob := rfl
    have hc : env.band_cum_count_table (band_at env b b.eob) ≤ b.eob := by
      unfold band_at
      by_cases hlt : b.eob < b.default_eob
      · rw [if_pos hlt]
        exact (hrange _ hlt).1
      · rw [if_neg hlt]
        have := (hrange (b.eob - 1) (by omega)).1
        omega
    show BandInv env b (init_loop env b b.eob (trellis_init env b g)) (b.eob - 0)
    unfold BandInv
    rw [e1, e2, e3, Nat.sub_zero]
    refine ⟨?_, ?_, ?_⟩
    · show ((band_init env b : Nat) : Int) = _
      rw [hb]
    · show ((band_init env b : Nat) : Int) = _
      rw [hb]
    · show (((b.eob : Int) - (env.band_cum_count_table (band_init env b) : Int) + 1) %
        65536).toNat + _ = _
      rw [hb]
      omega
  | succ k ih =>
    intro hk
    have h := ih (by omega)
    have e : b.eob - k = (b.eob - (k + 1)) + 1 := by omega
    rw [e] at h
    exact bandInv_step env b _ _ nb h16 hbt hcum hrange hstep (by omega) h

/-- C30. Band bookkeeping stays in step with the scan position.  Assume the band tables
consistent with `band_translate` below `default_eob`: the positions lie in the first
`nb` bands, the cumulative count after each of these bands is the one before it plus the
count of the band, every scan position lies in the range of its band, consecutive positions are in the same band or in consecutive bands, and
position 0 is in band 0.  Then at the start of the backward-loop iteration for scan
position `i`, when `i + 1 < default_eob`, the active cost row and the count pointer are
those of band `band_translate[i + 1]` and `band_left` is the number of positions of that
band up to `i + 1`, one more; every branch of an iteration ends with the one update
`--band_left` of lines 239-243 and 363-367; and after the loop the active row is that of
band 0, which line 377 uses with the caller's `ctx` for the first token. -/
theorem C30_band_bookkeeping (env : TrellisEnv) (b : OptBlock) (g : Scratch) (nb : Nat)
    (hle : b.eob ≤ b.default_eob) (hpos : 0 < b.default_eob) (h16 : b.default_eob < 65535)
    (hbt : ∀ p, p < b.default_eob → env.band_translate p < nb)
    (hcum : ∀ bnd : Nat, bnd < nb → env.band_cum_count_table (bnd + 1) =
      env.band_cum_count_table bnd + env.band_count_table (bnd : Int))
    (hrange : ∀ p, p < b.default_eob →
      env.band_cum_count_table (env.band_translate p) ≤ p ∧
        p < env.band_cum_count_table (env.band_translate p + 1))
    (hstep : ∀ p, p + 1 < b.default_eob →
      env.band_translate (p + 1) ≤ env.band_translate p + 1)
    (h0 : env.band_translate 0 = 0) :
    (∀ i, i < b.eob → i + 1 < b.default_eob →
      (trellis_after env b g (b.eob - (i + 1))).token_costs =
          (env.band_translate (i + 1) : Int) ∧
        (trellis_after env b g (b.eob - (i + 1))).band_counts =
          (env.band_translate (i + 1) : Int) ∧
        (trellis_after env b g (b.eob - (i + 1))).band_left +
          env.band_cum_count_table (env.band_translate (i + 1)) = i + 2) ∧
    (∀ i s, (trellis_step env b i s).band_left = (band_advance env s).band_left ∧
      (trellis_step env b i s).band_counts = (band_advance env s).band_counts ∧
      (trellis_step env b i s).token_costs = (band_advance env s).token_costs) ∧
    (trellis_final env b g).token_costs = 0 ∧
    (∀ k, final_rd_cost env b (trellis_final env b g) k =
      env.RDCOST (rdmult b) b.rddiv
        (((trellis_final env b g).tokens (trellis_final env b g).next k).rate +
          env.token_costs 0 0 b.ctx
            ((trellis_final env b g).tokens (trellis_final env b g).next k).token)
        ((trellis_final env b g).tokens (trellis_final env b g).next k).error) := by
  have hinv := bandInv_after env b g nb hle hpos h16 hbt hcum hrange hstep
  have hfin : (trellis_final env b g).token_costs = 0 := by
    have h := hinv b.eob (le_refl _)
    rw [Nat.sub_self, trellis_after_final] at h
    unfold BandInv at h
    have hb : band_at env b 0 = 0 := by
      unfold band_at
      rw [if_pos hpos, h0]
    rw [h.1, hb]
    rfl
  refine ⟨?_, trellis_step_band env b, hfin, ?_⟩
  · intro i hi hlt
    have h := hinv (b.eob - (i + 1)) (by omega)
    have e : b.eob - (b.eob - (i + 1)) = i + 1 := by omega
    rw [e] at h
    have hb : band_at env b (i + 1) = env.band_translate (i + 1) := by
      unfold band_at
      rw [if_pos hlt]
    unfold BandInv at h
    rw [hb] at h
    exact ⟨h.1, h.2.1, by omega⟩
  · intro k
    unfold final_rd_cost
    rw [hfin]

/-- Witness of C30: the sample environment carries the 4x4 band tables, with 6 bands. -/
theorem C30_band_bookkeeping_witness :
    (trellis_final sample_env sample_block_gap sample_scratch).token_costs = 0 :=
  (C30_band_bookkeeping sample_env sample_block_gap sample_scratch 6 (by decide) (by decide)
    (by decide)
    (by
      intro p hp
      have hp16 : p < 16 := hp
      interval_cases p <;> decide)
    (by
      intro bnd hb
      interval_cases bnd <;> decide)
    (by
      intro p hp
      have hp16 : p < 16 := hp
      interval_cases p <;> decide)
    (by
      intro p hp
      have hp16 : p < 15 := by
        have : p + 1 < 16 := hp
        omega
      interval_cases p <;> decide)
    rfl).2.2.1

/-! ## The recursion over transform sizes -/

/-- A fold whose step at each element is itself a fold over a list of that element is
the fold over the concatenation of the lists. -/
theorem foldlM_flatMap {σ α β : Type} (f : σ → α → Option σ) (g : σ → β → Option σ)
    (L : α → List β) :
    ∀ (l : List α), (∀ x, x ∈ l → ∀ s, f s x = (L x).foldlM g s) →
      ∀ s, l.foldlM f s = (l.flatMap L).foldlM g s := by
  intro l
  induction l with
  | nil => intro _ s; rfl
  | cons x xs ih =>
    intro h s
    rw [List.foldlM_cons, List.flatMap_cons, List.foldlM_append,
      h x (List.mem_cons_self _ _)]
    cases (L x).foldlM g s with
    | none => rfl
    | some u => exact ih (fun y hy => h y (List.mem_cons_of_mem _ hy)) u

/-- A fold of steps that return on every element of the list returns. -/
theorem foldlM_total {σ α : Type} (f : σ → α → Option σ) :
    ∀ (l : List α), (∀ x, x ∈ l → ∀ s, ∃ t, f s x = some t) →
      ∀ s, ∃ t, l.foldlM f s = some t := by
  intro l
  induction l with
  | nil => intro _ s; exact ⟨s, rfl⟩
  | cons x xs ih =>
    intro h s
    obtain ⟨u, hu⟩ := h x (List.mem_cons_self _ _) s
    rw [List.foldlM_cons, hu]
    exact ih (fun y hy => h y (List.mem_cons_of_mem _ hy)) u

/-- Under the size condition a call of `encode_block_inter` is the sequence of the
`encode_block` calls of its leaves. -/
theorem encode_block_inter_leaves (env : PipeEnv) (plane plane_bsize : Nat)
    (htab : ∀ t, 0 < t → 0 < env.b_width_log2_lookup (env.txsize_to_bsize t)) :
    ∀ (tx_size block r c : Nat),
      (∀ a, a ∈ inter_calls env plane plane_bsize tx_size block r c →
        outside_frame env plane plane_bsize a.blk_row a.blk_col = false →
        requested_tx_size env a ≤ a.tx_size) →
      ∀ st, encode_block_inter env plane plane_bsize tx_size block r c st =
        (inter_leaves env plane plane_bsize tx_size block r c).foldlM
          (fun s a => encode_block env a s) st := by
  intro tx_size
  induction tx_size with
  | zero =>
    intro block r c hsize st
    rw [encode_block_inter, inter_leaves]
    dsimp only
    by_cases ho : outside_frame env plane plane_bsize r c = true
    · rw [if_pos ho, if_pos ho]
      rfl
    · rw [if_neg ho, if_neg ho]
      have hself := hsize
        { plane := plane, block := block, blk_row := r, blk_col := c,
          plane_bsize := plane_bsize, tx_size := 0 }
        (by rw [inter_calls]; rw [if_neg ho]; split <;> simp)
        (by simpa using ho)
      have heq : 0 = requested_tx_size env
          { plane := plane, block := block, blk_row := r, blk_col := c,
            plane_bsize := plane_bsize, tx_size := 0 } := by
        have : requested_tx_size env
          { plane := plane, block := block, blk_row := r, blk_col := c,
            plane_bsize := plane_bsize, tx_size := 0 } ≤ 0 := hself
        omega
      rw [if_pos heq, if_pos heq]
      simp [List.foldlM_cons]
  | succ t ih =>
    intro block r c hsize st
    rw [encode_block_inter, inter_leaves]
    dsimp only
    by_cases ho : outside_frame env plane plane_bsize r c = true
    · rw [if_pos ho, if_pos ho]
      rfl
    · rw [if_neg ho, if_neg ho]
      by_cases heq : t + 1 = requested_tx_size env
          { plane := plane, block := block, blk_row := r, blk_col := c,
            plane_bsize := plane_bsize, tx_size := t + 1 }
      · rw [if_pos heq, if_pos heq]
        simp [List.foldlM_cons]
      · rw [if_neg heq, if_neg heq, if_neg (by have := htab (t + 1) (by omega); omega)]
        apply foldlM_flatMap
        intro i hi s
        dsimp only
        split
        · rfl
        · rename_i hoc
          apply ih
          intro a ha hout
          refine hsize a ?_ hout
          rw [inter_calls]
          dsimp only
          rw [if_neg ho, if_neg heq]
          refine List.mem_cons_of_mem _ (List.mem_flatMap.mpr ⟨i, hi, ?_⟩)
          dsimp only
          rw [if_neg hoc]
          exact ha

/-- Every leaf of the recursion lies inside the frame and has the transform size
requested for its position; no call has a larger size than the first. -/
theorem inter_leaves_spec (env : PipeEnv) (plane plane_bsize : Nat) :
    ∀ (tx_size block r c : Nat) (a : BlockArgs),
      a ∈ inter_leaves env plane plane_bsize tx_size block r c →
      a.plane = plane ∧ a.plane_bsize = plane_bsize ∧
        outside_frame env plane plane_bsize a.blk_row a.blk_col = false ∧
        a.tx_size = requested_tx_size env a ∧ a.tx_size ≤ tx_size := by
  intro tx_size
  induction tx_size with
  | zero =>
    intro block r c a ha
    rw [inter_leaves] at ha
    split at ha
    · simp at ha
    · rename_i ho
      split at ha
      · rename_i heq
        simp only [List.mem_singleton] at ha
        subst ha
        exact ⟨rfl, rfl, by simpa using ho, heq, le_refl _⟩
      · simp at ha
  | succ t ih =>
    intro block r c a ha
    rw [inter_leaves] at ha
    dsimp only at ha
    split at ha
    · simp at ha
    · rename_i ho
      split at ha
      · rename_i heq
        simp only [List.mem_singleton] at ha
        subst ha
        exact ⟨rfl, rfl, by simpa using ho, heq, le_refl _⟩
      · obtain ⟨i, -, hi⟩ := List.mem_flatMap.mp ha
        split at hi
        · simp at hi
        · obtain ⟨h1, h2, h3, h4, h5⟩ := ih _ _ _ a hi
          exact ⟨h1, h2, h3, h4, by omega⟩

theorem inter_calls_size (env : PipeEnv) (plane plane_bsize : Nat) :
    ∀ (tx_size block r c : Nat) (a : BlockArgs),
      a ∈ inter_calls env plane plane_bsize tx_size block r c →
      a.plane = plane ∧ a.plane_bsize = plane_bsize ∧ a.tx_size ≤ tx_size := by
  intro tx_size
  induction tx_size with
  | zero =>
    intro block r c a ha
    rw [inter_calls] at ha
    split at ha
    · simp only [List.mem_singleton] at ha
      subst ha
      exact ⟨rfl, rfl, le_refl _⟩
    · split at ha
      · simp only [List.mem_singleton] at ha
        subst ha
        exact ⟨rfl, rfl, le_refl _⟩
      · simp only [List.mem_singleton] at ha
        subst ha
        exact ⟨rfl, rfl, le_refl _⟩
  | succ t ih =>
    intro block r c a ha
    rw [inter_calls] at ha
    dsimp only at ha
    split at ha
    · simp only [List.mem_singleton] at ha
      subst ha
      exact ⟨rfl, rfl, le_refl _⟩
    · split at ha
      · simp only [List.mem_singleton] at ha
        subst ha
        exact ⟨rfl, rfl, le_refl _⟩
      · rcases List.mem_cons.mp ha with ha | ha
        · subst ha
          exact ⟨rfl, rfl, le_refl _⟩
        · obtain ⟨i, -, hi⟩ := List.mem_flatMap.mp ha
          split at hi
          · simp at hi
          · obtain ⟨h1, h2, h3⟩ := ih _ _ _ a hi
            exact ⟨h1, h2, by omega⟩


/-- C25. Variable-transform-size recursion.  Assume the lookup tables give a positive
`b_width_log2` for every transform size above the smallest, and that at every call of
the recursion inside the frame the requested transform size is not larger than the size
passed.  Then no assertion `bsl > 0` fails and the call is the sequence of the
`encode_block` calls of its leaves, so it returns when these do; every leaf lies inside
`max_blocks_high` by `max_blocks_wide` and has the transform size requested for its
position; every call of the recursion has a size no larger than the first; and a call
inside the frame whose size `t + 1` is not the requested one calls, for `i = 0, .., 3`
in order and unless the quadrant starts outside the frame, `encode_block_inter` with
size `t`, row `blk_row + ((i >> 1) << bsl)`, column `blk_col + ((i & 1) << bsl)`, `bsl`
the decremented `b_width_log2`, and block index
`block + i * num_4x4_blocks_txsize_lookup[t]`. -/
theorem C25_var_tx_recursion (env : PipeEnv) (plane plane_bsize tx_size block blk_row
    blk_col : Nat) (st : EncState)
    (htab : ∀ t, 0 < t → 0 < env.b_width_log2_lookup (env.txsize_to_bsize t))
    (hsize : ∀ a, a ∈ inter_calls env plane plane_bsize tx_size block blk_row blk_col →
      outside_frame env plane plane_bsize a.blk_row a.blk_col = false →
      requested_tx_size env a ≤ a.tx_size) :
    encode_block_inter env plane plane_bsize tx_size block blk_row blk_col st =
        (inter_leaves env plane plane_bsize tx_size block blk_row blk_col).foldlM
          (fun s a => encode_block env a s) st ∧
    ((∀ a, a ∈ inter_leaves env plane plane_bsize tx_size block blk_row blk_col →
        ¬ (env.CONFIG_VAR_TX = true ∧ blk_skip_at env a = 234)) →
      ∃ t, encode_block_inter env plane plane_bsize tx_size block blk_row blk_col st =
        some t) ∧
    (∀ a, a ∈ inter_leaves env plane plane_bsize tx_size block blk_row blk_col →
      a.plane = plane ∧ a.plane_bsize = plane_bsize ∧
        outside_frame env plane plane_bsize a.blk_row a.blk_col = false ∧
        a.tx_size = requested_tx_size env a ∧ a.tx_size ≤ tx_size) ∧
    (∀ a, a ∈ inter_calls env plane plane_bsize tx_size block blk_row blk_col →
      a.plane = plane ∧ a.plane_bsize = plane_bsize ∧ a.tx_size ≤ tx_size) ∧
    (∀ (t blk r c : Nat) (s : EncState),
      outside_frame env plane plane_bsize r c = false →
      t + 1 ≠ requested_tx_size env
        { plane := plane, block := blk, blk_row := r, blk_col := c,
          plane_bsize := plane_bsize, tx_size := t + 1 } →
      encode_block_inter env plane plane_bsize (t + 1) blk r c s =
        [0, 1, 2, 3].foldlM
          (fun u i =>
            if outside_frame env plane plane_bsize
                (r + (i / 2) * 2 ^ (env.b_width_log2_lookup (env.txsize_to_bsize (t + 1)) - 1))
                (c + (i % 2) * 2 ^ (env.b_width_log2_lookup (env.txsize_to_bsize (t + 1)) - 1))
            then some u
            else
              encode_block_inter env plane plane_bsize t
                (blk + i * env.num_4x4_blocks_txsize_lookup t)
                (r + (i / 2) * 2 ^ (env.b_width_log2_lookup (env.txsize_to_bsize (t + 1)) - 1))
                (c + (i % 2) * 2 ^ (env.b_width_log2_lookup (env.txsize_to_bsize (t + 1)) - 1))
                u)
          s) := by
  have hmain := encode_block_inter_leaves env plane plane_bsize htab tx_size block blk_row
    blk_col hsize st
  refine ⟨hmain, ?_, inter_leaves_spec env plane plane_bsize tx_size block blk_row blk_col,
    inter_calls_size env plane plane_bsize tx_size block blk_row blk_col, ?_⟩
  · intro hb
    rw [hmain]
    exact foldlM_total _ _ (fun a ha s => encode_block_total env a s (hb a ha)) st
  · intro t blk r c s ho heq
    rw [encode_block_inter]
    dsimp only
    rw [if_neg (by simp [ho]), if_neg heq, if_neg (by have := htab (t + 1) (by omega); omega)]

/-- Witness of C25: an 8x8 call on the sample pipeline, whose positions all request 4x4,
is split; two quadrants lie inside the frame. -/
theorem C25_var_tx_recursion_witness :
    encode_block_inter { sample_pipe with CONFIG_VAR_TX := true } 0 0 1 0 0 0 sample_state =
      (inter_leaves { sample_pipe with CONFIG_VAR_TX := true } 0 0 1 0 0 0).foldlM
        (fun s a => encode_block { sample_pipe with CONFIG_VAR_TX := true } a s)
        sample_state :=
  (C25_var_tx_recursion { sample_pipe with CONFIG_VAR_TX := true } 0 0 1 0 0 0 sample_state
    (fun _ _ => Nat.one_pos)
    (by
      intro a ha _
      have hl : inter_calls { sample_pipe with CONFIG_VAR_TX := true } 0 0 1 0 0 0 =
          [{ plane := 0, block := 0, blk_row := 0, blk_col := 0, plane_bsize := 0,
             tx_size := 1 },
           { plane := 0, block := 0, blk_row := 0, blk_col := 0, plane_bsize := 0,
             tx_size := 0 },
           { plane := 0, block := 1, blk_row := 0, blk_col := 1, plane_bsize := 0,
             tx_size := 0 }] := by decide
      rw [hl] at ha
      simp only [List.mem_cons, List.mem_singleton, List.not_mem_nil, or_false] at ha
      rcases ha with h | h | h <;> rw [h] <;> decide)).1

end Av1
